import Mathlib

/-!
# GNOME Builder: run manager, XML attribute completion, change monitor,
shell commands, line deletion

A shallow embedding of five pieces of the repository:

* `src/libide/foundry/ide-run-manager.c` (namespace `RunManager`),
* `plugins/xml-pack/ide-xml-completion-attributes.c` (namespace `XmlAttributes`),
* `src/editor/gb-source-change-monitor.c` (namespace `ChangeMonitor`),
* `src/plugins/shellcmd/gbp-shellcmd-run-command.c` (namespace `Shellcmd`),
* `src/libide/sourceview/ide-text-util.c` (namespace `TextUtil`).

C functions keep their names.  Objects that live behind GObject pointers are
records; a `NULL`-able pointer is an `Option`.  Asynchronous operations are
split at their callbacks: every C callback is one Lean function which takes
the result the finished operation reports and yields the next state.
-/

/-! # Definitions -/

/-- `ide_str_empty0`: the string is `NULL` or has length zero. -/
def ide_str_empty0 : Option String → Bool
  | none => true
  | some s => s == ""

/-- `G_MAXINT`. -/
def G_MAXINT : Int := 2147483647

namespace RunManager

/-! ## Errors and task results -/

/-- The error codes of the `G_IO_ERROR` domain used by the run manager, and
    `other` for every other domain/code pair an operation may report. -/
inductive GErrorCode where
  | G_IO_ERROR_FAILED
  | G_IO_ERROR_NOT_FOUND
  | G_IO_ERROR_CANCELLED
  | G_IO_ERROR_BUSY
  | G_IO_ERROR_NOT_SUPPORTED
  | other (domain : String) (code : Int)
  deriving DecidableEq, Repr

/-- A `GError`: code (with its domain) and message. -/
structure GError where
  code : GErrorCode
  message : String
  deriving DecidableEq, Repr

/-- What an `IdeTask` was completed with: `ide_task_return_pointer` /
    `ide_task_return_boolean (task, TRUE)` give `value`, `ide_task_return_error`
    and `ide_task_return_new_error` give `error`. -/
inductive TaskResult (α : Type) where
  | value (a : α)
  | error (e : GError)
  deriving DecidableEq, Repr

/-- `ide_task_propagate_pointer`: the returned pointer (`NULL` on error) and the
    `GError` stored through the `error` out-parameter (unset on success). -/
def ide_task_propagate_pointer {α : Type} : TaskResult α → Option α × Option GError
  | .value a => (some a, none)
  | .error e => (none, some e)

/-! ## Run commands and discovery -/

/-- An `IdeRunCommand` as far as the run manager reads it
    (`ide_run_command_get_id`, `_get_priority`, `_get_display_name`). -/
structure IdeRunCommand where
  id : Option String
  priority : Int
  display_name : Option String
  deriving DecidableEq, Repr

/-- The `for` loop of `ide_run_manager_discover_run_command_cb` over the items
    not yet visited, with the loop variables `best` and `best_priority`;
    the tail after the loop is the `[]` case. -/
def discover_loop (default_id : Option String) :
    List IdeRunCommand → Option IdeRunCommand → Int → TaskResult IdeRunCommand
  | [], best, _ =>
    match best with
    | some b => .value b
    | none => .error ⟨.G_IO_ERROR_NOT_FOUND, "No run command discovered. Set one manually."⟩
  | run_command :: rest, best, best_priority =>
    if !ide_str_empty0 run_command.id && !ide_str_empty0 default_id
        && default_id == run_command.id then
      .value run_command
    else if best.isNone || run_command.priority < best_priority then
      discover_loop default_id rest (some run_command) run_command.priority
    else
      discover_loop default_id rest best best_priority

/-- `ide_run_manager_discover_run_command_cb`: `listing` is what
    `ide_run_manager_list_commands_finish` reports, `default_id` the task data
    (the copy of `self->default_run_command` taken by
    `ide_run_manager_discover_run_command_async`). -/
def ide_run_manager_discover_run_command_cb (default_id : Option String)
    (listing : TaskResult (List IdeRunCommand)) : TaskResult IdeRunCommand :=
  match listing with
  | .error e => .error e
  | .value model => discover_loop default_id model none G_MAXINT

/-- `ide_run_manager_discover_run_command_finish`. -/
def ide_run_manager_discover_run_command_finish (result : TaskResult IdeRunCommand) :
    Option IdeRunCommand × Option GError :=
  ide_task_propagate_pointer result

/-! ## The manager object and the state around it -/

/-- Identity of a `GCancellable` object. -/
abbrev GCancellable := Nat

/-- Identity of an `IdeSubprocess` object. -/
abbrev IdeSubprocess := Nat

/-- Identity of an `IdePipeline` object. -/
abbrev IdePipeline := Nat

/-- An `IdeRunHandlerInfo` (`id`, `title`, `icon_name` as set by
    `ide_run_manager_add_handler`). -/
structure IdeRunHandlerInfo where
  id : String
  title : String
  icon_name : Option String
  deriving DecidableEq, Repr

/-- The fields of `struct _IdeRunManager`.  `notif` holds the title of the
    attached notification; `busy` is a `guint`. -/
structure IdeRunManager where
  cancellable : Option GCancellable
  notif : Option String
  handler : Option IdeRunHandlerInfo
  handlers : List IdeRunHandlerInfo
  current_subprocess : Option IdeSubprocess
  current_run_command : Option IdeRunCommand
  last_change_seq : Nat
  pending_last_change_seq : Nat
  default_run_command : Option String
  busy : Nat
  messages_debug_all : Bool
  has_installed_once : Bool
  deriving DecidableEq, Repr

/-- The calls the run manager makes on other components, and the results it
    reads back from them, in the order in which they happen. -/
inductive Effect where
  | mark_busy
  | unmark_busy
  | install_async
  | build_async
  | install_finish (r : TaskResult Unit)
  | discover_run_command_async
  | discover_run_command_finish (r : TaskResult IdeRunCommand)
  | deploy_async
  | deploy_finish (r : TaskResult Unit)
  | run_context_new
  | run_context_end (r : TaskResult Unit)
  | launcher_spawn (r : TaskResult IdeSubprocess)
  | wait_check_async (subprocess : IdeSubprocess)
  | wait_check_finish (r : TaskResult Unit)
  | force_exit (subprocess : IdeSubprocess)
  | stopped
  | task_return (r : TaskResult Unit)
  deriving DecidableEq, Repr

/-- The manager together with the process state its functions touch:
    which cancellables are cancelled, which are chained to which
    (`ide_cancellable_chain (self, other)` is stored as `(self, other)`), the
    `do_cancel_in_timeout` sources that have been added and not yet run, the
    next unused object identity, and the effects so far. -/
structure World where
  self : IdeRunManager
  cancelled : List GCancellable
  chains : List (GCancellable × GCancellable)
  cancel_timeouts : List GCancellable
  next_object : Nat
  trace : List Effect
  deriving DecidableEq, Repr

/-- Append one effect to the trace. -/
def World.log (w : World) (e : Effect) : World :=
  { w with trace := w.trace ++ [e] }

/-- `g_cancellable_new`: a fresh, not cancelled object. -/
def g_cancellable_new (w : World) : World × GCancellable :=
  ({ w with next_object := w.next_object + 1 }, w.next_object)

/-- `g_cancellable_is_cancelled` (`FALSE` for `NULL`). -/
def g_cancellable_is_cancelled (w : World) : Option GCancellable → Bool
  | none => false
  | some c => decide (c ∈ w.cancelled)

/-- `ide_cancellable_chain (self, other)`: when `other` is cancelled, `self` is
    cancelled too; nothing is done for a `NULL` `other`. -/
def ide_cancellable_chain (w : World) (self : GCancellable) :
    Option GCancellable → World
  | none => w
  | some other => { w with chains := w.chains ++ [(self, other)] }

/-- The run task made by `ide_run_manager_run_async`: its cancellable, its
    task data (the pipeline) and whether `ide_run_manager_unmark_busy` is
    connected to its `notify::completed`. -/
structure IdeTask where
  cancellable : GCancellable
  task_data : Option IdePipeline
  unmark_busy_connected : Bool
  deriving DecidableEq, Repr

/-- Where a run is: the operation in flight (named after the callback that will
    receive its result), or the result the run task was returned with, before
    (`returned`) and after (`completed`) its completion was dispatched, or the
    end of the program at a `g_assert` that failed (`aborted`). -/
inductive Stage where
  | install_cb
  | run_install_cb (install : TaskResult Unit)
  | discover_run_command_cb (default_id : Option String)
  | run_discover_run_command_cb (discovered : TaskResult IdeRunCommand)
  | run_deploy_cb
  | run_subprocess_wait_check_cb (subprocess : IdeSubprocess)
  | returned (r : TaskResult Unit)
  | completed (r : TaskResult Unit)
  | aborted
  deriving DecidableEq, Repr

/-- The objects of which the run chain asks `G_IS_CANCELLABLE`. -/
inductive GObject where
  | cancellable (c : GCancellable)
  | task (task : IdeTask)
  deriving DecidableEq, Repr

/-- `G_IS_CANCELLABLE`: the type check of an instance; an `IdeTask` is not a
    `GCancellable`. -/
def G_IS_CANCELLABLE : GObject → Bool
  | .cancellable _ => true
  | .task _ => false

/-- `ide_task_get_cancellable` of the run task: the cancellable
    `ide_run_manager_run_async` made the task with, which is never `NULL`. -/
def ide_task_get_cancellable (task : IdeTask) : Option GCancellable :=
  some task.cancellable

/-- The 32-bit width of `guint`. -/
def G_MAXUINT_plus_1 : Nat := 4294967296

/-- `ide_run_manager_mark_busy`: `self->busy++`. -/
def ide_run_manager_mark_busy (w : World) : World :=
  { w with self.busy := (w.self.busy + 1) % G_MAXUINT_plus_1,
           trace := w.trace ++ [.mark_busy] }

/-- `ide_run_manager_unmark_busy`: `self->busy--` on a `guint`. -/
def ide_run_manager_unmark_busy (w : World) : World :=
  { w with self.busy := (w.self.busy + G_MAXUINT_plus_1 - 1) % G_MAXUINT_plus_1,
           trace := w.trace ++ [.unmark_busy] }

/-- `ide_run_manager_get_busy`. -/
def ide_run_manager_get_busy (self : IdeRunManager) : Bool :=
  decide (self.busy > 0)

/-- `ide_run_manager_check_busy`: the error it sets when it returns `TRUE`,
    `none` when it returns `FALSE`. -/
def ide_run_manager_check_busy (self : IdeRunManager) : Option GError :=
  if ide_run_manager_get_busy self then
    some ⟨.G_IO_ERROR_BUSY, "Cannot run target, another target is running"⟩
  else
    none

/-- `ide_task_return_*` on the run task: the task holds the result from now on;
    its completion is dispatched later (`ide_task_completed`). -/
def ide_task_return (w : World) (r : TaskResult Unit) : World × Stage :=
  (w.log (.task_return r), .returned r)

/-- `ide_run_manager_install_async`: `install_before_run` is the project
    setting, `monitor` the sequence of the VCS monitor (`none` when
    `ide_vcs_monitor_from_context` gives `NULL`, which leaves `sequence` 0). -/
def ide_run_manager_install_async (w : World) (install_before_run : Bool)
    (monitor : Option Nat) : World × Stage :=
  let w := w.log .install_async
  if !install_before_run then
    (w, .run_install_cb (.value ()))
  else
    let sequence := monitor.getD 0
    if w.self.has_installed_once && sequence == w.self.last_change_seq then
      (w, .run_install_cb (.value ()))
    else
      let w := { w with self.pending_last_change_seq := sequence }
      (w.log .build_async, .install_cb)

/-- `ide_run_manager_install_cb`: `build` is what
    `ide_build_manager_build_finish` reports. -/
def ide_run_manager_install_cb (w : World) (build : TaskResult Unit) : World × Stage :=
  match build with
  | .error e => (w, .run_install_cb (.error e))
  | .value _ => (w, .run_install_cb (.value ()))

/-- `ide_run_manager_discover_run_command_async`: the task data is a copy of
    `self->default_run_command`. -/
def ide_run_manager_discover_run_command_async (w : World) : World × Stage :=
  (w.log .discover_run_command_async, .discover_run_command_cb w.self.default_run_command)

/-- `ide_run_manager_run_install_cb`. -/
def ide_run_manager_run_install_cb (w : World) (install : TaskResult Unit) :
    World × Stage :=
  let w := w.log (.install_finish install)
  match install with
  | .error e => ide_task_return w (.error e)
  | .value _ => ide_run_manager_discover_run_command_async w

/-- `ide_run_manager_run_discover_run_command_cb`.  After the run command is
    stored comes `g_assert (!cancellable || G_IS_CANCELLABLE (task))`, which
    asks the type of the task, not of its cancellable; where it fails the
    program aborts. -/
def ide_run_manager_run_discover_run_command_cb (w : World) (task : IdeTask)
    (discovered : TaskResult IdeRunCommand) : World × Stage :=
  let w := w.log (.discover_run_command_finish discovered)
  match discovered with
  | .error e => ide_task_return w (.error e)
  | .value run_command =>
    let w := { w with self.current_run_command := some run_command }
    let cancellable := ide_task_get_cancellable task
    if cancellable.isNone || G_IS_CANCELLABLE (.task task) then
      (w.log .deploy_async, .run_deploy_cb)
    else
      (w, .aborted)

/-- `ide_run_manager_run_deploy_cb`: `deploy` is what
    `ide_deploy_strategy_deploy_finish` reports, `launcher` what
    `ide_run_context_end` reports and `spawn` what
    `ide_subprocess_launcher_spawn` reports. -/
def ide_run_manager_run_deploy_cb (w : World) (deploy : TaskResult Unit)
    (launcher : TaskResult Unit) (spawn : TaskResult IdeSubprocess) : World × Stage :=
  let w := w.log (.deploy_finish deploy)
  match deploy with
  | .error e => ide_task_return w (.error e)
  | .value _ =>
    match w.self.current_run_command with
    | none => ide_task_return w (.error ⟨.G_IO_ERROR_CANCELLED, "The operation was cancelled"⟩)
    | some current_run_command =>
      let w := w.log .run_context_new
      let w := w.log (.run_context_end launcher)
      match launcher with
      | .error e => ide_task_return w (.error e)
      | .value _ =>
        let w := w.log (.launcher_spawn spawn)
        match spawn with
        | .error e => ide_task_return w (.error e)
        | .value subprocess =>
          let title := "Running " ++ current_run_command.display_name.getD "(null)" ++ "…"
          let w := { w with self.notif := some title }
          (w.log (.wait_check_async subprocess), .run_subprocess_wait_check_cb subprocess)

/-- `ide_run_manager_run_subprocess_wait_check_cb`: `wait` is what
    `ide_subprocess_wait_check_finish` reports. -/
def ide_run_manager_run_subprocess_wait_check_cb (w : World) (wait : TaskResult Unit) :
    World × Stage :=
  let w := { w with self.notif := none, self.current_subprocess := none }
  let w := w.log (.wait_check_finish wait)
  let (w, stage) := match wait with
    | .error e => ide_task_return w (.error e)
    | .value _ => ide_task_return w (.value ())
  (w.log .stopped, stage)

/-- `ide_run_manager_run_async`.  `none` is the `g_return_if_fail` exit (no task
    is made); otherwise the world, the task and where the run stands.
    `pipeline` is what `ide_build_manager_get_pipeline` gives. -/
def ide_run_manager_run_async (w : World) (cancellable : Option GCancellable)
    (pipeline : Option IdePipeline) (install_before_run : Bool) (monitor : Option Nat) :
    Option (World × IdeTask × Stage) :=
  if g_cancellable_is_cancelled w w.self.cancellable then
    none
  else
    let (w, cancellable) := match cancellable with
      | some c => (w, c)
      | none => g_cancellable_new w
    let w := ide_cancellable_chain w cancellable w.self.cancellable
    let task : IdeTask :=
      { cancellable := cancellable, task_data := none, unmark_busy_connected := false }
    if g_cancellable_is_cancelled w (some cancellable) then
      let (w, stage) :=
        ide_task_return w (.error ⟨.G_IO_ERROR_CANCELLED, "Operation was cancelled"⟩)
      some (w, task, stage)
    else
      match ide_run_manager_check_busy w.self with
      | some error =>
        let (w, stage) := ide_task_return w (.error error)
        some (w, task, stage)
      | none =>
        let w := ide_run_manager_mark_busy w
        let task := { task with unmark_busy_connected := true }
        match pipeline with
        | none =>
          let (w, stage) :=
            ide_task_return w (.error ⟨.G_IO_ERROR_NOT_FOUND, "A pipeline cannot be found"⟩)
          some (w, task, stage)
        | some p =>
          let task := { task with task_data := some p }
          let (w, stage) := ide_run_manager_install_async w install_before_run monitor
          some (w, task, stage)

/-- Completion of the run task: its `notify::completed` runs the connected
    `ide_run_manager_unmark_busy`. -/
def ide_task_completed (w : World) (task : IdeTask) (r : TaskResult Unit) : World × Stage :=
  if task.unmark_busy_connected then
    (ide_run_manager_unmark_busy w, .completed r)
  else
    (w, .completed r)

/-- `ide_run_manager_cancel`. -/
def ide_run_manager_cancel (w : World) : World :=
  match w.self.current_subprocess with
  | some subprocess => w.log (.force_exit subprocess)
  | none =>
    let w := match w.self.cancellable with
      | some c => { w with cancel_timeouts := w.cancel_timeouts ++ [c],
                           self.cancellable := none }
      | none => w
    let (w, c) := g_cancellable_new w
    { w with self.cancellable := some c }

/-- `g_cancellable_cancel`: the object becomes cancelled, and so does every
    cancellable chained to it. -/
def g_cancellable_cancel (w : World) (c : GCancellable) : World :=
  { w with cancelled :=
      w.cancelled ++ c :: (w.chains.filter (fun p => p.2 == c)).map (fun p => p.1) }

/-- `do_cancel_in_timeout` for the oldest pending source: the cancellable it
    owns is cancelled unless it already is. -/
def do_cancel_in_timeout (w : World) : World :=
  match w.cancel_timeouts with
  | [] => w
  | c :: rest =>
    if g_cancellable_is_cancelled w (some c) then
      { w with cancel_timeouts := rest }
    else
      g_cancellable_cancel { w with cancel_timeouts := rest } c

/-- `_ide_run_manager_drop_caches`. -/
def _ide_run_manager_drop_caches (w : World) : World :=
  { w with self.last_change_seq := 0 }

/-- `ide_run_manager_init` on a zero-filled instance: a fresh cancellable and the
    "run" handler, which `ide_run_manager_add_handler` also makes current. -/
def ide_run_manager_init : World :=
  let info : IdeRunHandlerInfo :=
    { id := "run", title := "Run", icon_name := some "builder-run-start-symbolic" }
  { self :=
      { cancellable := some 0, notif := none, handler := some info, handlers := [info],
        current_subprocess := none, current_run_command := none,
        last_change_seq := 0, pending_last_change_seq := 0,
        default_run_command := none, busy := 0,
        messages_debug_all := false, has_installed_once := false },
    cancelled := [], chains := [], cancel_timeouts := [], next_object := 1, trace := [] }

/-- What the environment answers during one run: the project setting and VCS
    sequence read by `ide_run_manager_install_async`, and the result of every
    operation the run waits for. -/
structure Outcomes where
  install_before_run : Bool
  monitor : Option Nat
  build : TaskResult Unit
  listing : TaskResult (List IdeRunCommand)
  deploy : TaskResult Unit
  launcher : TaskResult Unit
  spawn : TaskResult IdeSubprocess
  wait : TaskResult Unit
  deriving DecidableEq, Repr

/-- One dispatch of the main loop for the run: the callback the stage names is
    called with the result of its operation. -/
def dispatch (o : Outcomes) (task : IdeTask) (w : World) : Stage → World × Stage
  | .install_cb => ide_run_manager_install_cb w o.build
  | .run_install_cb install => ide_run_manager_run_install_cb w install
  | .discover_run_command_cb default_id =>
    (w, .run_discover_run_command_cb
          (ide_run_manager_discover_run_command_cb default_id o.listing))
  | .run_discover_run_command_cb discovered =>
    ide_run_manager_run_discover_run_command_cb w task discovered
  | .run_deploy_cb => ide_run_manager_run_deploy_cb w o.deploy o.launcher o.spawn
  | .run_subprocess_wait_check_cb _ => ide_run_manager_run_subprocess_wait_check_cb w o.wait
  | .returned r => ide_task_completed w task r
  | .completed r => (w, .completed r)
  | .aborted => (w, .aborted)

/-- Dispatch `n` times. -/
def main_loop (o : Outcomes) (task : IdeTask) : Nat → World × Stage → World × Stage
  | 0, ws => ws
  | n + 1, (w, stage) => main_loop o task n (dispatch o task w stage)

/-- A whole run: `ide_run_manager_run_async`, then the main loop until the run
    task has completed or the program has aborted (the chain has eight
    callbacks at most). -/
def run (w : World) (cancellable : Option GCancellable) (pipeline : Option IdePipeline)
    (o : Outcomes) : Option (World × Stage) :=
  match ide_run_manager_run_async w cancellable pipeline o.install_before_run o.monitor with
  | none => none
  | some (w, task, stage) => some (main_loop o task 8 (w, stage))

/-! ## Reading a trace -/

/-- The four steps of a run. -/
inductive Step where
  | install
  | discover
  | deploy
  | launch
  deriving DecidableEq, Repr

/-- The effect with which a step is begun: the call of
    `ide_run_manager_install_async`, of
    `ide_run_manager_discover_run_command_async`, of
    `ide_deploy_strategy_deploy_async`, and for the launch of the process the
    set-up of its run context. -/
def Effect.begins : Effect → Option Step
  | .install_async => some .install
  | .discover_run_command_async => some .discover
  | .deploy_async => some .deploy
  | .run_context_new => some .launch
  | _ => none

/-- The effects added to the trace between two worlds. -/
def effects_since (w w' : World) : List Effect :=
  w'.trace.drop w.trace.length

/-- The cancellable the run task gets: the one passed, or a new one. -/
def task_cancellable (w : World) : Option GCancellable → GCancellable
  | some c => c
  | none => w.next_object

/-- The call of `ide_run_manager_run_async` is neither refused nor rejected as
    cancelled: the manager's cancellable and the task's are not cancelled. -/
def not_cancelled (w : World) (cancellable : Option GCancellable) : Prop :=
  g_cancellable_is_cancelled w w.self.cancellable = false ∧
  task_cancellable w cancellable ∉ w.cancelled

/-- The outcomes used in the examples: install before run with VCS sequence 5,
    one command listed, everything succeeds. -/
def all_succeed : Outcomes :=
  { install_before_run := true, monitor := some 5, build := .value (),
    listing := .value [⟨some "app", 0, some "App"⟩], deploy := .value (),
    launcher := .value (), spawn := .value 42, wait := .value () }

/-- The world once `ide_run_manager_run_async` has got its cancellable (a new
    one when `NULL` was passed) and chained it to the manager's. -/
def chained (w : World) (cancellable : Option GCancellable) : World :=
  match cancellable with
  | some c => ide_cancellable_chain w c w.self.cancellable
  | none => ide_cancellable_chain (g_cancellable_new w).1 w.next_object w.self.cancellable

/-- A world in which a run has been accepted and its install build is in
    flight: the initial state after one call of `ide_run_manager_run_async`. -/
def running : World :=
  match ide_run_manager_run_async ide_run_manager_init none (some 7) true (some 5) with
  | some (w, _, _) => w
  | none => ide_run_manager_init

/-! ## The install step, example runs, steps of the program -/

/-- Whether `ide_run_manager_install_async` starts a build: its two tests, that
    install-before-run is set and that the install is not taken to be up to
    date (`has_installed_once` with an unchanged sequence). -/
def install_builds (self : IdeRunManager) (o : Outcomes) : Bool :=
  o.install_before_run &&
    !(self.has_installed_once && o.monitor.getD 0 == self.last_change_seq)

/-- What the install task of a run returns: the result of the build, or
    success at once where no build is started. -/
def install_result (self : IdeRunManager) (o : Outcomes) : TaskResult Unit :=
  if install_builds self o then o.build else .value ()

/-- The effects with which the install step is begun. -/
def install_effects (self : IdeRunManager) (o : Outcomes) : List Effect :=
  if install_builds self o then [.install_async, .build_async] else [.install_async]

/-- The outcomes used for a run that completes: install before run with VCS
    sequence 5, the build succeeds, no run command is listed, so that discovery
    fails. -/
def discovery_fails : Outcomes :=
  { all_succeed with listing := .value [] }

/-- The initial state after one whole run in which the install build succeeds
    and discovery fails (install before run, VCS sequence 5). -/
def after_first_run : World :=
  match run ide_run_manager_init none (some 7) discovery_fails with
  | some (w, _) => w
  | none => ide_run_manager_init

/-- The state after a second such run, again with VCS sequence 5. -/
def after_second_run : World :=
  match run after_first_run none (some 7) discovery_fails with
  | some (w, _) => w
  | none => after_first_run

/-- One step of the program on the manager: a call of
    `ide_run_manager_run_async`, of `ide_run_manager_cancel` or of
    `_ide_run_manager_drop_caches`, or the main loop calling a callback of a run
    (whichever, with whatever result) or a pending `do_cancel_in_timeout`. -/
inductive Operation where
  | run_async (cancellable : Option GCancellable) (pipeline : Option IdePipeline)
      (install_before_run : Bool) (monitor : Option Nat)
  | callback (o : Outcomes) (task : IdeTask) (stage : Stage)
  | cancel
  | cancel_in_timeout
  | drop_caches

/-- The world after one step. -/
def Operation.apply (w : World) : Operation → World
  | .run_async cancellable pipeline install_before_run monitor =>
    match ide_run_manager_run_async w cancellable pipeline install_before_run monitor with
    | some (w', _, _) => w'
    | none => w
  | .callback o task stage => (dispatch o task w stage).1
  | .cancel => ide_run_manager_cancel w
  | .cancel_in_timeout => do_cancel_in_timeout w
  | .drop_caches => _ide_run_manager_drop_caches w

/-- The world after a sequence of steps from `ide_run_manager_init`. -/
def after_operations (ops : List Operation) : World :=
  ops.foldl Operation.apply ide_run_manager_init

end RunManager

namespace XmlAttributes

/-! ## The definition graph -/

/-- The values of `IdeXmlRngDefineType`: the cases of the `switch` in
    `process_matching_state`. -/
inductive IdeXmlRngDefineType where
  | NOOP | DEFINE | EMPTY | NOTALLOWED | TEXT | ELEMENT | DATATYPE | VALUE | LIST | REF
  | PARENTREF | EXTERNALREF | ZEROORMORE | ONEORMORE | OPTIONAL | CHOICE | GROUP
  | ATTRIBUTES_GROUP | INTERLEAVE | ATTRIBUTE | START | PARAM | EXCEPT
  deriving DecidableEq, Repr

/-- A non-`NULL` `IdeXmlRngDefine *`. -/
abbrev Ptr := Nat

/-- The fields of an `IdeXmlRngDefine` the matcher reads; the three links are
    pointers and may be `NULL`. -/
structure IdeXmlRngDefine where
  type : IdeXmlRngDefineType
  name : Option String
  content : Option Ptr
  attributes : Option Ptr
  next : Option Ptr
  deriving DecidableEq, Repr

/-- The memory holding the defines: what each pointer points to.  Links may
    form cycles. -/
abbrev Heap := Ptr → IdeXmlRngDefine

/-- A `MatchItem`. -/
structure MatchItem where
  name : String
  pos : Int
  is_optional : Bool
  deriving DecidableEq, Repr

/-- The fields of `MatchingState` that are read or written (`stack`, `node` and
    `match_children` never are). -/
structure MatchingState where
  define : Ptr
  node_attr : List String
  is_initial_state : Bool
  is_optional : Bool
  deriving DecidableEq, Repr

/-- How a call can end without a result: a `g_assert` fails (the program
    aborts), or the walk has not finished within the fuel given. -/
inductive Fault where
  | assertion
  | out_of_fuel
  deriving DecidableEq, Repr

/-- An `IdeXmlSymbolNode` as far as `ide_xml_symbol_node_get_attributes_names`
    shows it (`NULL` when the node has no attributes). -/
structure IdeXmlSymbolNode where
  attributes_names : Option (List String)
  deriving DecidableEq, Repr

/-! ## The matcher -/

/-- `process_attribute`: nothing for a define without a name, else one item with
    the index of the first node attribute of that name, or -1.  Its `g_assert` on
    the type holds at its only call, in the ATTRIBUTE case of the `switch`. -/
def process_attribute (h : Heap) (state : MatchingState) : List MatchItem :=
  let name := (h state.define).name
  if ide_str_empty0 name then []
  else
    let name := name.getD ""
    match state.node_attr.findIdx? (fun attr => name == attr) with
    | some i => [⟨name, i, state.is_optional⟩]
    | none => [⟨name, -1, state.is_optional⟩]

/-- `get_match_children_min_pos`. -/
def get_match_children_min_pos (match_children : List MatchItem) : Int :=
  let min_pos := match_children.foldl
    (fun min_pos item =>
      if item.pos == -1 then min_pos
      else if item.pos < min_pos then item.pos else min_pos) G_MAXINT
  if min_pos == G_MAXINT then -1 else min_pos

open IdeXmlRngDefineType in
mutual
/-- `process_matching_state`.  Every call, of this and of the functions below,
    takes one unit of fuel; `state` is passed in and handed back.  A `NULL`
    `define` fails the first `g_assert`. -/
def process_matching_state (h : Heap) :
    Nat → MatchingState → Option Ptr → Except Fault (MatchingState × Option (List MatchItem))
  | 0, _, _ => .error .out_of_fuel
  | _ + 1, _, none => .error .assertion
  | fuel + 1, state, some define =>
    let old_define := state.define
    let state := { state with define := define }
    let type := if state.is_initial_state then ATTRIBUTES_GROUP else (h define).type
    let state := { state with is_initial_state := false }
    let r : Except Fault (MatchingState × Option (List MatchItem)) :=
      match type with
      | ATTRIBUTE => .ok (state, some (process_attribute h state))
      | NOOP | NOTALLOWED | TEXT | DATATYPE | VALUE | EMPTY | ELEMENT | START | PARAM
      | EXCEPT | LIST => .ok (state, none)
      | DEFINE | REF | PARENTREF | EXTERNALREF =>
        process_matching_state h fuel state (h define).content
      | ZEROORMORE | ONEORMORE | OPTIONAL =>
        let old_optional := state.is_optional
        let state :=
          if type = ZEROORMORE ∨ type = OPTIONAL then { state with is_optional := true }
          else state
        match process_group h fuel state with
        | .error f => .error f
        | .ok (state, m) => .ok ({ state with is_optional := old_optional }, some m)
      | CHOICE =>
        match process_choice h fuel state with
        | .error f => .error f
        | .ok (state, m) => .ok (state, some m)
      | INTERLEAVE | GROUP =>
        match process_group h fuel state with
        | .error f => .error f
        | .ok (state, m) => .ok (state, some m)
      | ATTRIBUTES_GROUP =>
        match process_attributes_group h fuel state with
        | .error f => .error f
        | .ok (state, m) => .ok (state, some m)
    match r with
    | .error f => .error f
    | .ok (state, m) => .ok ({ state with define := old_define }, m)

/-- `process_group`, with its `g_assert` on the type of `state->define`. -/
def process_group (h : Heap) :
    Nat → MatchingState → Except Fault (MatchingState × List MatchItem)
  | 0, _ => .error .out_of_fuel
  | fuel + 1, state =>
    let type := (h state.define).type
    if type = GROUP ∨ type = ATTRIBUTE ∨ type = ZEROORMORE ∨ type = ONEORMORE
        ∨ type = OPTIONAL then
      children_loop h fuel state (h state.define).content []
    else .error .assertion

/-- `process_attributes_group`, with its `g_assert` on the type of
    `state->define`. -/
def process_attributes_group (h : Heap) :
    Nat → MatchingState → Except Fault (MatchingState × List MatchItem)
  | 0, _ => .error .out_of_fuel
  | fuel + 1, state =>
    if (h state.define).type = ELEMENT then
      children_loop h fuel state (h state.define).attributes []
    else .error .assertion

/-- The `while (defines != NULL)` loop of `process_group` and of
    `process_attributes_group` (the two are the same), from `defines` on, with the
    `match_children` collected so far. -/
def children_loop (h : Heap) :
    Nat → MatchingState → Option Ptr → List MatchItem →
      Except Fault (MatchingState × List MatchItem)
  | 0, _, _, _ => .error .out_of_fuel
  | _ + 1, state, none, match_children => .ok (state, match_children)
  | fuel + 1, state, some defines, match_children =>
    match process_matching_state h fuel state (some defines) with
    | .error f => .error f
    | .ok (state, none) => children_loop h fuel state (h defines).next match_children
    | .ok (state, some m) =>
      children_loop h fuel state (h defines).next (match_children ++ m)

/-- `process_choice`.  Its `g_assert` on the type holds at its only call, in the
    CHOICE case of the `switch`. -/
def process_choice (h : Heap) :
    Nat → MatchingState → Except Fault (MatchingState × List MatchItem)
  | 0, _ => .error .out_of_fuel
  | fuel + 1, state =>
    choice_loop h fuel state (h state.define).content [] G_MAXINT none

/-- The `while (defines != NULL)` loop of `process_choice` from `defines` on, with
    its variables `tmp_matches`, `min_pos` and `min_pos_match`, and the
    `if (min_pos_match != NULL)` that follows the loop. -/
def choice_loop (h : Heap) :
    Nat → MatchingState → Option Ptr → List (List MatchItem) → Int →
      Option (List MatchItem) → Except Fault (MatchingState × List MatchItem)
  | 0, _, _, _, _, _ => .error .out_of_fuel
  | _ + 1, state, none, tmp_matches, _, min_pos_match =>
    match min_pos_match with
    | some m => .ok (state, m)
    | none => .ok (state, tmp_matches.flatten)
  | fuel + 1, state, some defines, tmp_matches, min_pos, min_pos_match =>
    match process_matching_state h fuel state (some defines) with
    | .error f => .error f
    | .ok (state, none) =>
      choice_loop h fuel state (h defines).next tmp_matches min_pos min_pos_match
    | .ok (state, some m) =>
      let pos := get_match_children_min_pos m
      if pos ≠ -1 ∧ pos < min_pos then
        choice_loop h fuel state (h defines).next (tmp_matches ++ [m]) pos (some m)
      else
        choice_loop h fuel state (h defines).next (tmp_matches ++ [m]) min_pos min_pos_match
end

/-- `create_initial_matching_state`: the attribute names of the node, none for
    a `NULL` node or a node without attributes. -/
def create_initial_matching_state (define : Ptr) (node : Option IdeXmlSymbolNode) :
    MatchingState :=
  let node_attr := match node with
    | none => []
    | some n => n.attributes_names.getD []
  { define := define, node_attr := node_attr, is_initial_state := true, is_optional := false }

/-- `compare_attribute_names (a, b)`: `a` is an attribute name of the node, `b`
    the match item searched for. -/
def compare_attribute_names (a : String) (b : MatchItem) : Bool :=
  b.name == a

/-- `g_ptr_array_remove_index_fast`: the last element takes the place of the
    removed one. -/
def g_ptr_array_remove_index_fast {α : Type} (array : List α) (index : Nat) : List α :=
  match array.getLast? with
  | none => array
  | some last => (array.set index last).dropLast

/-- The `while (i < match_children->len)` loop of `match_children_filter`.  Every
    iteration either removes an element or moves `i` on, so the first argument,
    `match_children->len - i`, goes down by one each time. -/
def match_children_filter_loop (node_attributes : List String) :
    Nat → List MatchItem → Nat → List MatchItem
  | 0, match_children, _ => match_children
  | n + 1, match_children, i =>
    match match_children[i]? with
    | none => match_children
    | some item =>
      if node_attributes.any (fun a => compare_attribute_names a item) then
        match_children_filter_loop node_attributes n
          (g_ptr_array_remove_index_fast match_children i) i
      else
        match_children_filter_loop node_attributes n match_children (i + 1)

/-- `match_children_filter`. -/
def match_children_filter (match_children : List MatchItem) (node_attributes : List String) :
    List MatchItem :=
  match_children_filter_loop node_attributes match_children.length match_children 0

/-- `ide_xml_completion_attributes_get_matches` (`define` is not `NULL`; the
    result `none` is the `NULL` returned for a define without attributes).
    `match_children_filter` asserts that it is given an array. -/
def ide_xml_completion_attributes_get_matches (h : Heap) (fuel : Nat) (define : Ptr)
    (node : Option IdeXmlSymbolNode) : Except Fault (Option (List MatchItem)) :=
  if (h define).attributes = none then .ok none
  else
    let initial_state := create_initial_matching_state define node
    match process_matching_state h fuel initial_state (some define) with
    | .error f => .error f
    | .ok (_, none) => .error .assertion
    | .ok (_, some match_children) =>
      .ok (some (match_children_filter match_children initial_state.node_attr))

/-! ## Reachability in the definition graph -/

open IdeXmlRngDefineType in
/-- The types whose content link is followed: ref, define, parentRef,
    externalRef, group, interleave, choice, optional, zeroOrMore, oneOrMore. -/
def follows_content : IdeXmlRngDefineType → Bool
  | REF | DEFINE | PARENTREF | EXTERNALREF | GROUP | INTERLEAVE | CHOICE | OPTIONAL
  | ZEROORMORE | ONEORMORE => true
  | _ => false

/-- A define is reachable from `define->attributes` by sibling (`next`) links and
    by the content links of the types of `follows_content`. -/
inductive Reachable (h : Heap) (define : Ptr) : Ptr → Prop where
  | attributes {a : Ptr} : (h define).attributes = some a → Reachable h define a
  | next {d n : Ptr} : Reachable h define d → (h d).next = some n → Reachable h define n
  | content {d c : Ptr} : Reachable h define d → follows_content (h d).type = true →
      (h d).content = some c → Reachable h define c

open IdeXmlRngDefineType in
/-- Every item has the non-empty name of an ATTRIBUTE define reachable from
    `define->attributes`. -/
def valid_items (h : Heap) (define : Ptr) (l : List MatchItem) : Prop :=
  ∀ item ∈ l, item.name ≠ "" ∧
    ∃ a, Reachable h define a ∧ (h a).type = ATTRIBUTE ∧ (h a).name = some item.name

open IdeXmlRngDefineType in
/-- A small grammar: element `window` with the attribute `id` and, optional,
    the attribute `title`. -/
def small : Heap := fun p =>
  match p with
  | 0 => ⟨ELEMENT, some "window", none, some 1, none⟩
  | 1 => ⟨ATTRIBUTE, some "id", none, none, some 2⟩
  | 2 => ⟨OPTIONAL, none, some 3, none, none⟩
  | 3 => ⟨ATTRIBUTE, some "title", none, none, none⟩
  | _ => ⟨NOOP, none, none, none, none⟩

/-! ## The links the walk follows -/

/-- The links the walk follows from a define it has come to: the `next` link,
    and the content link of a define of the types of `follows_content`. -/
def walk_link (h : Heap) (d d' : Ptr) : Prop :=
  (h d).next = some d' ∨ (follows_content (h d).type = true ∧ (h d).content = some d')

/-- Any of the three links of a define. -/
def link (h : Heap) (d d' : Ptr) : Prop :=
  (h d).attributes = some d' ∨ (h d).content = some d' ∨ (h d).next = some d'

/-- The walk of `ide_xml_completion_attributes_get_matches` ends, with a result
    or at a `g_assert` that fails: from some fuel on the outcome is the same and
    is not that the fuel ran out. -/
def terminates (h : Heap) (define : Ptr) (node : Option IdeXmlSymbolNode) : Prop :=
  ∃ fuel r, r ≠ .error .out_of_fuel ∧ ∀ fuel', fuel ≤ fuel' →
    ide_xml_completion_attributes_get_matches h fuel' define node = r

open IdeXmlRngDefineType in
/-- Two elements: the attributes of the first are the second, and the `next`
    link of the second leads back to the second. -/
def looping : Heap := fun p =>
  match p with
  | 0 => ⟨ELEMENT, some "a", none, some 1, none⟩
  | 1 => ⟨ELEMENT, some "b", none, none, some 1⟩
  | _ => ⟨NOOP, none, none, none, none⟩

end XmlAttributes

namespace ChangeMonitor

/-- The values of `GgitDiffLineType` named in `diff_line_cb`. -/
inductive GgitDiffLineType where
  | ADDITION | DELETION | CONTEXT | CONTEXT_EOFNL | ADD_EOFNL | DEL_EOFNL | FILE_HDR
  | HUNK_HDR | BINARY
  deriving DecidableEq, Repr

/-- What `diff_line_cb` reads of a `GgitDiffHunk`. -/
structure GgitDiffHunk where
  old_start : Int
  new_start : Int
  deriving DecidableEq, Repr

/-- What `diff_line_cb` reads of a `GgitDiffLine`. -/
structure GgitDiffLine where
  origin : GgitDiffLineType
  old_lineno : Int
  new_lineno : Int
  deriving DecidableEq, Repr

/-- The two flags of `GbSourceChangeFlags` that `diff_line_cb` stores; their
    values are declared in a header that is not part of the sources. -/
structure GbSourceChangeFlags where
  ADDED : Int
  CHANGED : Int
  deriving DecidableEq, Repr

/-- Modelled from the spec: the value of `GB_SOURCE_CHANGE_NONE`, declared in the
    missing header; the flag of a line without a change is zero. -/
def GB_SOURCE_CHANGE_NONE : Int := 0

/-- `GB_SOURCE_CHANGE_DELETED`, `1 << 3`. -/
def GB_SOURCE_CHANGE_DELETED : Int := 8

/-- `GB_SOURCE_CHANGE_MASK`. -/
def GB_SOURCE_CHANGE_MASK : Int := 7

/-- A `gint` after an arithmetic operation: the value wrapped to 32 bits. -/
def gint (x : Int) : Int := (x + 2147483648) % 4294967296 - 2147483648

/-- A `GHashTable` with direct keys and values: what is stored under each key.
    Keys and values are pointers, given by their value as a `glong`. -/
abbrev GHashTable := Int → Option Int

/-- `g_hash_table_lookup`: `NULL` (0) for a missing key. -/
def g_hash_table_lookup (t : GHashTable) (key : Int) : Int := (t key).getD 0

/-- `g_hash_table_insert`; `g_hash_table_replace` differs only in which key
    pointer is kept, and the keys here are plain values. -/
def g_hash_table_insert (t : GHashTable) (key value : Int) : GHashTable :=
  fun k => if k = key then some value else t k

/-- `g_hash_table_remove_all`. -/
def g_hash_table_remove_all (_ : GHashTable) : GHashTable := fun _ => none

/-- `diff_line_cb`: the hash table afterwards and the value returned. -/
def diff_line_cb (flags : GbSourceChangeFlags) (hunk : GgitDiffHunk) (line : GgitDiffLine)
    (hash : GHashTable) : GHashTable × Int :=
  match line.origin with
  | .ADDITION =>
    if g_hash_table_lookup hash line.new_lineno ≠ 0 then
      (g_hash_table_insert hash line.new_lineno flags.CHANGED, 0)
    else
      (g_hash_table_insert hash line.new_lineno flags.ADDED, 0)
  | .DELETION =>
    let adjust := gint (hunk.new_start - hunk.old_start)
    let old_lineno := gint (line.old_lineno + adjust)
    if g_hash_table_lookup hash old_lineno ≠ 0 then
      (g_hash_table_insert hash old_lineno flags.CHANGED, 0)
    else
      (g_hash_table_insert hash old_lineno GB_SOURCE_CHANGE_DELETED, 0)
  | _ => (hash, 0)

/-- The part of `on_parse_timeout` that rebuilds the line state: the table is
    emptied, then `ggit_diff_blob_to_buffer` calls `diff_line_cb` for every line
    of the diff in order, each with its hunk, as long as it returns 0. -/
def on_parse_timeout (flags : GbSourceChangeFlags) (diff : List (GgitDiffHunk × GgitDiffLine))
    (state : GHashTable) : GHashTable :=
  diff.foldl (fun st x => (diff_line_cb flags x.1 x.2 st).1) (g_hash_table_remove_all state)

/-- `gb_source_change_monitor_get_line`: `state` is `priv->state`, which may be
    `NULL`; `lineno` is a `guint`, so `lineno + 1` wraps at 32 bits. -/
def gb_source_change_monitor_get_line (state : Option GHashTable) (lineno : Nat) : Int :=
  match state with
  | some state =>
    Int.land (g_hash_table_lookup state (((lineno + 1) % 4294967296 : Nat) : Int))
      GB_SOURCE_CHANGE_MASK
  | none => GB_SOURCE_CHANGE_NONE

/-- The lines of a hunk that deletes the `k` old lines from `a` on and then adds
    the `m` new lines from `b` on (a deleted line has no new line number, an
    added line no old one: -1). -/
def hunk_lines (hunk : GgitDiffHunk) (a : Int) (k : Nat) (b : Int) (m : Nat) :
    List (GgitDiffHunk × GgitDiffLine) :=
  (List.range k).map (fun i => (hunk, ⟨.DELETION, a + i, -1⟩)) ++
  (List.range m).map (fun j => (hunk, ⟨.ADDITION, -1, b + j⟩))

/-! ## The parse timer -/

/-- `PARSE_TIMEOUT_MSEC`. -/
def PARSE_TIMEOUT_MSEC : Nat := 100

/-- The callback of a source of the main context: `on_parse_timeout` with the
    monitor as its data, or a callback of some other part of the program. -/
inductive GSourceFunc where
  | on_parse_timeout
  | other (tag : Nat)
  deriving DecidableEq, Repr

/-- A timeout source attached to the main context: its id, its interval in
    milliseconds and its callback. -/
structure GSource where
  id : Nat
  interval : Nat
  func : GSourceFunc
  deriving DecidableEq, Repr

/-- The main context: the sources that are pending and the id the next source
    gets. The ids are counted up from 1 and are not used again. -/
structure GMainContext where
  sources : List GSource
  next_id : Nat
  deriving DecidableEq, Repr

/-- `g_timeout_add`: the source is attached and its id is returned. -/
def g_timeout_add (context : GMainContext) (interval : Nat) (function : GSourceFunc) :
    GMainContext × Nat :=
  ({ sources := context.sources ++ [⟨context.next_id, interval, function⟩],
     next_id := context.next_id + 1 }, context.next_id)

/-- `g_source_remove`: the source with the id `tag` is no longer pending. -/
def g_source_remove (context : GMainContext) (tag : Nat) : GMainContext :=
  { context with sources := context.sources.filter (fun s => s.id ≠ tag) }

/-- The fields of `GbSourceChangeMonitorPrivate` that the parse timer depends on:
    whether each pointer is set, and the id in `parse_timeout`. -/
structure GbSourceChangeMonitorPrivate where
  buffer : Bool
  file : Bool
  repo : Bool
  blob : Bool
  relative_path : Bool
  parse_timeout : Nat
  deriving DecidableEq, Repr

/-- A monitor together with the main context its timer is attached to. -/
structure Monitor where
  priv : GbSourceChangeMonitorPrivate
  context : GMainContext
  deriving DecidableEq, Repr

/-- The first half of `gb_source_change_monitor_queue_parse` after the guard: a
    timer that was queued before is removed. -/
def queue_parse_remove (monitor : Monitor) : Monitor :=
  if monitor.priv.parse_timeout ≠ 0 then
    { priv := { monitor.priv with parse_timeout := 0 },
      context := g_source_remove monitor.context monitor.priv.parse_timeout }
  else
    monitor

/-- The second half of `gb_source_change_monitor_queue_parse`: the new timer. -/
def queue_parse_add (monitor : Monitor) : Monitor :=
  let r := g_timeout_add monitor.context PARSE_TIMEOUT_MSEC GSourceFunc.on_parse_timeout
  { priv := { monitor.priv with parse_timeout := r.2 }, context := r.1 }

/-- `gb_source_change_monitor_queue_parse`. -/
def gb_source_change_monitor_queue_parse (monitor : Monitor) : Monitor :=
  if !monitor.priv.repo || !monitor.priv.blob || !monitor.priv.file then
    monitor
  else
    queue_parse_add (queue_parse_remove monitor)

/-- The parse timers that are pending: the sources that call `on_parse_timeout`. -/
def parse_timers (monitor : Monitor) : List GSource :=
  monitor.context.sources.filter (fun s => s.func = GSourceFunc.on_parse_timeout)

/-- The main context dispatches the pending parse timer, if there is one:
    `on_parse_timeout` runs, which clears `parse_timeout` unless it returns at
    its guard, and as it returns `G_SOURCE_REMOVE` the source is destroyed. -/
def dispatch_parse_timeout (monitor : Monitor) : Monitor :=
  match (parse_timers monitor).head? with
  | none => monitor
  | some source =>
    let priv :=
      if !monitor.priv.blob || !monitor.priv.relative_path || !monitor.priv.buffer ||
          !monitor.priv.file then
        monitor.priv
      else
        { monitor.priv with parse_timeout := 0 }
    { priv := priv, context := g_source_remove monitor.context source.id }

/-- What happens to the monitor between two moments: a call of
    `gb_source_change_monitor_queue_parse` (from `on_change_cb`), or the main
    loop dispatching the parse timer. -/
inductive Event where
  | queue_parse
  | timeout
  deriving DecidableEq, Repr

/-- The monitor after one event. -/
def Event.apply (monitor : Monitor) : Event → Monitor
  | .queue_parse => gb_source_change_monitor_queue_parse monitor
  | .timeout => dispatch_parse_timeout monitor

/-- The monitor after a sequence of events. -/
def after_events (monitor : Monitor) (events : List Event) : Monitor :=
  events.foldl Event.apply monitor

/-- The monitor and the main context agree: the ids of the pending sources are
    distinct, not zero and below the next id, and a pending parse timer is the
    one whose id is in `parse_timeout`. -/
def consistent (monitor : Monitor) : Prop :=
  (monitor.context.sources.map (fun s => s.id)).Nodup ∧
  (∀ s ∈ monitor.context.sources, 0 < s.id ∧ s.id < monitor.context.next_id) ∧
  0 < monitor.context.next_id ∧
  ∀ s ∈ monitor.context.sources, s.func = GSourceFunc.on_parse_timeout →
    s.id = monitor.priv.parse_timeout

/-- A monitor after `gb_source_change_monitor_init` with repository, blob, file,
    buffer and path set, in a main context where two other sources are
    pending. -/
def fresh : Monitor :=
  { priv := ⟨true, true, true, true, true, 0⟩,
    context := ⟨[⟨1, 250, .other 0⟩, ⟨2, 1000, .other 1⟩], 3⟩ }

end ChangeMonitor

/-- `ide_str_equal0`: `g_strcmp0` gives 0; two `NULL` strings are equal. -/
def ide_str_equal0 (a b : Option String) : Bool := a == b

namespace Shellcmd

/-! ## Settings of the shell commands -/

/-- A value of the settings backend: an array of strings, or another value. -/
inductive GVariant where
  | strv (items : List String)
  | value (text : String)
  deriving DecidableEq, Repr

/-- The settings backend: what is stored under each full key (the path of the
    settings object followed by the name of the key; nothing where the key was
    never set or was reset), and whether a key may be written. -/
structure GSettingsBackend where
  values : List Char → Option GVariant
  writable : List Char → Bool

/-- What the schemas say that `gbp_shellcmd_run_command_delete` reads of them:
    the default of `run-commands` in `org.gnome.builder.shellcmd`, and the keys
    of `org.gnome.builder.shellcmd.command`. The schema files are not part of
    the sources. -/
structure Schemas where
  run_commands_default : List String
  command_keys : List (List Char)

/-- A `GSettings` object: the id of its schema and its path. -/
structure GSettings where
  schema_id : String
  path : List Char
  deriving DecidableEq, Repr

/-- `g_settings_new_with_path`. -/
def g_settings_new_with_path (schema_id : String) (path : List Char) : GSettings :=
  ⟨schema_id, path⟩

/-- `g_settings_get_strv` of a key whose default is `default`. -/
def g_settings_get_strv (backend : GSettingsBackend) (settings : GSettings) (key : List Char)
    (default : List String) : List String :=
  match backend.values (settings.path ++ key) with
  | some (.strv items) => items
  | _ => default

/-- `g_settings_set_strv`: nothing is stored if the key is not writable. -/
def g_settings_set_strv (backend : GSettingsBackend) (settings : GSettings) (key : List Char)
    (value : List String) : GSettingsBackend :=
  if backend.writable (settings.path ++ key) then
    { backend with
      values := fun k => if k = settings.path ++ key then some (.strv value)
        else backend.values k }
  else
    backend

/-- `g_settings_reset`: the key is unset, so that reading it gives the default. -/
def g_settings_reset (backend : GSettingsBackend) (settings : GSettings) (key : List Char) :
    GSettingsBackend :=
  if backend.writable (settings.path ++ key) then
    { backend with values := fun k => if k = settings.path ++ key then none else backend.values k }
  else
    backend

/-- The fields of `GbpShellcmdRunCommand` that `gbp_shellcmd_run_command_delete`
    reads. -/
structure GbpShellcmdRunCommand where
  settings_path : Option (List Char)
  settings : GSettings
  id : Option String
  deriving DecidableEq, Repr

/-- `g_strsplit` with a delimiter of one character and no limit; the empty
    string gives the empty vector. -/
def g_strsplit (string : List Char) (delimiter : Char) : List (List Char) :=
  if string = [] then [] else string.splitOn delimiter

/-- The part of `gbp_shellcmd_run_command_constructed` that sets the fields;
    `none` where a `g_assert` fails. -/
def gbp_shellcmd_run_command_constructed (settings_path : Option (List Char)) :
    Option GbpShellcmdRunCommand :=
  match settings_path with
  | none => none
  | some path =>
    if path.getLast? ≠ some '/' then none
    else
      let settings := g_settings_new_with_path "org.gnome.builder.shellcmd.command" path
      let path_split := g_strsplit path '/'
      let n_parts := path_split.length
      if n_parts < 2 then none
      else
        some { settings_path := some path, settings := settings,
               id := some (String.mk (path_split.getD (n_parts - 2) [])) }

/-- `g_string_new`: a `NULL` initial text gives the empty string. -/
def g_string_new (init : Option (List Char)) : List Char := init.getD []

/-- `g_string_truncate`. -/
def g_string_truncate (string : List Char) (len : Nat) : List Char := string.take len

/-- The `while` loop of `gbp_shellcmd_run_command_delete`. Each turn shortens
    the string by one character, so a fuel of its length is never used up. -/
def parent_path_loop : Nat → List Char → List Char
  | 0, parent_path => parent_path
  | fuel + 1, parent_path =>
    if parent_path.length ≠ 0 ∧ parent_path.getLast? ≠ some '/' then
      parent_path_loop fuel (g_string_truncate parent_path (parent_path.length - 1))
    else
      parent_path

/-- The parent settings path as `gbp_shellcmd_run_command_delete` computes it. -/
def get_parent_path (self : GbpShellcmdRunCommand) : List Char :=
  let parent_path := g_string_new self.settings_path
  let parent_path :=
    if parent_path.length ≠ 0 then g_string_truncate parent_path (parent_path.length - 1)
    else parent_path
  parent_path_loop parent_path.length parent_path

/-- `gbp_shellcmd_run_command_delete`: the settings backend afterwards. -/
def gbp_shellcmd_run_command_delete (schemas : Schemas) (self : GbpShellcmdRunCommand)
    (backend : GSettingsBackend) : GSettingsBackend :=
  let parent_path := get_parent_path self
  let list := g_settings_new_with_path "org.gnome.builder.shellcmd" parent_path
  let commands := g_settings_get_strv backend list "run-commands".toList
    schemas.run_commands_default
  let builder := commands.foldl
    (fun builder command =>
      if !ide_str_equal0 (some command) self.id then builder ++ [command] else builder) []
  let backend := g_settings_set_strv backend list "run-commands".toList builder
  schemas.command_keys.foldl (fun backend key => g_settings_reset backend self.settings key)
    backend

/-- The command object of the settings path `/org/gnome/builder/shellcmd/a/`. -/
def sample_command : GbpShellcmdRunCommand :=
  { settings_path := some "/org/gnome/builder/shellcmd/a/".toList,
    settings := ⟨"org.gnome.builder.shellcmd.command", "/org/gnome/builder/shellcmd/a/".toList⟩,
    id := some "a" }

/-- The keys of a command schema, with an empty default list of commands. -/
def sample_schemas : Schemas :=
  ⟨[], ["display-name".toList, "env".toList, "argv".toList, "cwd".toList,
        "accelerator".toList, "locality".toList]⟩

/-- A backend where three commands are listed, one of them twice, and where
    every key may be written. -/
def sample_backend : GSettingsBackend :=
  { values := fun k =>
      if k = "/org/gnome/builder/shellcmd/run-commands".toList then
        some (.strv ["a", "b", "a", "c"])
      else if k = "/org/gnome/builder/shellcmd/a/display-name".toList then
        some (.value "Build")
      else none,
    writable := fun _ => true }

end Shellcmd

namespace TextUtil

/-! ## Deleting lines of a text view -/

/-- The functions of GTK that `ide_text_util_delete_line` calls, over the state
    `View` of a text view with its buffer and over iterators `Iter`. A function
    that changes an iterator in place gives the iterator afterwards, next to its
    return value where the code reads it. -/
structure Gtk (View Iter : Type) where
  gtk_text_view_reset_im_context : View → View
  gtk_text_buffer_get_selection_bounds : View → Bool × Iter × Iter
  gtk_text_iter_order : Iter → Iter → Iter × Iter
  gtk_text_iter_starts_line : Iter → Bool
  gtk_text_iter_set_line_offset : Iter → Int → Iter
  gtk_text_iter_forward_lines : Iter → Int → Iter
  gtk_text_iter_is_end : Iter → Bool
  gtk_text_iter_backward_line : Iter → Bool × Iter
  gtk_text_iter_ends_line : Iter → Bool
  gtk_text_iter_forward_to_line_end : Iter → Iter
  gtk_text_iter_forward_line : Iter → Iter
  gtk_text_iter_equal : Iter → Iter → Bool
  gtk_text_buffer_begin_user_action : View → View
  gtk_text_buffer_place_cursor : View → Iter → View
  gtk_text_view_get_editable : View → Bool
  gtk_text_buffer_delete_interactive : View → Iter → Iter → Bool → View
  gtk_text_buffer_end_user_action : View → View
  gtk_text_view_scroll_mark_onscreen : View → View
  gtk_widget_error_bell : View → View

/-- The loop `while (count < 0)` of `ide_text_util_delete_line`: the count and
    `start` when it is left. Each turn raises the count by one, so a fuel of
    `-count` is never used up. -/
def backward_loop {View Iter : Type} (gtk : Gtk View Iter) : Nat → Int → Iter → Int × Iter
  | 0, count, start => (count, start)
  | fuel + 1, count, start =>
    if count < 0 then
      let r := gtk.gtk_text_iter_backward_line start
      if !r.1 then (count, r.2) else backward_loop gtk fuel (count + 1) r.2
    else
      (count, start)

/-- `ide_text_util_delete_line`: the text view afterwards. -/
def ide_text_util_delete_line {View Iter : Type} (gtk : Gtk View Iter) (text_view : View)
    (count : Int) : View :=
  let text_view := gtk.gtk_text_view_reset_im_context text_view
  let bounds := gtk.gtk_text_buffer_get_selection_bounds text_view
  let selected : Iter × Iter × Int :=
    if bounds.1 then
      let ordered := gtk.gtk_text_iter_order bounds.2.1 bounds.2.2
      if gtk.gtk_text_iter_starts_line ordered.2 then (ordered.1, ordered.2, 0)
      else (ordered.1, ordered.2, 1)
    else
      (bounds.2.1, bounds.2.2, count)
  let start := gtk.gtk_text_iter_set_line_offset selected.1 0
  let end_ := selected.2.1
  let count := selected.2.2
  let range : Iter × Iter :=
    if count > 0 then
      let end_ := gtk.gtk_text_iter_forward_lines end_ count
      if gtk.gtk_text_iter_is_end end_ then
        let r := gtk.gtk_text_iter_backward_line start
        if r.1 && !gtk.gtk_text_iter_ends_line r.2 then
          (gtk.gtk_text_iter_forward_to_line_end r.2, end_)
        else
          (r.2, end_)
      else
        (start, end_)
    else if count < 0 then
      let end_ :=
        if !gtk.gtk_text_iter_ends_line end_ then gtk.gtk_text_iter_forward_to_line_end end_
        else end_
      let r := backward_loop gtk (-count).toNat count start
      if r.1 = 0 then
        if !gtk.gtk_text_iter_ends_line r.2 then
          (gtk.gtk_text_iter_forward_to_line_end r.2, end_)
        else
          (r.2, end_)
      else
        (r.2, gtk.gtk_text_iter_forward_line end_)
    else
      (start, end_)
  if !gtk.gtk_text_iter_equal range.1 range.2 then
    let cur := gtk.gtk_text_iter_set_line_offset range.1 0
    let text_view := gtk.gtk_text_buffer_begin_user_action text_view
    let text_view := gtk.gtk_text_buffer_place_cursor text_view cur
    let text_view := gtk.gtk_text_buffer_delete_interactive text_view range.1 range.2
      (gtk.gtk_text_view_get_editable text_view)
    let text_view := gtk.gtk_text_buffer_end_user_action text_view
    gtk.gtk_text_view_scroll_mark_onscreen text_view
  else
    gtk.gtk_widget_error_bell text_view

/-! ## A buffer of plain text -/

/-- A text view over a buffer of plain text, where `'\n'` ends a line: the
    text, the offsets of the marks `insert` and `selection_bound`, whether the
    view is editable, and whether the error bell has rung. -/
structure GtkTextView where
  text : List Char
  insert : Nat
  selection_bound : Nat
  editable : Bool
  bell : Bool
  deriving DecidableEq, Repr

/-- An iterator: the text of its buffer and its offset in characters. -/
structure GtkTextIter where
  text : List Char
  offset : Nat
  deriving DecidableEq, Repr

/-- The offset at which the line of `offset` starts. -/
def line_start (text : List Char) : Nat → Nat
  | 0 => 0
  | offset + 1 => if text.get? offset = some '\n' then offset + 1 else line_start text offset

/-- The offset of the first line end at or after `offset`, or of the end of the
    text. -/
def line_end (text : List Char) (offset : Nat) : Nat :=
  offset + ((text.drop offset).takeWhile (fun c => c ≠ '\n')).length

/-- Where a mark at `mark` is after the text from `lo` to `hi` is deleted. -/
def mark_after_delete (lo hi mark : Nat) : Nat :=
  if mark ≤ lo then mark else if mark ≤ hi then lo else mark - (hi - lo)

/-- The functions of GTK on a buffer of plain text. Input method, user actions
    and scrolling leave this state as it is; `gtk_text_iter_forward_lines` is
    given for a count that is not negative, as it is called. -/
def plain : Gtk GtkTextView GtkTextIter where
  gtk_text_view_reset_im_context := fun view => view
  gtk_text_buffer_get_selection_bounds := fun view =>
    (decide (view.insert ≠ view.selection_bound),
     ⟨view.text, min view.insert view.selection_bound⟩,
     ⟨view.text, max view.insert view.selection_bound⟩)
  gtk_text_iter_order := fun first second =>
    if first.offset > second.offset then (second, first) else (first, second)
  gtk_text_iter_starts_line := fun iter => line_start iter.text iter.offset = iter.offset
  gtk_text_iter_set_line_offset := fun iter char_on_line =>
    ⟨iter.text, line_start iter.text iter.offset + char_on_line.toNat⟩
  gtk_text_iter_forward_lines := fun iter count =>
    Nat.iterate
      (fun i => ⟨i.text, if line_end i.text i.offset < i.text.length
        then line_end i.text i.offset + 1 else i.text.length⟩)
      count.toNat iter
  gtk_text_iter_is_end := fun iter => iter.text.length ≤ iter.offset
  gtk_text_iter_backward_line := fun iter =>
    if iter.offset = 0 then (false, iter)
    else if line_start iter.text iter.offset = 0 then (true, ⟨iter.text, 0⟩)
    else (true, ⟨iter.text, line_start iter.text (line_start iter.text iter.offset - 1)⟩)
  gtk_text_iter_ends_line := fun iter =>
    iter.text.length ≤ iter.offset || iter.text.get? iter.offset = some '\n'
  gtk_text_iter_forward_to_line_end := fun iter =>
    if iter.offset < iter.text.length ∧ iter.text.get? iter.offset = some '\n' then
      ⟨iter.text, line_end iter.text (iter.offset + 1)⟩
    else
      ⟨iter.text, line_end iter.text iter.offset⟩
  gtk_text_iter_forward_line := fun iter =>
    ⟨iter.text, if line_end iter.text iter.offset < iter.text.length
      then line_end iter.text iter.offset + 1 else iter.text.length⟩
  gtk_text_iter_equal := fun lhs rhs => lhs.offset = rhs.offset
  gtk_text_buffer_begin_user_action := fun view => view
  gtk_text_buffer_place_cursor := fun view where_ =>
    { view with insert := where_.offset, selection_bound := where_.offset }
  gtk_text_view_get_editable := fun view => view.editable
  gtk_text_buffer_delete_interactive := fun view start_iter end_iter default_editable =>
    if default_editable then
      let lo := min start_iter.offset end_iter.offset
      let hi := max start_iter.offset end_iter.offset
      { view with
        text := view.text.take lo ++ view.text.drop hi,
        insert := mark_after_delete lo hi view.insert,
        selection_bound := mark_after_delete lo hi view.selection_bound }
    else
      view
  gtk_text_buffer_end_user_action := fun view => view
  gtk_text_view_scroll_mark_onscreen := fun view => view
  gtk_widget_error_bell := fun view => { view with bell := true }

/-- Three lines, selected from the second character of the first line to the
    second character of the second line. -/
def sample_view : GtkTextView :=
  { text := "ab\ncd\nef".toList, insert := 4, selection_bound := 1, editable := true,
    bell := false }

end TextUtil

/-! # Theorems -/

namespace RunManager

/-! ## Discovery of the run command -/

/-- The loop returns a matching command at once, whatever it has seen before. -/
theorem discover_loop_default (d : String) (hd : d ≠ "") (c : IdeRunCommand)
    (hc : c.id = some d) (post : List IdeRunCommand) :
    ∀ (pre : List IdeRunCommand), (∀ x ∈ pre, x.id ≠ some d) →
      ∀ (best : Option IdeRunCommand) (bp : Int),
        discover_loop (some d) (pre ++ c :: post) best bp = .value c := by
  intro pre
  induction pre with
  | nil =>
    intro _ best bp
    simp [discover_loop, ide_str_empty0, hc, hd]
  | cons x pre ih =>
    intro hpre best bp
    have hx : x.id ≠ some d := hpre x (List.mem_cons_self _ _)
    have hx2 : ¬ (some d = x.id) := fun h => hx h.symm
    have hrest : ∀ y ∈ pre, y.id ≠ some d := fun y hy => hpre y (List.mem_cons_of_mem _ hy)
    simp only [List.cons_append, discover_loop]
    have hcond : (!ide_str_empty0 x.id && !ide_str_empty0 (some d)
        && (some d == x.id)) = false := by
      simp [hx2]
    rw [hcond]
    simp only [Bool.false_eq_true, if_false]
    split
    · exact ih hrest _ _
    · exact ih hrest _ _

/-- The loop's result is a value as soon as there is an item or a `best`, and
    the value is an item or `best`; with neither, it is the not-found error. -/
theorem discover_loop_result (default_id : Option String) :
    ∀ (cmds : List IdeRunCommand) (best : Option IdeRunCommand) (bp : Int),
      (cmds ≠ [] ∨ best ≠ none →
        ∃ c, discover_loop default_id cmds best bp = .value c ∧ (c ∈ cmds ∨ best = some c)) ∧
      (cmds = [] → best = none →
        discover_loop default_id cmds best bp =
          .error ⟨.G_IO_ERROR_NOT_FOUND, "No run command discovered. Set one manually."⟩) := by
  intro cmds
  induction cmds with
  | nil =>
    intro best bp
    constructor
    · intro h
      cases best with
      | none => simp at h
      | some b => exact ⟨b, by simp [discover_loop], Or.inr rfl⟩
    · intro _ hb
      subst hb
      simp [discover_loop]
  | cons x rest ih =>
    intro best bp
    refine ⟨fun _ => ?_, fun h => by simp at h⟩
    simp only [discover_loop]
    split
    · exact ⟨x, rfl, Or.inl (List.mem_cons_self _ _)⟩
    · split
      · obtain ⟨c, hc, hmem⟩ := (ih (some x) x.priority).1 (Or.inr (by simp))
        refine ⟨c, hc, Or.inl ?_⟩
        rcases hmem with h | h
        · exact List.mem_cons_of_mem _ h
        · cases h
          exact List.mem_cons_self _ _
      · rename_i hno
        have hb : best ≠ none := by
          intro hb
          apply hno
          simp [hb]
        obtain ⟨c, hc, hmem⟩ := (ih best bp).1 (Or.inr hb)
        refine ⟨c, hc, ?_⟩
        rcases hmem with h | h
        · exact Or.inl (List.mem_cons_of_mem _ h)
        · exact Or.inr h

/-- C4: when the default run command id is non-empty and some listed command has
    exactly that id, discovery yields the first listed command with that id (the
    commands before it in the list all have another id), whatever the priorities. -/
theorem discover_run_command_default_first (d : String) (cmds : List IdeRunCommand)
    (hd : d ≠ "") (h : ∃ x ∈ cmds, x.id = some d) :
    ∃ pre c post, cmds = pre ++ c :: post ∧ c.id = some d ∧ (∀ x ∈ pre, x.id ≠ some d) ∧
      ide_run_manager_discover_run_command_finish
        (ide_run_manager_discover_run_command_cb (some d) (.value cmds)) = (some c, none) := by
  induction cmds with
  | nil => simp at h
  | cons x rest ih =>
    by_cases hx : x.id = some d
    · refine ⟨[], x, rest, rfl, hx, by simp, ?_⟩
      have := discover_loop_default d hd x hx rest [] (by simp) none G_MAXINT
      simp only [List.nil_append] at this
      simp [ide_run_manager_discover_run_command_finish,
        ide_run_manager_discover_run_command_cb, this, ide_task_propagate_pointer]
    · have hrest : ∃ y ∈ rest, y.id = some d := by
        obtain ⟨y, hy, hyd⟩ := h
        rcases List.mem_cons.1 hy with rfl | hy
        · exact absurd hyd hx
        · exact ⟨y, hy, hyd⟩
      obtain ⟨pre, c, post, hsplit, hc, hpre, _⟩ := ih hrest
      have hpre2 : ∀ y ∈ x :: pre, y.id ≠ some d := by
        intro y hy
        rcases List.mem_cons.1 hy with rfl | hy
        · exact hx
        · exact hpre y hy
      refine ⟨x :: pre, c, post, by simp [hsplit], hc, hpre2, ?_⟩
      have := discover_loop_default d hd c hc post (x :: pre) hpre2 none G_MAXINT
      simp only [List.cons_append] at this
      simp [ide_run_manager_discover_run_command_finish,
        ide_run_manager_discover_run_command_cb, hsplit, this, ide_task_propagate_pointer]

/-- Witness for C4: the default id "b" picks the second command although the
    first one has the smaller priority. -/
theorem discover_run_command_default_first_witness :
    ∃ pre c post,
      ([⟨some "a", -5, none⟩, ⟨some "b", 7, none⟩, ⟨some "b", 0, none⟩] : List IdeRunCommand)
        = pre ++ c :: post ∧ c.id = some "b" ∧ (∀ x ∈ pre, x.id ≠ some "b") ∧
      ide_run_manager_discover_run_command_finish
        (ide_run_manager_discover_run_command_cb (some "b")
          (.value [⟨some "a", -5, none⟩, ⟨some "b", 7, none⟩, ⟨some "b", 0, none⟩]))
        = (some c, none) :=
  discover_run_command_default_first "b" _ (by decide) ⟨⟨some "b", 7, none⟩, by decide, rfl⟩

/-- C5: discovery yields a command or an error and never both or neither; a
    command exactly when the listing succeeded with a non-empty list, and then a
    member of the list; a failed listing hands its error on; an empty list gives
    `G_IO_ERROR_NOT_FOUND`. -/
theorem discover_run_command_result (default_id : Option String)
    (listing : TaskResult (List IdeRunCommand)) :
    let r := ide_run_manager_discover_run_command_finish
      (ide_run_manager_discover_run_command_cb default_id listing)
    (r.1.isSome = !r.2.isSome) ∧
    (r.1.isSome ↔ ∃ cmds, listing = .value cmds ∧ cmds ≠ []) ∧
    (∀ c, r.1 = some c → ∃ cmds, listing = .value cmds ∧ c ∈ cmds) ∧
    (∀ e, listing = .error e → r = (none, some e)) ∧
    (listing = .value [] →
      r = (none, some ⟨.G_IO_ERROR_NOT_FOUND, "No run command discovered. Set one manually."⟩)) := by
  cases listing with
  | error e =>
    simp [ide_run_manager_discover_run_command_finish,
      ide_run_manager_discover_run_command_cb, ide_task_propagate_pointer]
  | value cmds =>
    by_cases hc : cmds = []
    · subst hc
      simp [ide_run_manager_discover_run_command_finish,
        ide_run_manager_discover_run_command_cb, ide_task_propagate_pointer, discover_loop]
    · obtain ⟨c, hres, hmem⟩ :=
        (discover_loop_result default_id cmds none G_MAXINT).1 (Or.inl hc)
      have hmem2 : c ∈ cmds := by
        rcases hmem with h | h
        · exact h
        · cases h
      simp [ide_run_manager_discover_run_command_finish,
        ide_run_manager_discover_run_command_cb, ide_task_propagate_pointer, hres, hc, hmem2]

/-! ## The course of a run -/

/-- A completed run stays completed. -/
theorem main_loop_completed (o : Outcomes) (task : IdeTask) (n : Nat) (w : World)
    (r : TaskResult Unit) : main_loop o task n (w, .completed r) = (w, .completed r) := by
  induction n with
  | zero => rfl
  | succ n ih => simpa [main_loop, dispatch] using ih

/-- One more dispatch. -/
theorem main_loop_succ (o : Outcomes) (task : IdeTask) (n : Nat) (w : World) (s : Stage) :
    main_loop o task (n + 1) (w, s) = main_loop o task n (dispatch o task w s) := rfl

/-- The completion of the returned run task unmarks busy. -/
theorem main_loop_returned (o : Outcomes) (task : IdeTask) (n : Nat) (w : World)
    (r : TaskResult Unit) (h : task.unmark_busy_connected = true) :
    ∃ w', main_loop o task (n + 1) (w, .returned r) = (w', .completed r) ∧
      w'.trace = w.trace ++ [.unmark_busy] ∧
      w'.self.busy = (w.self.busy + G_MAXUINT_plus_1 - 1) % G_MAXUINT_plus_1 := by
  refine ⟨ide_run_manager_unmark_busy w, ?_, rfl, rfl⟩
  rw [main_loop_succ]
  simp only [dispatch, ide_task_completed, h, if_true, main_loop_completed]

/-- A callback that returns the task: what the rest of the main loop does. -/
theorem main_loop_task_return (o : Outcomes) (task : IdeTask) (n : Nat) (w : World)
    (r : TaskResult Unit) (h : task.unmark_busy_connected = true) :
    ∃ w', main_loop o task (n + 1) (ide_task_return w r) = (w', .completed r) ∧
      w'.trace = w.trace ++ [.task_return r, .unmark_busy] ∧
      w'.self.busy = (w.self.busy + G_MAXUINT_plus_1 - 1) % G_MAXUINT_plus_1 := by
  obtain ⟨w', h1, h2, h3⟩ := main_loop_returned o task n (w.log (.task_return r)) r h
  refine ⟨w', h1, ?_, h3⟩
  rw [h2]
  simp [World.log]

/-- `ide_run_manager_install_async` either returns the install task at once or starts the build. -/
theorem install_async_spec (w : World) (ibr : Bool) (mon : Option Nat) :
    ∃ w1 stage B, ide_run_manager_install_async w ibr mon = (w1, stage) ∧
      w1.trace = w.trace ++ .install_async :: B ∧ w1.self.busy = w.self.busy ∧
      w1.self.default_run_command = w.self.default_run_command ∧
      ((B = [] ∧ stage = .run_install_cb (.value ())) ∨
       (B = [.build_async] ∧ stage = .install_cb)) := by
  cases ibr with
  | false => exact ⟨_, _, [], rfl, rfl, rfl, rfl, Or.inl ⟨rfl, rfl⟩⟩
  | true =>
    cases hcache : (w.self.has_installed_once &&
        mon.getD 0 == w.self.last_change_seq) with
    | true =>
      refine ⟨w.log .install_async, .run_install_cb (.value ()), [], ?_, rfl, rfl, rfl,
        Or.inl ⟨rfl, rfl⟩⟩
      simp [ide_run_manager_install_async, World.log, hcache]
    | false =>
      refine ⟨({ w.log .install_async with
          self.pending_last_change_seq := mon.getD 0 } : World).log .build_async,
        .install_cb, [.build_async], ?_, ?_, rfl, rfl, Or.inr ⟨rfl, rfl⟩⟩
      · simp [ide_run_manager_install_async, World.log, hcache]
      · simp [World.log]

/-- `ide_run_manager_install_cb` returns the install task with the result of the build. -/
theorem install_cb_eq (w : World) (build : TaskResult Unit) :
    ide_run_manager_install_cb w build = (w, .run_install_cb build) := by
  cases build <;> rfl

/-! ## Rejected calls -/

/-- Making and chaining the task cancellable cancels nothing. -/
theorem chained_cancelled (w : World) (c : Option GCancellable) :
    (chained w c).cancelled = w.cancelled := by
  cases c <;> cases h : w.self.cancellable <;> simp [chained, ide_cancellable_chain, g_cancellable_new, h]

/-- Making and chaining the task cancellable leaves the manager as it is. -/
theorem chained_self (w : World) (c : Option GCancellable) :
    (chained w c).self = w.self := by
  cases c <;> cases h : w.self.cancellable <;> simp [chained, ide_cancellable_chain, g_cancellable_new, h]

/-- Making and chaining the task cancellable has no effect on the trace. -/
theorem chained_trace (w : World) (c : Option GCancellable) :
    (chained w c).trace = w.trace := by
  cases c <;> cases h : w.self.cancellable <;> simp [chained, ide_cancellable_chain, g_cancellable_new, h]

/-- `ide_run_manager_run_async` past its `g_return_if_fail` checks, as a chain of
    its three rejections and the start of the install step. -/
theorem run_async_eq (w : World) (cancellable : Option GCancellable)
    (pipeline : Option IdePipeline) (ibr : Bool) (mon : Option Nat)
    (hm : g_cancellable_is_cancelled w w.self.cancellable = false) :
    ide_run_manager_run_async w cancellable pipeline ibr mon =
      if task_cancellable w cancellable ∈ w.cancelled then
        some ((chained w cancellable).log (.task_return
            (.error ⟨.G_IO_ERROR_CANCELLED, "Operation was cancelled"⟩)),
          ⟨task_cancellable w cancellable, none, false⟩,
          .returned (.error ⟨.G_IO_ERROR_CANCELLED, "Operation was cancelled"⟩))
      else if 0 < w.self.busy then
        some ((chained w cancellable).log (.task_return
            (.error ⟨.G_IO_ERROR_BUSY, "Cannot run target, another target is running"⟩)),
          ⟨task_cancellable w cancellable, none, false⟩,
          .returned (.error ⟨.G_IO_ERROR_BUSY, "Cannot run target, another target is running"⟩))
      else match pipeline with
        | none =>
          some ((ide_run_manager_mark_busy (chained w cancellable)).log (.task_return
              (.error ⟨.G_IO_ERROR_NOT_FOUND, "A pipeline cannot be found"⟩)),
            ⟨task_cancellable w cancellable, none, true⟩,
            .returned (.error ⟨.G_IO_ERROR_NOT_FOUND, "A pipeline cannot be found"⟩))
        | some p =>
          some ((ide_run_manager_install_async
              (ide_run_manager_mark_busy (chained w cancellable)) ibr mon).1,
            ⟨task_cancellable w cancellable, some p, true⟩,
            (ide_run_manager_install_async
              (ide_run_manager_mark_busy (chained w cancellable)) ibr mon).2) := by
  have hm' := hm
  simp only [g_cancellable_is_cancelled] at hm'
  have c1 : ∀ (w2 : World) (c : GCancellable) (oc : Option GCancellable),
      (ide_cancellable_chain w2 c oc).cancelled = w2.cancelled := by
    intro w2 c oc; cases oc <;> rfl
  have c2 : ∀ (w2 : World) (c : GCancellable) (oc : Option GCancellable),
      (ide_cancellable_chain w2 c oc).self = w2.self := by
    intro w2 c oc; cases oc <;> rfl
  by_cases h1 : task_cancellable w cancellable ∈ w.cancelled <;>
    by_cases h2 : 0 < w.self.busy <;>
    cases cancellable <;> cases pipeline <;>
    simp [ide_run_manager_run_async, hm, hm', g_cancellable_new, g_cancellable_is_cancelled,
      c1, c2, ide_run_manager_check_busy, ide_run_manager_get_busy, task_cancellable, chained,
      ide_task_return] at h1 h2 ⊢ <;> simp [h1, h2]

/-- C6 as stated fails: while a run is in flight (busy count 1), a call whose
    cancellable (here object 9) is already cancelled completes with
    `G_IO_ERROR_CANCELLED`, not with `G_IO_ERROR_BUSY`. -/
theorem run_async_busy_counterexample :
    0 < (g_cancellable_cancel running 9).self.busy ∧
    (ide_run_manager_run_async (g_cancellable_cancel running 9) (some 9) (some 7)
        true (some 5)).map (fun x => x.2.2) =
      some (.returned (.error ⟨.G_IO_ERROR_CANCELLED, "Operation was cancelled"⟩)) ∧
    (ide_run_manager_run_async (g_cancellable_cancel running 9) (some 9) (some 7)
        true (some 5)).map (fun x => x.2.2) ≠
      some (.returned
        (.error ⟨.G_IO_ERROR_BUSY, "Cannot run target, another target is running"⟩)) := by
  decide

/-- C6, amended: while the busy count is positive, a call of
    `ide_run_manager_run_async` that is not cancelled completes with
    `G_IO_ERROR_BUSY`; its only effect is the return of its task, so no step is
    begun; the manager (busy count, current run command, handler and all other
    fields) is unchanged, also after the task has completed. -/
theorem run_async_busy (w : World) (cancellable : Option GCancellable)
    (pipeline : Option IdePipeline) (ibr : Bool) (mon : Option Nat) (o : Outcomes)
    (hc : not_cancelled w cancellable) (hb : 0 < w.self.busy) :
    ∃ w' task, ide_run_manager_run_async w cancellable pipeline ibr mon =
        some (w', task, .returned
          (.error ⟨.G_IO_ERROR_BUSY, "Cannot run target, another target is running"⟩)) ∧
      effects_since w w' = [.task_return
          (.error ⟨.G_IO_ERROR_BUSY, "Cannot run target, another target is running"⟩)] ∧
      (∀ e ∈ effects_since w w', e.begins = none) ∧
      w'.self = w.self ∧
      dispatch o task w' (.returned
          (.error ⟨.G_IO_ERROR_BUSY, "Cannot run target, another target is running"⟩)) =
        (w', .completed
          (.error ⟨.G_IO_ERROR_BUSY, "Cannot run target, another target is running"⟩)) := by
  obtain ⟨hm, hn⟩ := hc
  rw [run_async_eq w cancellable pipeline ibr mon hm]
  simp only [hn, hb, if_true, if_false]
  refine ⟨_, _, rfl, ?_, ?_, ?_, ?_⟩
  · simp [effects_since, World.log, chained_trace]
  · simp [effects_since, World.log, chained_trace, Effect.begins]
  · simp [World.log, chained_self]
  · simp [dispatch, ide_task_completed]

/-- Witness for C6 (amended): a second call while the first run is building. -/
theorem run_async_busy_witness :
    not_cancelled running none ∧ 0 < running.self.busy ∧
    ∃ w' task, ide_run_manager_run_async running none (some 7) true (some 5) =
        some (w', task, .returned
          (.error ⟨.G_IO_ERROR_BUSY, "Cannot run target, another target is running"⟩)) ∧
      effects_since running w' = [.task_return
          (.error ⟨.G_IO_ERROR_BUSY, "Cannot run target, another target is running"⟩)] ∧
      (∀ e ∈ effects_since running w', e.begins = none) ∧
      w'.self = running.self ∧
      dispatch all_succeed task w' (.returned
          (.error ⟨.G_IO_ERROR_BUSY, "Cannot run target, another target is running"⟩)) =
        (w', .completed
          (.error ⟨.G_IO_ERROR_BUSY, "Cannot run target, another target is running"⟩)) :=
  ⟨⟨by decide, by decide⟩, by decide,
    run_async_busy running none (some 7) true (some 5) all_succeed
      ⟨by decide, by decide⟩ (by decide)⟩

/-- The return of a task to which `ide_run_manager_unmark_busy` is not connected
    completes without touching the world. -/
theorem main_loop_returned_unconnected (o : Outcomes) (task : IdeTask) (n : Nat) (w : World)
    (r : TaskResult Unit) (h : task.unmark_busy_connected = false) :
    main_loop o task (n + 1) (w, .returned r) = (w, .completed r) := by
  rw [main_loop_succ]
  simp [dispatch, ide_task_completed, h, main_loop_completed]

/-- An accepted call marks the manager busy, with or without a pipeline. -/
theorem run_async_marks_busy (w : World) (cancellable : Option GCancellable)
    (pipeline : Option IdePipeline) (ibr : Bool) (mon : Option Nat)
    (hc : not_cancelled w cancellable) (hb : w.self.busy = 0) :
    ∃ w1 task stage, ide_run_manager_run_async w cancellable pipeline ibr mon =
        some (w1, task, stage) ∧
      task.unmark_busy_connected = true ∧ w1.self.busy = 1 := by
  obtain ⟨hm, hn⟩ := hc
  rw [run_async_eq w cancellable pipeline ibr mon hm]
  simp only [hn, hb, if_false, Nat.lt_irrefl]
  cases pipeline with
  | none =>
    refine ⟨_, _, _, rfl, rfl, ?_⟩
    simp [World.log, ide_run_manager_mark_busy, chained_self, hb, G_MAXUINT_plus_1]
  | some p =>
    obtain ⟨w1, stage, B, h3, -, h5, -, -⟩ :=
      install_async_spec (ide_run_manager_mark_busy (chained w cancellable)) ibr mon
    refine ⟨_, _, _, rfl, rfl, ?_⟩
    rw [h3, h5]
    simp [ide_run_manager_mark_busy, chained_self, hb, G_MAXUINT_plus_1]

/-- An accepted run without a pipeline: busy is marked, the task returns
    `G_IO_ERROR_NOT_FOUND`, busy is unmarked. -/
theorem run_no_pipeline (w : World) (cancellable : Option GCancellable) (o : Outcomes)
    (hc : not_cancelled w cancellable) (hb : w.self.busy = 0) :
    ∃ w', run w cancellable none o = some (w', .completed
        (.error ⟨.G_IO_ERROR_NOT_FOUND, "A pipeline cannot be found"⟩)) ∧
      effects_since w w' = [.mark_busy, .task_return
        (.error ⟨.G_IO_ERROR_NOT_FOUND, "A pipeline cannot be found"⟩), .unmark_busy] ∧
      w'.self.busy = 0 := by
  obtain ⟨hm, hn⟩ := hc
  simp only [run, run_async_eq w cancellable none _ _ hm, hn, hb, if_false, Nat.lt_irrefl]
  obtain ⟨w', h1, h2, h3⟩ := main_loop_returned o
    ⟨task_cancellable w cancellable, none, true⟩ 7
    ((ide_run_manager_mark_busy (chained w cancellable)).log (.task_return
      (.error ⟨.G_IO_ERROR_NOT_FOUND, "A pipeline cannot be found"⟩)))
    (.error ⟨.G_IO_ERROR_NOT_FOUND, "A pipeline cannot be found"⟩) rfl
  refine ⟨w', by rw [← h1], ?_, ?_⟩
  · simp [effects_since, h2, World.log, ide_run_manager_mark_busy, chained_trace]
  · have h4 : ((ide_run_manager_mark_busy (chained w cancellable)).log (.task_return
        (.error ⟨.G_IO_ERROR_NOT_FOUND, "A pipeline cannot be found"⟩))).self.busy = 1 := by
      simp [World.log, ide_run_manager_mark_busy, chained_self, hb, G_MAXUINT_plus_1]
    rw [h3, h4]
    rfl

/-! ## The run as the source has it: install, discovery, the failing assertion -/

/-- Nothing is dispatched once the program has aborted. -/
theorem main_loop_aborted (o : Outcomes) (task : IdeTask) (n : Nat) (w : World) :
    main_loop o task n (w, .aborted) = (w, .aborted) := by
  induction n with
  | zero => rfl
  | succ n ih => simpa [main_loop, dispatch] using ih

/-- `ide_run_manager_run_discover_run_command_cb` with a discovered command: the
    command is stored and the `g_assert` on the type of the task fails. -/
theorem run_discover_value (w : World) (task : IdeTask) (c : IdeRunCommand) :
    ide_run_manager_run_discover_run_command_cb w task (.value c) =
      ({ w.log (.discover_run_command_finish (.value c)) with
          self.current_run_command := some c }, .aborted) := by
  simp [ide_run_manager_run_discover_run_command_cb, ide_task_get_cancellable,
    G_IS_CANCELLABLE]

/-- From `ide_run_manager_run_install_cb` to the end of the run: a failed
    install and a failed discovery return the task with their error, and its
    completion unmarks busy; a discovery that succeeds ends at the failed
    `g_assert`. -/
theorem main_loop_run_install (o : Outcomes) (task : IdeTask) (n : Nat) (w : World)
    (install : TaskResult Unit) (h : task.unmark_busy_connected = true) :
    (∀ e, install = .error e →
      ∃ w', main_loop o task (n + 4) (w, .run_install_cb install) = (w', .completed (.error e)) ∧
        w'.trace = w.trace ++ [.install_finish (.error e), .task_return (.error e),
          .unmark_busy] ∧
        w'.self.busy = (w.self.busy + G_MAXUINT_plus_1 - 1) % G_MAXUINT_plus_1) ∧
    (∀ u e, install = .value u →
      ide_run_manager_discover_run_command_cb w.self.default_run_command o.listing
        = .error e →
      ∃ w', main_loop o task (n + 4) (w, .run_install_cb install) = (w', .completed (.error e)) ∧
        w'.trace = w.trace ++ [.install_finish (.value u), .discover_run_command_async,
          .discover_run_command_finish (.error e), .task_return (.error e), .unmark_busy] ∧
        w'.self.busy = (w.self.busy + G_MAXUINT_plus_1 - 1) % G_MAXUINT_plus_1) ∧
    (∀ u c, install = .value u →
      ide_run_manager_discover_run_command_cb w.self.default_run_command o.listing
        = .value c →
      ∃ w', main_loop o task (n + 4) (w, .run_install_cb install) = (w', .aborted) ∧
        w'.trace = w.trace ++ [.install_finish (.value u), .discover_run_command_async,
          .discover_run_command_finish (.value c)] ∧
        w'.self.busy = w.self.busy) := by
  refine ⟨?_, ?_, ?_⟩
  · rintro e rfl
    rw [main_loop_succ]
    simp only [dispatch, ide_run_manager_run_install_cb]
    obtain ⟨w', h1, h2, h3⟩ := main_loop_task_return o task (n + 2)
      (w.log (.install_finish (.error e))) (.error e) h
    exact ⟨w', h1, by rw [h2]; simp [World.log], h3⟩
  · rintro u e rfl hD
    rw [main_loop_succ]
    simp only [dispatch, ide_run_manager_run_install_cb,
      ide_run_manager_discover_run_command_async]
    rw [main_loop_succ]
    simp only [dispatch]
    rw [show (w.log (.install_finish (.value u))).self.default_run_command
      = w.self.default_run_command from rfl, hD]
    rw [main_loop_succ]
    simp only [dispatch, ide_run_manager_run_discover_run_command_cb]
    obtain ⟨w', h1, h2, h3⟩ := main_loop_task_return o task n
      (((w.log (.install_finish (.value u))).log .discover_run_command_async).log
        (.discover_run_command_finish (.error e))) (.error e) h
    exact ⟨w', h1, by rw [h2]; simp [World.log], h3⟩
  · rintro u c rfl hD
    rw [main_loop_succ]
    simp only [dispatch, ide_run_manager_run_install_cb,
      ide_run_manager_discover_run_command_async]
    rw [main_loop_succ]
    simp only [dispatch]
    rw [show (w.log (.install_finish (.value u))).self.default_run_command
      = w.self.default_run_command from rfl, hD]
    rw [main_loop_succ]
    simp only [dispatch, run_discover_value, main_loop_aborted]
    exact ⟨_, rfl, by simp [World.log], rfl⟩

/-- `ide_run_manager_install_async` by whether it starts a build. -/
theorem install_async_eq (w : World) (o : Outcomes) :
    ide_run_manager_install_async w o.install_before_run o.monitor =
      if install_builds w.self o then
        (({ w.log .install_async with
            self.pending_last_change_seq := o.monitor.getD 0 } : World).log .build_async,
          .install_cb)
      else
        (w.log .install_async, .run_install_cb (.value ())) := by
  unfold ide_run_manager_install_async install_builds
  cases o.install_before_run with
  | false => simp
  | true =>
    cases hcache : (w.self.has_installed_once && o.monitor.getD 0 == w.self.last_change_seq)
      <;> simp [World.log, hcache]

/-- An accepted call with a pipeline marks busy and begins the install step,
    with a build or without one. -/
theorem run_async_start (w : World) (cancellable : Option GCancellable) (p : IdePipeline)
    (o : Outcomes) (hc : not_cancelled w cancellable) (hb : w.self.busy = 0) :
    ∃ w1 task, ide_run_manager_run_async w cancellable (some p) o.install_before_run o.monitor
        = some (w1, task,
            if install_builds w.self o then .install_cb else .run_install_cb (.value ())) ∧
      task.unmark_busy_connected = true ∧
      w1.trace = w.trace ++ .mark_busy :: install_effects w.self o ∧ w1.self.busy = 1 ∧
      w1.self.default_run_command = w.self.default_run_command := by
  obtain ⟨hm, hn⟩ := hc
  rw [run_async_eq w cancellable (some p) _ _ hm]
  simp only [hn, hb, if_false, Nat.lt_irrefl]
  have hs : (ide_run_manager_mark_busy (chained w cancellable)).self =
      { w.self with busy := 1 } := by
    simp [ide_run_manager_mark_busy, chained_self, hb, G_MAXUINT_plus_1]
  have ht : (ide_run_manager_mark_busy (chained w cancellable)).trace =
      w.trace ++ [.mark_busy] := by
    simp [ide_run_manager_mark_busy, chained_trace]
  generalize ide_run_manager_mark_busy (chained w cancellable) = w2 at hs ht
  have hbld : install_builds w2.self o = install_builds w.self o := by
    rw [hs]; rfl
  rw [install_async_eq, hbld]
  cases hb2 : install_builds w.self o with
  | false =>
    refine ⟨w2.log .install_async, ⟨task_cancellable w cancellable, some p, true⟩, rfl, rfl,
      ?_, ?_, ?_⟩
    · simp [World.log, ht, install_effects, hb2]
    · simp [World.log, hs]
    · simp [World.log, hs]
  | true =>
    refine ⟨_, ⟨task_cancellable w cancellable, some p, true⟩, rfl, rfl, ?_, ?_, ?_⟩
    · simp [World.log, ht, install_effects, hb2]
    · simp [World.log, hs]
    · simp [World.log, hs]

/-- An accepted run with a pipeline, whatever the operations report: the
    install step is begun; a failed install and a failed discovery complete the
    run with their error and unmark busy; a discovery that succeeds ends the
    program at the `g_assert` of `ide_run_manager_run_discover_run_command_cb`,
    with busy still marked. -/
theorem run_accepted (w : World) (cancellable : Option GCancellable) (p : IdePipeline)
    (o : Outcomes) (hc : not_cancelled w cancellable) (hb : w.self.busy = 0) :
    (∀ e, install_result w.self o = .error e →
      ∃ w', run w cancellable (some p) o = some (w', .completed (.error e)) ∧
        effects_since w w' = .mark_busy :: (install_effects w.self o ++
          [.install_finish (.error e), .task_return (.error e), .unmark_busy]) ∧
        w'.self.busy = 0) ∧
    (∀ u e, install_result w.self o = .value u →
      ide_run_manager_discover_run_command_cb w.self.default_run_command o.listing
        = .error e →
      ∃ w', run w cancellable (some p) o = some (w', .completed (.error e)) ∧
        effects_since w w' = .mark_busy :: (install_effects w.self o ++
          [.install_finish (.value u), .discover_run_command_async,
           .discover_run_command_finish (.error e), .task_return (.error e),
           .unmark_busy]) ∧
        w'.self.busy = 0) ∧
    (∀ u c, install_result w.self o = .value u →
      ide_run_manager_discover_run_command_cb w.self.default_run_command o.listing
        = .value c →
      ∃ w', run w cancellable (some p) o = some (w', .aborted) ∧
        effects_since w w' = .mark_busy :: (install_effects w.self o ++
          [.install_finish (.value u), .discover_run_command_async,
           .discover_run_command_finish (.value c)]) ∧
        w'.self.busy = 1) := by
  obtain ⟨w1, task, heq, hcon, htr, hbusy, hdef⟩ := run_async_start w cancellable p o hc hb
  have hone : (1 + G_MAXUINT_plus_1 - 1) % G_MAXUINT_plus_1 = 0 := rfl
  have hrun : ∃ n, run w cancellable (some p) o =
      some (main_loop o task (n + 4) (w1, .run_install_cb (install_result w.self o))) := by
    simp only [run, heq, install_result]
    cases install_builds w.self o with
    | false => exact ⟨4, rfl⟩
    | true =>
      refine ⟨3, ?_⟩
      simp only [if_true]
      rw [main_loop_succ]
      simp only [dispatch, install_cb_eq]
  obtain ⟨n, hrun⟩ := hrun
  obtain ⟨h1, h2, h3⟩ := main_loop_run_install o task n w1 (install_result w.self o) hcon
  rw [hdef] at h2 h3
  refine ⟨?_, ?_, ?_⟩
  · intro e he
    obtain ⟨w', a, b, c⟩ := h1 e he
    refine ⟨w', by rw [hrun, a], ?_, by rw [c, hbusy, hone]⟩
    simp [effects_since, b, htr]
  · intro u e hu hD
    obtain ⟨w', a, b, c⟩ := h2 u e hu hD
    refine ⟨w', by rw [hrun, a], ?_, by rw [c, hbusy, hone]⟩
    simp [effects_since, b, htr]
  · intro u c hu hD
    obtain ⟨w', a, b, d⟩ := h3 u c hu hD
    refine ⟨w', by rw [hrun, a], ?_, by rw [d, hbusy]⟩
    simp [effects_since, b, htr]

/-- C1, the code against the claim: in an accepted run (nothing cancelled, not
    busy, a pipeline present) whose install and discovery succeed, deployment is
    not begun. The install step is begun, then discovery, and after
    `ide_run_manager_discover_run_command_finish` has given the command the
    program aborts at `g_assert (!cancellable || G_IS_CANCELLABLE (task))`: the
    run ends there with exactly these effects, none of which begins the
    deployment or the launch, and the task is never returned. -/
theorem run_aborts_before_deploy (w : World) (cancellable : Option GCancellable)
    (p : IdePipeline) (o : Outcomes) (u : Unit) (c : IdeRunCommand)
    (hc : not_cancelled w cancellable) (hb : w.self.busy = 0)
    (hi : install_result w.self o = .value u)
    (hd : ide_run_manager_discover_run_command_cb w.self.default_run_command o.listing
      = .value c) :
    ∃ w', run w cancellable (some p) o = some (w', .aborted) ∧
      effects_since w w' = .mark_busy :: (install_effects w.self o ++
        [.install_finish (.value u), .discover_run_command_async,
         .discover_run_command_finish (.value c)]) ∧
      (∀ e ∈ effects_since w w', e.begins ≠ some .deploy ∧ e.begins ≠ some .launch) ∧
      (∀ r, Effect.task_return r ∉ effects_since w w') ∧
      Effect.deploy_async ∉ effects_since w w' := by
  obtain ⟨w', h1, h2, -⟩ := (run_accepted w cancellable p o hc hb).2.2 u c hi hd
  refine ⟨w', h1, h2, ?_, ?_, ?_⟩ <;> rw [h2] <;> unfold install_effects <;>
    split_ifs <;> simp [Effect.begins]

/-- Witness for C1, the failing input: from the initial state, with the build
    and the discovery succeeding, the run aborts after discovery. -/
theorem run_aborts_before_deploy_witness :
    not_cancelled ide_run_manager_init none ∧ ide_run_manager_init.self.busy = 0 ∧
    install_result ide_run_manager_init.self all_succeed = .value () ∧
    ide_run_manager_discover_run_command_cb ide_run_manager_init.self.default_run_command
      all_succeed.listing = .value ⟨some "app", 0, some "App"⟩ ∧
    (∃ w', run ide_run_manager_init none (some 7) all_succeed = some (w', .aborted) ∧
      effects_since ide_run_manager_init w' =
        .mark_busy :: (install_effects ide_run_manager_init.self all_succeed ++
          [.install_finish (.value ()), .discover_run_command_async,
           .discover_run_command_finish (.value ⟨some "app", 0, some "App"⟩)]) ∧
      (∀ e ∈ effects_since ide_run_manager_init w',
        e.begins ≠ some .deploy ∧ e.begins ≠ some .launch) ∧
      (∀ r, Effect.task_return r ∉ effects_since ide_run_manager_init w') ∧
      Effect.deploy_async ∉ effects_since ide_run_manager_init w') ∧
    (run ide_run_manager_init none (some 7) all_succeed).map (fun x => (x.2, x.1.trace)) =
      some (.aborted, [.mark_busy, .install_async, .build_async, .install_finish (.value ()),
        .discover_run_command_async,
        .discover_run_command_finish (.value ⟨some "app", 0, some "App"⟩)]) :=
  ⟨⟨rfl, by decide⟩, rfl, by decide, by decide,
    run_aborts_before_deploy ide_run_manager_init none 7 all_succeed () _ ⟨rfl, by decide⟩ rfl
      (by decide) (by decide),
    by decide⟩

/-- The effects that begin the install step neither mark nor unmark busy, return
    no task and finish no discovery. -/
theorem install_effects_plain (self : IdeRunManager) (o : Outcomes) :
    Effect.mark_busy ∉ install_effects self o ∧ Effect.unmark_busy ∉ install_effects self o ∧
    (∀ r, Effect.task_return r ∉ install_effects self o) ∧
    (∀ c, Effect.discover_run_command_finish (.value c) ∉ install_effects self o) := by
  unfold install_effects
  split_ifs <;> simp

set_option maxHeartbeats 1000000 in
/-- A callback of the run chain neither marks nor unmarks busy; only the
    completion of the task does. -/
theorem dispatch_keeps_busy (o : Outcomes) (task : IdeTask) (w : World) (s : Stage)
    (hs : ∀ r, s ≠ .returned r) :
    (dispatch o task w s).1.self.busy = w.self.busy ∧
    Effect.mark_busy ∉ effects_since w (dispatch o task w s).1 ∧
    Effect.unmark_busy ∉ effects_since w (dispatch o task w s).1 := by
  cases s with
  | returned r => exact absurd rfl (hs r)
  | install_cb =>
    rw [show dispatch o task w .install_cb = (w, .run_install_cb o.build) from
      install_cb_eq w o.build]
    simp [effects_since]
  | run_install_cb install =>
    cases install <;>
      simp [dispatch, ide_run_manager_run_install_cb, ide_task_return,
        ide_run_manager_discover_run_command_async, World.log, effects_since]
  | discover_run_command_cb d => simp [dispatch, effects_since]
  | run_discover_run_command_cb D =>
    cases D <;>
      simp [dispatch, ide_run_manager_run_discover_run_command_cb, ide_task_return,
        ide_task_get_cancellable, G_IS_CANCELLABLE, World.log, effects_since]
  | run_deploy_cb =>
    simp only [dispatch, ide_run_manager_run_deploy_cb]
    cases o.deploy <;> cases hcur : w.self.current_run_command <;> cases o.launcher <;>
      cases o.spawn <;>
      simp [ide_task_return, World.log, effects_since, hcur]
  | run_subprocess_wait_check_cb sp =>
    simp only [dispatch, ide_run_manager_run_subprocess_wait_check_cb]
    cases o.wait <;> simp [ide_task_return, World.log, effects_since]
  | completed r => simp [dispatch, effects_since]
  | aborted => simp [dispatch, effects_since]

/-- C7: on a manager whose own cancellable is not cancelled, (1) an accepted
    call of `ide_run_manager_run_async` (task cancellable not cancelled, busy
    count 0), with or without a pipeline and whatever the steps report, marks
    busy exactly once, first; the run then either completes, and the completion
    is the one `unmark_busy`, last, after which the busy count is 0 again (no
    underflow), `ide_run_manager_get_busy` is false and every further call that
    is not cancelled is accepted; or, where its discovery succeeds, it ends at the
    `g_assert` of `ide_run_manager_run_discover_run_command_cb` with its task
    never returned and busy never unmarked; (2) a call rejected as cancelled or
    busy completes with an error, marks and unmarks nothing and leaves the busy
    count as it is; (3) of the callbacks of the run chain, from whichever state,
    none touches the busy count, and the completion of a returned task, with
    whatever result, is one call of `ide_run_manager_unmark_busy`. -/
theorem busy_count_balanced (w : World) (cancellable : Option GCancellable)
    (pipeline : Option IdePipeline) (o : Outcomes)
    (hm : g_cancellable_is_cancelled w w.self.cancellable = false) :
    (task_cancellable w cancellable ∉ w.cancelled → w.self.busy = 0 →
      ∃ w' s mid, run w cancellable pipeline o = some (w', s) ∧
        effects_since w w' = Effect.mark_busy :: mid ∧ Effect.mark_busy ∉ mid ∧
        ((∃ r before, s = .completed r ∧ mid = before ++ [Effect.unmark_busy] ∧
            Effect.unmark_busy ∉ before ∧ Effect.task_return r ∈ before ∧
            (∀ c, Effect.discover_run_command_finish (.value c) ∉ before) ∧
            w'.self.busy = 0 ∧ ide_run_manager_get_busy w'.self = false ∧
            ∀ c2 p2 ibr mon, not_cancelled w' c2 →
              ∃ w2 task stage,
                ide_run_manager_run_async w' c2 p2 ibr mon = some (w2, task, stage) ∧
                task.unmark_busy_connected = true ∧ w2.self.busy = 1) ∨
         (s = .aborted ∧ Effect.unmark_busy ∉ mid ∧ (∀ r, Effect.task_return r ∉ mid) ∧
            (∃ c, Effect.discover_run_command_finish (.value c) ∈ mid) ∧
            w'.self.busy = 1))) ∧
    (task_cancellable w cancellable ∈ w.cancelled ∨ 0 < w.self.busy →
      ∃ w' e, run w cancellable pipeline o = some (w', .completed (.error e)) ∧
        Effect.mark_busy ∉ effects_since w w' ∧ Effect.unmark_busy ∉ effects_since w w' ∧
        w'.self.busy = w.self.busy) ∧
    (∀ (task : IdeTask) (w1 : World) (s : Stage), task.unmark_busy_connected = true →
      (∀ r, s = .returned r →
        dispatch o task w1 s = (ide_run_manager_unmark_busy w1, .completed r)) ∧
      ((∀ r, s ≠ .returned r) →
        (dispatch o task w1 s).1.self.busy = w1.self.busy ∧
        Effect.mark_busy ∉ effects_since w1 (dispatch o task w1 s).1 ∧
        Effect.unmark_busy ∉ effects_since w1 (dispatch o task w1 s).1)) := by
  refine ⟨?_, ?_, ?_⟩
  · intro hn hb
    have hc : not_cancelled w cancellable := ⟨hm, hn⟩
    have hnext : ∀ w' : World, w'.self.busy = 0 → ide_run_manager_get_busy w'.self = false ∧
        ∀ c2 p2 ibr mon, not_cancelled w' c2 →
          ∃ w2 task stage, ide_run_manager_run_async w' c2 p2 ibr mon = some (w2, task, stage) ∧
            task.unmark_busy_connected = true ∧ w2.self.busy = 1 := by
      intro w' hb'
      exact ⟨by simp [ide_run_manager_get_busy, hb'],
        fun c2 p2 ibr mon hc2 => run_async_marks_busy w' c2 p2 ibr mon hc2 hb'⟩
    cases pipeline with
    | none =>
      obtain ⟨w', h1, h2, h3⟩ := run_no_pipeline w cancellable o hc hb
      refine ⟨w', _, [.task_return _, .unmark_busy], h1, h2, by simp, Or.inl ?_⟩
      exact ⟨_, [.task_return _], rfl, rfl, by simp, by simp, by simp, h3, hnext w' h3⟩
    | some p =>
      obtain ⟨a1, a2, a3⟩ := run_accepted w cancellable p o hc hb
      obtain ⟨i1, i2, i3, i4⟩ := install_effects_plain w.self o
      cases hI : install_result w.self o with
      | error e =>
        obtain ⟨w', h1, h2, h3⟩ := a1 e hI
        refine ⟨w', _, _, h1, h2, by simp [i1], Or.inl ?_⟩
        refine ⟨_, install_effects w.self o ++
          [.install_finish (.error e), .task_return (.error e)], rfl, by simp, by simp [i2],
          by simp, ?_, h3, hnext w' h3⟩
        intro c
        simp [i4]
      | value u =>
        cases hD : ide_run_manager_discover_run_command_cb w.self.default_run_command
            o.listing with
        | error e =>
          obtain ⟨w', h1, h2, h3⟩ := a2 u e hI hD
          refine ⟨w', _, _, h1, h2, by simp [i1], Or.inl ?_⟩
          refine ⟨_, install_effects w.self o ++
            [.install_finish (.value u), .discover_run_command_async,
             .discover_run_command_finish (.error e), .task_return (.error e)], rfl,
            by simp, by simp [i2], by simp, ?_, h3, hnext w' h3⟩
          intro c
          simp [i4]
        | value c =>
          obtain ⟨w', h1, h2, h3⟩ := a3 u c hI hD
          refine ⟨w', _, _, h1, h2, by simp [i1], Or.inr ⟨rfl, by simp [i2], ?_, ⟨c, by simp⟩,
            h3⟩⟩
          intro r
          simp [i3]
  · intro hrej
    simp only [run, run_async_eq w cancellable pipeline _ _ hm]
    by_cases hn : task_cancellable w cancellable ∈ w.cancelled
    · simp only [hn, if_true]
      rw [show (8 : Nat) = 7 + 1 from rfl, main_loop_returned_unconnected _ _ _ _ _ rfl]
      exact ⟨_, _, rfl, by simp [effects_since, World.log, chained_trace],
        by simp [effects_since, World.log, chained_trace], by simp [World.log, chained_self]⟩
    · have hb : 0 < w.self.busy := hrej.resolve_left hn
      simp only [hn, hb, if_true, if_false]
      rw [show (8 : Nat) = 7 + 1 from rfl, main_loop_returned_unconnected _ _ _ _ _ rfl]
      exact ⟨_, _, rfl, by simp [effects_since, World.log, chained_trace],
        by simp [effects_since, World.log, chained_trace], by simp [World.log, chained_self]⟩
  · intro task w1 s hcon
    refine ⟨?_, dispatch_keeps_busy o task w1 s⟩
    rintro r rfl
    simp [dispatch, ide_task_completed, hcon]

/-- Witness for C7: from the initial state a run whose discovery fails completes
    and leaves the manager not busy; a call while a run is building is rejected
    and leaves the busy count at 1; the completion of a task returned while busy
    is one `ide_run_manager_unmark_busy`, and `ide_run_manager_install_cb` does
    not touch the count. -/
theorem busy_count_balanced_witness :
    (g_cancellable_is_cancelled ide_run_manager_init ide_run_manager_init.self.cancellable
        = false ∧
      task_cancellable ide_run_manager_init none ∉ ide_run_manager_init.cancelled ∧
      ide_run_manager_init.self.busy = 0 ∧
      ∃ w' s mid, run ide_run_manager_init none (some 7) discovery_fails = some (w', s) ∧
        effects_since ide_run_manager_init w' = Effect.mark_busy :: mid ∧
        Effect.mark_busy ∉ mid ∧
        ((∃ r before, s = .completed r ∧ mid = before ++ [Effect.unmark_busy] ∧
            Effect.unmark_busy ∉ before ∧ Effect.task_return r ∈ before ∧
            (∀ c, Effect.discover_run_command_finish (.value c) ∉ before) ∧
            w'.self.busy = 0 ∧ ide_run_manager_get_busy w'.self = false ∧
            ∀ c2 p2 ibr mon, not_cancelled w' c2 →
              ∃ w2 task stage,
                ide_run_manager_run_async w' c2 p2 ibr mon = some (w2, task, stage) ∧
                task.unmark_busy_connected = true ∧ w2.self.busy = 1) ∨
         (s = .aborted ∧ Effect.unmark_busy ∉ mid ∧ (∀ r, Effect.task_return r ∉ mid) ∧
            (∃ c, Effect.discover_run_command_finish (.value c) ∈ mid) ∧
            w'.self.busy = 1))) ∧
    (g_cancellable_is_cancelled running running.self.cancellable = false ∧
      0 < running.self.busy ∧
      ∃ w' e, run running none (some 7) all_succeed = some (w', .completed (.error e)) ∧
        Effect.mark_busy ∉ effects_since running w' ∧
        Effect.unmark_busy ∉ effects_since running w' ∧
        w'.self.busy = running.self.busy) ∧
    ((⟨1, some 7, true⟩ : IdeTask).unmark_busy_connected = true ∧
      dispatch all_succeed ⟨1, some 7, true⟩ running (.returned (.value ())) =
        (ide_run_manager_unmark_busy running, .completed (.value ())) ∧
      (dispatch all_succeed ⟨1, some 7, true⟩ running .install_cb).1.self.busy =
        running.self.busy ∧
      Effect.mark_busy ∉
        effects_since running (dispatch all_succeed ⟨1, some 7, true⟩ running .install_cb).1 ∧
      Effect.unmark_busy ∉
        effects_since running (dispatch all_succeed ⟨1, some 7, true⟩ running .install_cb).1) ∧
    (run ide_run_manager_init none (some 7) discovery_fails).map
        (fun x => (x.2, x.1.self.busy, x.1.trace)) =
      some (.completed
          (.error ⟨.G_IO_ERROR_NOT_FOUND, "No run command discovered. Set one manually."⟩),
        0,
        [.mark_busy, .install_async, .build_async, .install_finish (.value ()),
         .discover_run_command_async,
         .discover_run_command_finish
           (.error ⟨.G_IO_ERROR_NOT_FOUND, "No run command discovered. Set one manually."⟩),
         .task_return
           (.error ⟨.G_IO_ERROR_NOT_FOUND, "No run command discovered. Set one manually."⟩),
         .unmark_busy]) :=
  ⟨⟨by decide, by decide, rfl,
      (busy_count_balanced ide_run_manager_init none (some 7) discovery_fails (by decide)).1
        (by decide) rfl⟩,
    ⟨by decide, by decide,
      (busy_count_balanced running none (some 7) all_succeed (by decide)).2.1
        (Or.inr (by decide))⟩,
    ⟨rfl,
      ((busy_count_balanced running none (some 7) all_succeed (by decide)).2.2
        ⟨1, some 7, true⟩ running (.returned (.value ())) rfl).1 (.value ()) rfl,
      ((busy_count_balanced running none (some 7) all_succeed (by decide)).2.2
        ⟨1, some 7, true⟩ running .install_cb rfl).2 (fun r h => by cases h)⟩,
    by decide⟩

/-- C8, the code at the failing input: in the first run the install build
    succeeds (the run then completes with the error of its discovery, which
    finds no command), yet the run leaves `has_installed_once` unset and
    `last_change_seq` at 0 (only `pending_last_change_seq` holds the sequence
    5), so the second run, with install before run and the VCS sequence
    unchanged, invokes the build manager again. -/
theorem second_run_builds_again :
    run ide_run_manager_init none (some 7) discovery_fails =
      some (after_first_run, .completed
        (.error ⟨.G_IO_ERROR_NOT_FOUND, "No run command discovered. Set one manually."⟩)) ∧
    Effect.build_async ∈ effects_since ide_run_manager_init after_first_run ∧
    Effect.install_finish (.value ()) ∈ effects_since ide_run_manager_init after_first_run ∧
    after_first_run.self.has_installed_once = false ∧
    after_first_run.self.last_change_seq = 0 ∧
    after_first_run.self.pending_last_change_seq = 5 ∧
    after_first_run.self.busy = 0 ∧
    discovery_fails.install_before_run = true ∧ discovery_fails.monitor = some 5 ∧
    run after_first_run none (some 7) discovery_fails =
      some (after_second_run, .completed
        (.error ⟨.G_IO_ERROR_NOT_FOUND, "No run command discovered. Set one manually."⟩)) ∧
    effects_since after_first_run after_second_run =
      [.mark_busy, .install_async, .build_async, .install_finish (.value ()),
       .discover_run_command_async,
       .discover_run_command_finish
         (.error ⟨.G_IO_ERROR_NOT_FOUND, "No run command discovered. Set one manually."⟩),
       .task_return
         (.error ⟨.G_IO_ERROR_NOT_FOUND, "No run command discovered. Set one manually."⟩),
       .unmark_busy] := by
  decide

/-- No callback of the run chain sets `current_subprocess` or makes a
    `force_exit` call. -/
theorem dispatch_no_subprocess (o : Outcomes) (task : IdeTask) (w : World) (s : Stage)
    (h1 : w.self.current_subprocess = none) (h2 : ∀ sp, Effect.force_exit sp ∉ w.trace) :
    (dispatch o task w s).1.self.current_subprocess = none ∧
    ∀ sp, Effect.force_exit sp ∉ (dispatch o task w s).1.trace := by
  cases s with
  | returned r =>
    cases hcon : task.unmark_busy_connected <;>
      simp [dispatch, ide_task_completed, hcon, ide_run_manager_unmark_busy, h1, h2]
  | install_cb =>
    rw [show dispatch o task w .install_cb = (w, .run_install_cb o.build) from
      install_cb_eq w o.build]
    exact ⟨h1, h2⟩
  | run_install_cb install =>
    cases install <;>
      simp [dispatch, ide_run_manager_run_install_cb, ide_task_return,
        ide_run_manager_discover_run_command_async, World.log, h1, h2]
  | discover_run_command_cb d => exact ⟨h1, h2⟩
  | run_discover_run_command_cb D =>
    cases D <;>
      simp [dispatch, ide_run_manager_run_discover_run_command_cb, ide_task_return,
        ide_task_get_cancellable, G_IS_CANCELLABLE, World.log, h1, h2]
  | run_deploy_cb =>
    simp only [dispatch, ide_run_manager_run_deploy_cb]
    cases o.deploy <;> cases hcur : w.self.current_run_command <;> cases o.launcher <;>
      cases o.spawn <;>
      simp [ide_task_return, World.log, hcur, h1, h2]
  | run_subprocess_wait_check_cb sp =>
    simp only [dispatch, ide_run_manager_run_subprocess_wait_check_cb]
    cases o.wait <;> simp [ide_task_return, World.log, h2]
  | completed r => exact ⟨h1, h2⟩
  | aborted => exact ⟨h1, h2⟩

/-- `ide_run_manager_install_async` does not set `current_subprocess` and makes
    no `force_exit` call. -/
theorem install_async_no_subprocess (w : World) (ibr : Bool) (mon : Option Nat)
    (h1 : w.self.current_subprocess = none) (h2 : ∀ sp, Effect.force_exit sp ∉ w.trace) :
    (ide_run_manager_install_async w ibr mon).1.self.current_subprocess = none ∧
    ∀ sp, Effect.force_exit sp ∉ (ide_run_manager_install_async w ibr mon).1.trace := by
  unfold ide_run_manager_install_async
  cases ibr with
  | false => simp [World.log, h1, h2]
  | true =>
    cases hcache : (w.self.has_installed_once && mon.getD 0 == w.self.last_change_seq) <;>
      simp [World.log, hcache, h1, h2]

/-- `ide_run_manager_run_async` does not set `current_subprocess` and makes no
    `force_exit` call. -/
theorem run_async_no_subprocess (w : World) (cancellable : Option GCancellable)
    (pipeline : Option IdePipeline) (ibr : Bool) (mon : Option Nat)
    (h1 : w.self.current_subprocess = none) (h2 : ∀ sp, Effect.force_exit sp ∉ w.trace)
    (w' : World) (task : IdeTask) (stage : Stage)
    (hr : ide_run_manager_run_async w cancellable pipeline ibr mon = some (w', task, stage)) :
    w'.self.current_subprocess = none ∧ ∀ sp, Effect.force_exit sp ∉ w'.trace := by
  cases hm : g_cancellable_is_cancelled w w.self.cancellable with
  | true => simp [ide_run_manager_run_async, hm] at hr
  | false =>
    rw [run_async_eq w cancellable pipeline ibr mon hm] at hr
    have e1 := chained_self w cancellable
    have e2 := chained_trace w cancellable
    split_ifs at hr
    · simp only [Option.some.injEq, Prod.mk.injEq] at hr
      rw [← hr.1]
      simp [World.log, e1, e2, h1, h2]
    · simp only [Option.some.injEq, Prod.mk.injEq] at hr
      rw [← hr.1]
      simp [World.log, e1, e2, h1, h2]
    · cases pipeline with
      | none =>
        simp only [Option.some.injEq, Prod.mk.injEq] at hr
        rw [← hr.1]
        simp [World.log, ide_run_manager_mark_busy, e1, e2, h1, h2]
      | some p =>
        simp only [Option.some.injEq, Prod.mk.injEq] at hr
        rw [← hr.1]
        exact install_async_no_subprocess _ ibr mon
          (by simp [ide_run_manager_mark_busy, e1, h1])
          (by simp [ide_run_manager_mark_busy, e2, h2])

/-- No sequence of steps from `ide_run_manager_init` sets `current_subprocess`
    or makes a `force_exit` call. -/
theorem after_operations_no_subprocess (ops : List Operation) :
    (after_operations ops).self.current_subprocess = none ∧
    ∀ sp, Effect.force_exit sp ∉ (after_operations ops).trace := by
  induction ops using List.reverseRecOn with
  | nil => exact ⟨rfl, by simp [after_operations, ide_run_manager_init]⟩
  | append_singleton ops op ih =>
    obtain ⟨h1, h2⟩ := ih
    have hstep : after_operations (ops ++ [op]) = op.apply (after_operations ops) := by
      simp [after_operations, List.foldl_append]
    rw [hstep]
    generalize after_operations ops = w at h1 h2
    cases op with
    | run_async c p ibr mon =>
      simp only [Operation.apply]
      cases hr : ide_run_manager_run_async w c p ibr mon with
      | none => exact ⟨h1, h2⟩
      | some x =>
        obtain ⟨w', task, stage⟩ := x
        exact run_async_no_subprocess w c p ibr mon h1 h2 w' task stage hr
    | callback o task stage => exact dispatch_no_subprocess o task w stage h1 h2
    | cancel =>
      simp only [Operation.apply, ide_run_manager_cancel, h1]
      cases w.self.cancellable <;> simp [g_cancellable_new, h1, h2]
    | cancel_in_timeout =>
      simp only [Operation.apply, do_cancel_in_timeout]
      cases w.cancel_timeouts with
      | nil => exact ⟨h1, h2⟩
      | cons c rest =>
        simp only
        split_ifs <;> simp [g_cancellable_cancel, h1, h2]
    | drop_caches => simp [Operation.apply, _ide_run_manager_drop_caches, h1, h2]

/-- The branch of `ide_run_manager_cancel` that force-exits a process is never
    taken: after any sequence of steps from `ide_run_manager_init`,
    `current_subprocess` is `NULL` and no `force_exit` call has been made, so
    `ide_run_manager_cancel` makes none either; it hands the cancellable of the
    manager to `do_cancel_in_timeout` and puts a new one in its place. -/
theorem cancel_never_force_exits (ops : List Operation) :
    (after_operations ops).self.current_subprocess = none ∧
    (∀ sp, Effect.force_exit sp ∉ (after_operations ops).trace) ∧
    (ide_run_manager_cancel (after_operations ops)).trace = (after_operations ops).trace ∧
    (ide_run_manager_cancel (after_operations ops)).self.cancellable =
      some (after_operations ops).next_object ∧
    ∀ c, (after_operations ops).self.cancellable = some c →
      c ∈ (ide_run_manager_cancel (after_operations ops)).cancel_timeouts := by
  obtain ⟨h1, h2⟩ := after_operations_no_subprocess ops
  refine ⟨h1, h2, ?_, ?_, ?_⟩ <;> simp only [ide_run_manager_cancel, h1] <;>
    cases (after_operations ops).self.cancellable <;> simp [g_cancellable_new]

end RunManager

namespace XmlAttributes
open IdeXmlRngDefineType

/-! ## The filter of `ide_xml_completion_attributes_get_matches` -/

/-- Removing the element at `a.length` leaves `a` in place and, up to order, the elements after the removed one. -/
theorem remove_index_fast_split {α : Type} (a : List α) (x : α) (b : List α) :
    (g_ptr_array_remove_index_fast (a ++ x :: b) a.length).take a.length = a ∧
    ((g_ptr_array_remove_index_fast (a ++ x :: b) a.length).drop a.length).Perm b := by
  rcases List.eq_nil_or_concat b with rfl | ⟨b', last, rfl⟩
  · simp [g_ptr_array_remove_index_fast, List.getLast?_append]
  · have e : a ++ x :: (b' ++ [last]) = (a ++ x :: b') ++ [last] := by simp
    have h2 : ((a ++ x :: b') ++ [last]).set a.length last = (a ++ last :: b') ++ [last] := by
      simp [List.set_append]
    unfold g_ptr_array_remove_index_fast
    simp only [List.concat_eq_append]
    rw [e, List.getLast?_concat]
    simp only [h2, List.dropLast_concat]
    constructor
    · simp
    · simp
      exact (List.perm_append_singleton last b').symm

/-- The filter loop keeps what is before `i`, and of the rest, up to order,
    exactly the items that name no attribute of the node. -/
theorem match_children_filter_loop_perm (attrs : List String) :
    ∀ (n : Nat) (a b : List MatchItem), b.length = n →
      (match_children_filter_loop attrs n (a ++ b) a.length).Perm
        (a ++ b.filter (fun item => decide (item.name ∉ attrs))) := by
  intro n
  induction n with
  | zero =>
    intro a b hb
    have : b = [] := List.length_eq_zero.1 hb
    subst this
    simp [match_children_filter_loop]
  | succ n ih =>
    intro a b hb
    cases b with
    | nil => simp at hb
    | cons x b' =>
      have hlen : b'.length = n := by simpa using hb
      have hget : (a ++ x :: b')[a.length]? = some x := by
        rw [List.getElem?_append_right (Nat.le_refl _)]
        simp
      simp only [match_children_filter_loop, hget]
      by_cases hx : x.name ∈ attrs
      · have hany : attrs.any (fun a => compare_attribute_names a x) = true := by
          simp only [List.any_eq_true, compare_attribute_names]
          exact ⟨x.name, hx, by simp⟩
        simp only [hany, if_true]
        obtain ⟨h1, h2⟩ := remove_index_fast_split a x b'
        have hsplit := List.take_append_drop a.length
          (g_ptr_array_remove_index_fast (a ++ x :: b') a.length)
        rw [h1] at hsplit
        rw [← hsplit]
        refine (ih a _ (by rw [h2.length_eq, hlen])).trans ?_
        refine List.Perm.append_left a ?_
        simp only [List.filter_cons, hx, not_true_eq_false, decide_False, Bool.false_eq_true,
          if_false]
        exact h2.filter _
      · have hany : ¬ attrs.any (fun a => compare_attribute_names a x) = true := by
          simp only [List.any_eq_true, compare_attribute_names, not_exists, not_and]
          intro y hy hxy
          apply hx
          have : x.name = y := by simpa using hxy
          exact this ▸ hy
        simp only [hany, if_false]
        have e : a ++ x :: b' = (a ++ [x]) ++ b' := by simp
        have e2 : a.length + 1 = (a ++ [x]).length := by simp
        rw [e, e2]
        refine (ih (a ++ [x]) b' hlen).trans ?_
        simp [List.filter_cons, hx]

/-- `match_children_filter` gives, up to order, the items that name no attribute
    of the node. -/
theorem match_children_filter_perm (match_children : List MatchItem) (attrs : List String) :
    (match_children_filter match_children attrs).Perm
      (match_children.filter (fun item => decide (item.name ∉ attrs))) := by
  have := match_children_filter_loop_perm attrs match_children.length [] match_children rfl
  simpa [match_children_filter] using this

/-- The first call of `process_matching_state`, in the initial state, yields an
    array, never `NULL`. -/
theorem process_matching_state_initial (h : Heap) (fuel : Nat) (state : MatchingState)
    (define : Ptr) (hinit : state.is_initial_state = true) (st : MatchingState)
    (m : Option (List MatchItem))
    (hres : process_matching_state h fuel state (some define) = .ok (st, m)) :
    ∃ l, m = some l := by
  cases fuel with
  | zero => simp [process_matching_state] at hres
  | succ fuel =>
    simp only [process_matching_state, hinit, if_true] at hres
    split at hres
    · simp at hres
    · rename_i st' m' heq
      split at heq
      · simp at heq
      · simp only [Except.ok.injEq, Prod.mk.injEq] at heq hres
        exact ⟨_, by rw [← hres.2, ← heq.2]⟩

/-- C2: for a define with a non-`NULL` attributes list,
    `ide_xml_completion_attributes_get_matches` fails exactly as the matching of
    the attribute definitions fails, and when that matching yields the items `l`
    it returns, up to order, exactly those items of `l` whose name is not the
    name of an attribute of the node: none of the returned items names an
    attribute the node has, and every other item of `l` is returned as often as
    it occurs in `l`. -/
theorem get_matches_filtered (h : Heap) (fuel : Nat) (define : Ptr)
    (node : Option IdeXmlSymbolNode) (hattr : (h define).attributes ≠ none) :
    (∀ f, process_matching_state h fuel (create_initial_matching_state define node)
        (some define) = .error f →
      ide_xml_completion_attributes_get_matches h fuel define node = .error f) ∧
    (∀ st m, process_matching_state h fuel (create_initial_matching_state define node)
        (some define) = .ok (st, m) →
      ∃ l r, m = some l ∧
        ide_xml_completion_attributes_get_matches h fuel define node = .ok (some r) ∧
        r.Perm (l.filter (fun item =>
          decide (item.name ∉ (create_initial_matching_state define node).node_attr))) ∧
        (∀ item ∈ r, item.name ∉ (create_initial_matching_state define node).node_attr) ∧
        (∀ item, item.name ∉ (create_initial_matching_state define node).node_attr →
          r.count item = l.count item)) := by
  constructor
  · intro f hf
    simp [ide_xml_completion_attributes_get_matches, hattr, hf]
  · intro st m hres
    obtain ⟨l, rfl⟩ := process_matching_state_initial h fuel _ define rfl st m hres
    have hperm := match_children_filter_perm l
      (create_initial_matching_state define node).node_attr
    refine ⟨l, _, rfl, ?_, hperm, ?_, ?_⟩
    · simp [ide_xml_completion_attributes_get_matches, hattr, hres]
    · intro item hitem
      have := (hperm.mem_iff).1 hitem
      simpa using (List.mem_filter.1 this).2
    · intro item hitem
      rw [hperm.count_eq, List.count_filter]
      simpa using hitem

/-- Witness for C2: element `window` of the small grammar on a node that has the
    attribute `id`. -/
theorem get_matches_filtered_witness :
    (small 0).attributes ≠ none ∧
    process_matching_state small 10 (create_initial_matching_state 0 (some ⟨some ["id"]⟩))
      (some 0) = .ok (⟨0, ["id"], false, false⟩,
        some [⟨"id", 0, false⟩, ⟨"title", -1, true⟩]) ∧
    ide_xml_completion_attributes_get_matches small 10 0 (some ⟨some ["id"]⟩) =
      .ok (some [⟨"title", -1, true⟩]) ∧
    ∃ l r, some [(⟨"id", 0, false⟩ : MatchItem), ⟨"title", -1, true⟩] = some l ∧
      ide_xml_completion_attributes_get_matches small 10 0 (some ⟨some ["id"]⟩)
        = .ok (some r) ∧
      r.Perm (l.filter (fun item => decide (item.name ∉
        (create_initial_matching_state 0 (some ⟨some ["id"]⟩)).node_attr))) ∧
      (∀ item ∈ r, item.name ∉
        (create_initial_matching_state 0 (some ⟨some ["id"]⟩)).node_attr) ∧
      (∀ item, item.name ∉ (create_initial_matching_state 0 (some ⟨some ["id"]⟩)).node_attr →
        r.count item = l.count item) := by
  have hwalk : process_matching_state small 10
      (create_initial_matching_state 0 (some ⟨some ["id"]⟩)) (some 0) =
      .ok (⟨0, ["id"], false, false⟩, some [⟨"id", 0, false⟩, ⟨"title", -1, true⟩]) := by
    simp [small, create_initial_matching_state, process_matching_state,
      process_attributes_group, children_loop, process_group, process_attribute,
      ide_str_empty0]
  refine ⟨by simp [small], hwalk, ?_,
    (get_matches_filtered small 10 0 (some ⟨some ["id"]⟩) (by simp [small])).2 _ _ hwalk⟩
  have hwalk' : process_matching_state small 10 ⟨0, ["id"], true, false⟩ (some 0) =
      .ok (⟨0, ["id"], false, false⟩, some [⟨"id", 0, false⟩, ⟨"title", -1, true⟩]) := hwalk
  simp [ide_xml_completion_attributes_get_matches, hwalk', match_children_filter,
    match_children_filter_loop, compare_attribute_names, g_ptr_array_remove_index_fast,
    create_initial_matching_state, small]

/-! ## Returned items are attributes of the element -/

/-- No items: nothing to check. -/
theorem valid_items_nil (h : Heap) (root : Ptr) : valid_items h root [] := by
  intro item hitem
  simp at hitem

/-- Valid items stay valid when appended. -/
theorem valid_items_append {h : Heap} {root : Ptr} {l1 l2 : List MatchItem}
    (h1 : valid_items h root l1) (h2 : valid_items h root l2) :
    valid_items h root (l1 ++ l2) := by
  intro item hitem
  rcases List.mem_append.1 hitem with hm | hm
  · exact h1 item hm
  · exact h2 item hm

/-- The item of `process_attribute` has the name of the ATTRIBUTE define it was made for. -/
theorem process_attribute_valid (h : Heap) (root : Ptr) (state : MatchingState)
    (hr : Reachable h root state.define) (ht : (h state.define).type = ATTRIBUTE) :
    valid_items h root (process_attribute h state) := by
  intro item hitem
  unfold process_attribute at hitem
  cases hn : (h state.define).name with
  | none => simp [hn, ide_str_empty0] at hitem
  | some name =>
    by_cases he : name = ""
    · simp [hn, ide_str_empty0, he] at hitem
    · simp only [hn, ide_str_empty0, beq_iff_eq, he, Bool.false_eq_true, if_false,
        Option.getD_some] at hitem
      have hname : item.name = name := by
        split at hitem <;> simp at hitem <;> simp [hitem]
      exact ⟨hname ▸ he, state.define, hr, ht, by rw [hn, hname]⟩

/-- The walk, from a reachable define on, only yields valid items and leaves the state out of its initial state: shown for the six functions at once, by induction on the fuel. -/
theorem walk_valid (h : Heap) (root : Ptr) : ∀ fuel : Nat,
    (∀ st d st' m, (st.is_initial_state = true → d = root) →
      (st.is_initial_state = false → Reachable h root d) →
      process_matching_state h fuel st (some d) = .ok (st', m) →
      st'.is_initial_state = false ∧ ∀ l, m = some l → valid_items h root l) ∧
    (∀ st st' l, st.is_initial_state = false → Reachable h root st.define →
      follows_content (h st.define).type = true →
      process_group h fuel st = .ok (st', l) →
      st'.is_initial_state = false ∧ valid_items h root l) ∧
    (∀ st st' l, st.is_initial_state = false →
      (st.define = root ∨ (h st.define).type = ATTRIBUTES_GROUP) →
      process_attributes_group h fuel st = .ok (st', l) →
      st'.is_initial_state = false ∧ valid_items h root l) ∧
    (∀ st st' l, st.is_initial_state = false → Reachable h root st.define →
      (h st.define).type = CHOICE →
      process_choice h fuel st = .ok (st', l) →
      st'.is_initial_state = false ∧ valid_items h root l) ∧
    (∀ st defines acc st' l, st.is_initial_state = false →
      (∀ c, defines = some c → Reachable h root c) → valid_items h root acc →
      children_loop h fuel st defines acc = .ok (st', l) →
      st'.is_initial_state = false ∧ valid_items h root l) ∧
    (∀ st defines tmp mp mpm st' l, st.is_initial_state = false →
      (∀ c, defines = some c → Reachable h root c) →
      (∀ x ∈ tmp, valid_items h root x) → (∀ x, mpm = some x → valid_items h root x) →
      choice_loop h fuel st defines tmp mp mpm = .ok (st', l) →
      st'.is_initial_state = false ∧ valid_items h root l) := by
  intro fuel
  induction fuel with
  | zero =>
    simp [process_matching_state, process_group, process_attributes_group, process_choice,
      children_loop, choice_loop]
  | succ fuel ih =>
    obtain ⟨ihS, ihG, ihA, ihC, ihL, ihCL⟩ := ih
    refine ⟨?_, ?_, ?_, ?_, ?_, ?_⟩
    · -- process_matching_state
      intro st d st' m hroot hreach hres
      simp only [process_matching_state] at hres
      cases hinit : st.is_initial_state with
      | true =>
        simp only [hinit, if_true] at hres
        split at hres
        · simp at hres
        · rename_i st2 m2 heq
          simp only [Except.ok.injEq, Prod.mk.injEq] at hres
          obtain ⟨rfl, rfl⟩ := hres
          split at heq
          · simp at heq
          · rename_i st3 l3 heq3
            simp only [Except.ok.injEq, Prod.mk.injEq] at heq
            obtain ⟨rfl, rfl⟩ := heq
            obtain ⟨h1, h2⟩ := ihA _ _ _ rfl (Or.inl (hroot hinit)) heq3
            exact ⟨h1, fun l hl => by cases hl; exact h2⟩
      | false =>
        have hr := hreach hinit
        simp only [hinit, Bool.false_eq_true, if_false] at hres
        cases htype : (h d).type <;> simp only [htype] at hres
        case NOOP | NOTALLOWED | TEXT | DATATYPE | VALUE | EMPTY | ELEMENT | START | PARAM
            | EXCEPT | LIST =>
          simp only [Except.ok.injEq, Prod.mk.injEq] at hres
          obtain ⟨rfl, rfl⟩ := hres
          exact ⟨rfl, fun l hl => by cases hl⟩
        case ATTRIBUTE =>
          simp only [Except.ok.injEq, Prod.mk.injEq] at hres
          obtain ⟨rfl, rfl⟩ := hres
          refine ⟨rfl, fun l hl => ?_⟩
          cases hl
          exact process_attribute_valid h root _ hr htype
        case DEFINE | REF | PARENTREF | EXTERNALREF =>
          split at hres
          · simp at hres
          · rename_i st2 m2 heq
            simp only [Except.ok.injEq, Prod.mk.injEq] at hres
            obtain ⟨rfl, rfl⟩ := hres
            cases hc : (h d).content with
            | none =>
              rw [hc] at heq
              cases fuel <;> simp [process_matching_state] at heq
            | some c =>
              rw [hc] at heq
              exact ihS _ _ st2 _ (by simp)
                (fun _ => Reachable.content hr (by rw [htype]; rfl) hc) heq
        case ZEROORMORE | ONEORMORE | OPTIONAL | INTERLEAVE | GROUP =>
          split at hres
          · simp at hres
          · rename_i st2 m2 heq
            simp only [Except.ok.injEq, Prod.mk.injEq] at hres
            obtain ⟨rfl, rfl⟩ := hres
            split at heq
            · simp at heq
            · rename_i st3 l3 heq3
              simp only [Except.ok.injEq, Prod.mk.injEq] at heq
              obtain ⟨rfl, rfl⟩ := heq
              obtain ⟨h1, h2⟩ := ihG _ _ _ (by simp) (by simpa using hr)
                (by simp [htype, follows_content]) heq3
              exact ⟨h1, fun l hl => by cases hl; exact h2⟩
        case CHOICE =>
          split at hres
          · simp at hres
          · rename_i st2 m2 heq
            simp only [Except.ok.injEq, Prod.mk.injEq] at hres
            obtain ⟨rfl, rfl⟩ := hres
            split at heq
            · simp at heq
            · rename_i st3 l3 heq3
              simp only [Except.ok.injEq, Prod.mk.injEq] at heq
              obtain ⟨rfl, rfl⟩ := heq
              obtain ⟨h1, h2⟩ := ihC _ _ _ rfl hr htype heq3
              exact ⟨h1, fun l hl => by cases hl; exact h2⟩
        case ATTRIBUTES_GROUP =>
          split at hres
          · simp at hres
          · rename_i st2 m2 heq
            simp only [Except.ok.injEq, Prod.mk.injEq] at hres
            obtain ⟨rfl, rfl⟩ := hres
            split at heq
            · simp at heq
            · rename_i st3 l3 heq3
              simp only [Except.ok.injEq, Prod.mk.injEq] at heq
              obtain ⟨rfl, rfl⟩ := heq
              obtain ⟨h1, h2⟩ := ihA _ _ _ rfl (Or.inr htype) heq3
              exact ⟨h1, fun l hl => by cases hl; exact h2⟩
    · -- process_group
      intro st st' l hinit hreach hfol hres
      simp only [process_group] at hres
      split at hres
      · refine ihL _ _ _ _ _ hinit ?_ (valid_items_nil h root) hres
        intro c hc
        exact Reachable.content hreach hfol hc
      · simp at hres
    · -- process_attributes_group
      intro st st' l hinit hdef hres
      simp only [process_attributes_group] at hres
      split at hres
      · rename_i htype
        rcases hdef with hdef | hdef
        · refine ihL _ _ _ _ _ hinit ?_ (valid_items_nil h root) hres
          intro c hc
          exact Reachable.attributes (hdef ▸ hc)
        · rw [hdef] at htype
          cases htype
      · simp at hres
    · -- process_choice
      intro st st' l hinit hreach htype hres
      simp only [process_choice] at hres
      refine ihCL _ _ _ _ _ _ _ hinit ?_ (by simp) (by simp) hres
      intro c hc
      exact Reachable.content hreach (by rw [htype]; rfl) hc
    · -- children_loop
      intro st defines acc st' l hinit hdefs hacc hres
      cases defines with
      | none =>
        simp only [children_loop, Except.ok.injEq, Prod.mk.injEq] at hres
        exact ⟨hres.1 ▸ hinit, hres.2 ▸ hacc⟩
      | some c =>
        simp only [children_loop] at hres
        split at hres
        · simp at hres
        · rename_i st2 heq
          obtain ⟨h1, -⟩ := ihS _ _ _ _ (by simp [hinit]) (fun _ => hdefs c rfl) heq
          refine ihL _ _ _ _ _ h1 ?_ hacc hres
          intro n hn
          exact Reachable.next (hdefs c rfl) hn
        · rename_i st2 m heq
          obtain ⟨h1, h2⟩ := ihS _ _ _ _ (by simp [hinit]) (fun _ => hdefs c rfl) heq
          refine ihL _ _ _ _ _ h1 ?_ (valid_items_append hacc (h2 m rfl)) hres
          intro n hn
          exact Reachable.next (hdefs c rfl) hn
    · -- choice_loop
      intro st defines tmp mp mpm st' l hinit hdefs htmp hmpm hres
      cases defines with
      | none =>
        simp only [choice_loop] at hres
        split at hres
        · simp only [Except.ok.injEq, Prod.mk.injEq] at hres
          exact ⟨hres.1 ▸ hinit, hres.2 ▸ hmpm _ rfl⟩
        · simp only [Except.ok.injEq, Prod.mk.injEq] at hres
          refine ⟨hres.1 ▸ hinit, hres.2 ▸ ?_⟩
          intro item hitem
          obtain ⟨x, hx, hix⟩ := List.mem_flatten.1 hitem
          exact htmp x hx item hix
      | some c =>
        simp only [choice_loop] at hres
        have hnext : ∀ n, (h c).next = some n → Reachable h root n :=
          fun n hn => Reachable.next (hdefs c rfl) hn
        split at hres
        · simp at hres
        · rename_i st2 heq
          obtain ⟨h1, -⟩ := ihS _ _ _ _ (by simp [hinit]) (fun _ => hdefs c rfl) heq
          exact ihCL _ _ _ _ _ _ _ h1 hnext htmp hmpm hres
        · rename_i st2 m heq
          obtain ⟨h1, h2⟩ := ihS _ _ _ _ (by simp [hinit]) (fun _ => hdefs c rfl) heq
          have htmp' : ∀ x ∈ tmp ++ [m], valid_items h root x := by
            intro x hx
            rcases List.mem_append.1 hx with hx | hx
            · exact htmp x hx
            · simp at hx
              exact hx ▸ h2 m rfl
          split at hres
          · refine ihCL _ _ _ _ _ _ _ h1 hnext htmp' ?_ hres
            intro x hx
            cases hx
            exact h2 m rfl
          · exact ihCL _ _ _ _ _ _ _ h1 hnext htmp' hmpm hres

/-- C3: every item returned by `ide_xml_completion_attributes_get_matches` has a
    non-empty name, and that name is the name of an ATTRIBUTE define reachable
    from `define->attributes` by `next` links and by the content links of
    ref/define/parentRef/externalRef, group, interleave, choice, optional,
    zeroOrMore and oneOrMore defines. -/
theorem get_matches_valid (h : Heap) (fuel : Nat) (define : Ptr)
    (node : Option IdeXmlSymbolNode) (r : List MatchItem)
    (hres : ide_xml_completion_attributes_get_matches h fuel define node = .ok (some r)) :
    ∀ item ∈ r, item.name ≠ "" ∧
      ∃ a, Reachable h define a ∧ (h a).type = ATTRIBUTE ∧ (h a).name = some item.name := by
  unfold ide_xml_completion_attributes_get_matches at hres
  split at hres
  · simp at hres
  · simp only at hres
    split at hres
    · simp at hres
    · simp at hres
    · rename_i st l heq
      simp only [Except.ok.injEq, Option.some.injEq] at hres
      subst hres
      obtain ⟨-, hv⟩ := (walk_valid h define fuel).1 _ _ _ _ (fun _ => rfl)
        (fun hf => by simp [create_initial_matching_state] at hf) heq
      intro item hitem
      have hmem := ((match_children_filter_perm l _).mem_iff).1 hitem
      exact hv l rfl item (List.mem_filter.1 hmem).1

/-- Witness for C3: element `window` of the small grammar on a node that has the
    attribute `id`; the item returned is `title`. -/
theorem get_matches_valid_witness :
    ide_xml_completion_attributes_get_matches small 10 0 (some ⟨some ["id"]⟩) =
      .ok (some [⟨"title", -1, true⟩]) ∧
    ∀ item ∈ [(⟨"title", -1, true⟩ : MatchItem)], item.name ≠ "" ∧
      ∃ a, Reachable small 0 a ∧ (small a).type = ATTRIBUTE ∧
        (small a).name = some item.name := by
  have hget : ide_xml_completion_attributes_get_matches small 10 0 (some ⟨some ["id"]⟩) =
      .ok (some [⟨"title", -1, true⟩]) := by
    simp [ide_xml_completion_attributes_get_matches, small, create_initial_matching_state,
      process_matching_state, process_attributes_group, children_loop, process_group,
      process_attribute, ide_str_empty0, match_children_filter, match_children_filter_loop,
      compare_attribute_names, g_ptr_array_remove_index_fast]
  exact ⟨hget, get_matches_valid small 10 0 (some ⟨some ["id"]⟩) _ hget⟩

end XmlAttributes

namespace ChangeMonitor

/-! ## Line statuses after a parse -/

/-- A value within the range of `gint` is not changed by the wrap. -/
theorem gint_eq (x : Int) (h1 : -2147483648 ≤ x) (h2 : x < 2147483648) : gint x = x := by
  unfold gint
  rw [Int.emod_eq_of_lt (by omega) (by omega)]
  omega

/-- After the `k` deletions the table holds DELETED at the lines `b .. b+k-1`
    and nothing else. -/
theorem fold_deletions (flags : GbSourceChangeFlags) (hunk : GgitDiffHunk) (a b : Int)
    (hadj : gint (hunk.new_start - hunk.old_start) = b - a) :
    ∀ k : Nat, -2147483648 ≤ b → b + k ≤ 2147483648 → ∀ key : Int,
      ((List.range k).map (fun i : Nat =>
          (hunk, (⟨.DELETION, a + i, -1⟩ : GgitDiffLine)))).foldl
        (fun st x => (diff_line_cb flags x.1 x.2 st).1) (fun _ => none) key =
      if b ≤ key ∧ key < b + k then some GB_SOURCE_CHANGE_DELETED else none := by
  intro k
  induction k with
  | zero =>
    intro _ _ key
    rw [if_neg (by push_cast; omega)]
    rfl
  | succ k ih =>
    intro hb1 hb2 key
    push_cast at hb2
    have ih' := ih hb1 (by omega)
    rw [List.range_succ, List.map_append, List.foldl_append]
    generalize ((List.range k).map (fun i : Nat =>
          (hunk, (⟨.DELETION, a + i, -1⟩ : GgitDiffLine)))).foldl
        (fun st x => (diff_line_cb flags x.1 x.2 st).1) (fun _ => none) = T at ih'
    simp only [List.map_cons, List.map_nil, List.foldl_cons, List.foldl_nil]
    have hline : gint (a + (k : Int) + gint (hunk.new_start - hunk.old_start)) = b + k := by
      rw [hadj, gint_eq _ (by omega) (by omega)]
      omega
    have hlook : g_hash_table_lookup T (b + k) = 0 := by
      unfold g_hash_table_lookup
      rw [ih' (b + k), if_neg (by omega)]
      rfl
    simp only [diff_line_cb, hline, hlook, ne_eq, not_true_eq_false, if_false,
      g_hash_table_insert]
    rw [ih' key]
    push_cast
    by_cases h1 : key = b + k
    · rw [if_pos h1, if_pos (by omega)]
    · rw [if_neg h1]
      by_cases h2 : b ≤ key ∧ key < b + k
      · rw [if_pos h2, if_pos (by omega)]
      · rw [if_neg h2, if_neg (by omega)]

/-- After `j` additions on top of the `k` deletions: CHANGED where an added
    line meets a deleted one, DELETED at the deleted lines not yet met, ADDED at
    the added lines beyond the deleted ones, nothing elsewhere. -/
theorem fold_additions (flags : GbSourceChangeFlags) (hunk : GgitDiffHunk) (b : Int) (k : Nat)
    (T0 : GHashTable)
    (hT0 : ∀ key, T0 key = if b ≤ key ∧ key < b + k then some GB_SOURCE_CHANGE_DELETED else none) :
    ∀ (j : Nat) (key : Int),
      ((List.range j).map (fun i : Nat =>
          (hunk, (⟨.ADDITION, -1, b + i⟩ : GgitDiffLine)))).foldl
        (fun st x => (diff_line_cb flags x.1 x.2 st).1) T0 key =
      if b ≤ key ∧ key < b + j ∧ key < b + k then some flags.CHANGED
      else if b ≤ key ∧ key < b + k then some GB_SOURCE_CHANGE_DELETED
      else if b + k ≤ key ∧ key < b + j then some flags.ADDED
      else none := by
  intro j
  induction j with
  | zero =>
    intro key
    simp only [List.range_zero, List.map_nil, List.foldl_nil, hT0 key]
    push_cast
    split_ifs <;> first | rfl | (exfalso; omega)
  | succ j ih =>
    intro key
    rw [List.range_succ, List.map_append, List.foldl_append]
    generalize ((List.range j).map (fun i : Nat =>
          (hunk, (⟨.ADDITION, -1, b + i⟩ : GgitDiffLine)))).foldl
        (fun st x => (diff_line_cb flags x.1 x.2 st).1) T0 = T at ih
    simp only [List.map_cons, List.map_nil, List.foldl_cons, List.foldl_nil, diff_line_cb]
    push_cast
    by_cases hjk : j < k
    · have hlook : g_hash_table_lookup T (b + j) ≠ 0 := by
        unfold g_hash_table_lookup
        rw [ih (b + j), if_neg (by omega), if_pos (by omega)]
        simp [GB_SOURCE_CHANGE_DELETED]
      rw [if_pos hlook]
      simp only [g_hash_table_insert, ih key]
      clear hlook
      split_ifs <;> first | rfl | (exfalso; omega)
    · have hlook : ¬ g_hash_table_lookup T (b + j) ≠ 0 := by
        unfold g_hash_table_lookup
        rw [ih (b + j), if_neg (by omega), if_neg (by omega), if_neg (by omega)]
        simp
      rw [if_neg hlook]
      simp only [g_hash_table_insert, ih key]
      clear hlook
      split_ifs <;> first | rfl | (exfalso; omega)

/-- C10: after `on_parse_timeout` has fed a hunk that deletes the old lines
    `a .. a+k-1` and then adds the new lines `b .. b+m-1`, with
    `b = a + (new_start - old_start)`, `gb_source_change_monitor_get_line (L - 1)`
    is CHANGED for the first `min k m` new lines, ADDED for the added lines after
    them, and NONE for every other line `L`.  Line numbers are 1-based and fit a
    `gint`; ADDED and CHANGED lie within the mask. -/
theorem change_monitor_line_status (flags : GbSourceChangeFlags)
    (hAm : Int.land flags.ADDED GB_SOURCE_CHANGE_MASK = flags.ADDED)
    (hCm : Int.land flags.CHANGED GB_SOURCE_CHANGE_MASK = flags.CHANGED)
    (hunk : GgitDiffHunk) (a b : Int) (k m : Nat) (state : GHashTable)
    (hadj : -2147483648 ≤ hunk.new_start - hunk.old_start ∧
      hunk.new_start - hunk.old_start < 2147483648)
    (hb : b = a + (hunk.new_start - hunk.old_start))
    (hb1 : 1 ≤ b) (hbk : b + k ≤ 2147483648) (hbm : b + m ≤ 2147483648)
    (lineno : Nat) (hl : lineno < 4294967296) :
    gb_source_change_monitor_get_line
        (some (on_parse_timeout flags (hunk_lines hunk a k b m) state)) lineno =
      if b ≤ (lineno : Int) + 1 ∧ (lineno : Int) + 1 < b + (min k m : Nat) then flags.CHANGED
      else if b + k ≤ (lineno : Int) + 1 ∧ (lineno : Int) + 1 < b + m then flags.ADDED
      else GB_SOURCE_CHANGE_NONE := by
  have hg : gint (hunk.new_start - hunk.old_start) = b - a := by
    rw [gint_eq _ hadj.1 hadj.2]
    omega
  have hdel := fold_deletions flags hunk a b hg k (by omega) hbk
  have hadd := fold_additions flags hunk b k _ hdel m
  simp only [gb_source_change_monitor_get_line, on_parse_timeout, hunk_lines]
  rw [List.foldl_append]
  unfold g_hash_table_lookup g_hash_table_remove_all
  rw [hadd]
  clear hadd hdel hg hb hadj
  have hAm' : Int.land flags.ADDED 7 = flags.ADDED := hAm
  have hCm' : Int.land flags.CHANGED 7 = flags.CHANGED := hCm
  have h8 : Int.land (8 : Int) 7 = 0 := by decide
  have h0 : Int.land (0 : Int) 7 = 0 := by decide
  have hmin : (k ≤ m ∧ min k m = k) ∨ (m ≤ k ∧ min k m = m) := by
    rcases Nat.le_total k m with hkm | hkm
    · exact Or.inl ⟨hkm, Nat.min_eq_left hkm⟩
    · exact Or.inr ⟨hkm, Nat.min_eq_right hkm⟩
  generalize min k m = mn at hmin
  by_cases hw : lineno + 1 < 4294967296
  · rw [Nat.mod_eq_of_lt hw]
    push_cast
    split_ifs <;>
      simp only [Option.getD_some, Option.getD_none, hAm', hCm', GB_SOURCE_CHANGE_DELETED,
        GB_SOURCE_CHANGE_MASK, GB_SOURCE_CHANGE_NONE, h8, h0] <;>
      first | rfl | (exfalso; omega)
  · have hle : lineno + 1 = 4294967296 := by omega
    rw [hle]
    have hL : (lineno : Int) + 1 = 4294967296 := by omega
    rw [hL]
    simp only [Nat.mod_self, Nat.cast_zero]
    split_ifs <;>
      simp only [Option.getD_some, Option.getD_none, hAm', hCm', GB_SOURCE_CHANGE_DELETED,
        GB_SOURCE_CHANGE_MASK, GB_SOURCE_CHANGE_NONE, h8, h0] <;>
      first | rfl | (exfalso; omega)

/-- Witness for C10: old lines 10 and 11 replaced by the five new lines 3 to 7
    (ADDED = 1, CHANGED = 2); line 5, asked for as `lineno` 4, is ADDED. -/
theorem change_monitor_line_status_witness :
    gb_source_change_monitor_get_line
        (some (on_parse_timeout ⟨1, 2⟩ (hunk_lines ⟨10, 3⟩ 10 2 3 5) (fun _ => none))) 4 =
      (if (3 : Int) ≤ ((4 : Nat) : Int) + 1 ∧ ((4 : Nat) : Int) + 1 < 3 + (min 2 5 : Nat)
        then (2 : Int)
      else if (3 : Int) + (2 : Nat) ≤ ((4 : Nat) : Int) + 1 ∧
          ((4 : Nat) : Int) + 1 < 3 + (5 : Nat) then 1
      else GB_SOURCE_CHANGE_NONE) ∧
    gb_source_change_monitor_get_line
        (some (on_parse_timeout ⟨1, 2⟩ (hunk_lines ⟨10, 3⟩ 10 2 3 5) (fun _ => none))) 4 = 1 := by
  have h := change_monitor_line_status ⟨1, 2⟩ (by decide) (by decide) ⟨10, 3⟩ 10 3 2 5
    (fun _ => none) (by decide) (by decide) (by decide) (by decide) (by decide) 4 (by decide)
  exact ⟨h, h.trans (by decide)⟩

/-! ## The parse timer is debounced -/

theorem consistent_remove (m : Monitor) (h : consistent m) :
    consistent (queue_parse_remove m) ∧ parse_timers (queue_parse_remove m) = [] ∧
    (queue_parse_remove m).context.next_id = m.context.next_id ∧
    (queue_parse_remove m).priv.parse_timeout = 0 := by
  obtain ⟨h1, h2, h3, h4⟩ := h
  unfold queue_parse_remove
  split_ifs with hp
  · refine ⟨⟨?_, ?_, h3, ?_⟩, ?_, rfl, rfl⟩
    · simp only [g_source_remove]
      exact (List.filter_sublist _).map _ |>.nodup h1
    · intro s hs
      simp only [g_source_remove, List.mem_filter] at hs
      exact h2 s hs.1
    · intro s hs hf
      simp only [g_source_remove, List.mem_filter, decide_eq_true_eq] at hs
      exact absurd (h4 s hs.1 hf) hs.2
    · simp only [parse_timers, g_source_remove, List.filter_eq_nil_iff, List.mem_filter,
        decide_eq_true_eq]
      intro s hs hf
      exact hs.2 (h4 s hs.1 hf)
  · have hp0 : m.priv.parse_timeout = 0 := by simpa using hp
    refine ⟨⟨h1, h2, h3, h4⟩, ?_, rfl, hp0⟩
    simp only [parse_timers, List.filter_eq_nil_iff, decide_eq_true_eq]
    intro s hs hf
    have := h4 s hs hf
    have := (h2 s hs).1
    omega

theorem filter_append_singleton (l : List GSource) (x : GSource)
    (hl : l.filter (fun s => s.func = GSourceFunc.on_parse_timeout) = [])
    (hx : x.func = GSourceFunc.on_parse_timeout) :
    (l ++ [x]).filter (fun s => s.func = GSourceFunc.on_parse_timeout) = [x] := by
  rw [List.filter_append, hl]
  simp [hx]

theorem consistent_add (m : Monitor) (h : consistent m) (h0 : parse_timers m = []) :
    consistent (queue_parse_add m) ∧
    parse_timers (queue_parse_add m) =
      [⟨m.context.next_id, PARSE_TIMEOUT_MSEC, GSourceFunc.on_parse_timeout⟩] ∧
    (queue_parse_add m).priv.parse_timeout = m.context.next_id ∧
    (queue_parse_add m).context.next_id = m.context.next_id + 1 := by
  obtain ⟨h1, h2, h3, h4⟩ := h
  refine ⟨⟨?_, ?_, ?_, ?_⟩, ?_, rfl, rfl⟩
  · simp only [queue_parse_add, g_timeout_add, List.map_append, List.map_cons, List.map_nil]
    rw [List.nodup_append]
    refine ⟨h1, List.nodup_singleton _, ?_⟩
    intro a ha hb
    simp only [List.mem_map] at ha
    obtain ⟨s, hs, rfl⟩ := ha
    simp only [List.mem_singleton] at hb
    have := (h2 s hs).2
    omega
  · intro s hs
    simp only [queue_parse_add, g_timeout_add, List.mem_append, List.mem_singleton] at hs ⊢
    rcases hs with hs | rfl
    · have := h2 s hs
      omega
    · exact ⟨h3, Nat.lt_succ_self _⟩
  · simp only [queue_parse_add, g_timeout_add]
    omega
  · intro s hs hf
    simp only [queue_parse_add, g_timeout_add, List.mem_append, List.mem_singleton] at hs ⊢
    rcases hs with hs | rfl
    · have : s ∈ parse_timers m := by
        simp only [parse_timers, List.mem_filter, decide_eq_true_eq]
        exact ⟨hs, hf⟩
      rw [h0] at this
      exact absurd this (List.not_mem_nil _)
    · rfl
  · simp only [parse_timers, queue_parse_add, g_timeout_add]
    exact filter_append_singleton _ _ h0 rfl

theorem queue_parse_eq (m : Monitor) (hrepo : m.priv.repo = true) (hblob : m.priv.blob = true)
    (hfile : m.priv.file = true) :
    gb_source_change_monitor_queue_parse m = queue_parse_add (queue_parse_remove m) := by
  simp [gb_source_change_monitor_queue_parse, hrepo, hblob, hfile]

theorem consistent_queue_parse (m : Monitor) (h : consistent m) (hrepo : m.priv.repo = true)
    (hblob : m.priv.blob = true) (hfile : m.priv.file = true) :
    consistent (gb_source_change_monitor_queue_parse m) ∧
    parse_timers (gb_source_change_monitor_queue_parse m) =
      [⟨m.context.next_id, PARSE_TIMEOUT_MSEC, GSourceFunc.on_parse_timeout⟩] ∧
    (gb_source_change_monitor_queue_parse m).priv.parse_timeout = m.context.next_id ∧
    (gb_source_change_monitor_queue_parse m).context.next_id = m.context.next_id + 1 := by
  rw [queue_parse_eq m hrepo hblob hfile]
  obtain ⟨a, b, c, _⟩ := consistent_remove m h
  obtain ⟨a', b', c', d'⟩ := consistent_add _ a b
  rw [c] at b' c' d'
  exact ⟨a', b', c', d'⟩

theorem consistent_dispatch (m : Monitor) (h : consistent m) :
    consistent (dispatch_parse_timeout m) ∧
    (dispatch_parse_timeout m).context.next_id = m.context.next_id := by
  obtain ⟨h1, h2, h3, h4⟩ := h
  unfold dispatch_parse_timeout
  cases hh : (parse_timers m).head? with
  | none => exact ⟨⟨h1, h2, h3, h4⟩, rfl⟩
  | some source =>
    have hmem : source ∈ parse_timers m := List.mem_of_mem_head? hh
    simp only [parse_timers, List.mem_filter, decide_eq_true_eq] at hmem
    refine ⟨⟨?_, ?_, h3, ?_⟩, rfl⟩
    · simp only [g_source_remove]
      exact (List.filter_sublist _).map _ |>.nodup h1
    · intro s hs
      simp only [g_source_remove, List.mem_filter] at hs
      exact h2 s hs.1
    · intro s hs hf
      simp only [g_source_remove, List.mem_filter, decide_eq_true_eq] at hs
      exact absurd ((h4 s hs.1 hf).trans (h4 source hmem.1 hmem.2).symm) hs.2

theorem priv_queue_parse (m : Monitor) :
    (gb_source_change_monitor_queue_parse m).priv.repo = m.priv.repo ∧
    (gb_source_change_monitor_queue_parse m).priv.blob = m.priv.blob ∧
    (gb_source_change_monitor_queue_parse m).priv.file = m.priv.file := by
  unfold gb_source_change_monitor_queue_parse queue_parse_add queue_parse_remove
  split_ifs <;> exact ⟨rfl, rfl, rfl⟩

theorem priv_dispatch (m : Monitor) :
    (dispatch_parse_timeout m).priv.repo = m.priv.repo ∧
    (dispatch_parse_timeout m).priv.blob = m.priv.blob ∧
    (dispatch_parse_timeout m).priv.file = m.priv.file := by
  unfold dispatch_parse_timeout
  cases (parse_timers m).head? with
  | none => exact ⟨rfl, rfl, rfl⟩
  | some source =>
    dsimp only
    split_ifs <;> exact ⟨rfl, rfl, rfl⟩

/-- One event keeps the monitor consistent, keeps the pointers and does not
    lower the next id. -/
theorem consistent_event (m : Monitor) (e : Event) (h : consistent m)
    (hrepo : m.priv.repo = true) (hblob : m.priv.blob = true) (hfile : m.priv.file = true) :
    consistent (e.apply m) ∧ (e.apply m).priv.repo = true ∧ (e.apply m).priv.blob = true ∧
    (e.apply m).priv.file = true ∧ m.context.next_id ≤ (e.apply m).context.next_id := by
  cases e with
  | queue_parse =>
    obtain ⟨a, _, _, d⟩ := consistent_queue_parse m h hrepo hblob hfile
    obtain ⟨p, q, r⟩ := priv_queue_parse m
    exact ⟨a, p.trans hrepo, q.trans hblob, r.trans hfile, by
      show m.context.next_id ≤ (gb_source_change_monitor_queue_parse m).context.next_id
      omega⟩
  | timeout =>
    obtain ⟨a, d⟩ := consistent_dispatch m h
    obtain ⟨p, q, r⟩ := priv_dispatch m
    exact ⟨a, p.trans hrepo, q.trans hblob, r.trans hfile, by
      show m.context.next_id ≤ (dispatch_parse_timeout m).context.next_id
      omega⟩

theorem consistent_after_events (events : List Event) (m : Monitor) (h : consistent m)
    (hrepo : m.priv.repo = true) (hblob : m.priv.blob = true) (hfile : m.priv.file = true) :
    consistent (after_events m events) ∧ (after_events m events).priv.repo = true ∧
    (after_events m events).priv.blob = true ∧ (after_events m events).priv.file = true ∧
    m.context.next_id ≤ (after_events m events).context.next_id := by
  induction events generalizing m with
  | nil => exact ⟨h, hrepo, hblob, hfile, le_refl _⟩
  | cons e es ih =>
    obtain ⟨a, b, c, d, f⟩ := consistent_event m e h hrepo hblob hfile
    obtain ⟨a', b', c', d', f'⟩ := ih (e.apply m) a b c d
    exact ⟨a', b', c', d', le_trans f f'⟩

theorem after_events_append (m : Monitor) (xs ys : List Event) :
    after_events m (xs ++ ys) = after_events (after_events m xs) ys := by
  simp [after_events, List.foldl_append]

theorem consistent_length (m : Monitor) (h : consistent m) : (parse_timers m).length ≤ 1 := by
  obtain ⟨h1, _, _, h4⟩ := h
  have hsub : List.Sublist ((parse_timers m).map (fun s => s.id))
      (m.context.sources.map (fun s => s.id)) := (List.filter_sublist _).map _
  have hnd := hsub.nodup h1
  match hp : parse_timers m with
  | [] => simp
  | [_] => simp
  | a :: b :: l =>
    exfalso
    have ha : a ∈ parse_timers m := by rw [hp]; simp
    have hb : b ∈ parse_timers m := by rw [hp]; simp
    simp only [parse_timers, List.mem_filter, decide_eq_true_eq] at ha hb
    have e1 := h4 a ha.1 ha.2
    have e2 := h4 b hb.1 hb.2
    rw [hp] at hnd
    simp only [List.map_cons, List.nodup_cons, List.mem_cons] at hnd
    exact hnd.1 (Or.inl (e1.trans e2.symm))

/-- C11: re-parsing is debounced. From a consistent monitor whose repository, blob
    and file are set, after any sequence of calls of
    `gb_source_change_monitor_queue_parse` and dispatches of the parse timer
    there is at most one pending parse timer; inside a further call there is
    none once the old timer is removed; after that call exactly one parse timer
    is pending, the one the call installed with a delay of 100 ms, whose id is in
    `parse_timeout`; and no parse timer that was pending at any earlier moment
    is pending any more. -/
theorem queue_parse_debounced (monitor : Monitor) (hc : consistent monitor)
    (hrepo : monitor.priv.repo = true) (hblob : monitor.priv.blob = true)
    (hfile : monitor.priv.file = true) (events : List Event) :
    (parse_timers (after_events monitor events)).length ≤ 1 ∧
    parse_timers (queue_parse_remove (after_events monitor events)) = [] ∧
    parse_timers (after_events monitor (events ++ [Event.queue_parse])) =
      [⟨(after_events monitor events).context.next_id, 100, GSourceFunc.on_parse_timeout⟩] ∧
    (after_events monitor (events ++ [Event.queue_parse])).priv.parse_timeout =
      (after_events monitor events).context.next_id ∧
    ∀ earlier, earlier <+: events → ∀ s ∈ parse_timers (after_events monitor earlier),
      s ∉ (after_events monitor (events ++ [Event.queue_parse])).context.sources := by
  obtain ⟨a, b, c, d, _⟩ := consistent_after_events events monitor hc hrepo hblob hfile
  obtain ⟨a', b', c', _⟩ := consistent_queue_parse _ a b c d
  have hlast : after_events monitor (events ++ [Event.queue_parse]) =
      gb_source_change_monitor_queue_parse (after_events monitor events) := by
    rw [after_events_append]; rfl
  rw [hlast]
  refine ⟨consistent_length _ a, (consistent_remove _ a).2.1, b', c', ?_⟩
  rintro earlier ⟨rest, rfl⟩ s hs ht
  obtain ⟨ea, eb, ec, ed, _⟩ := consistent_after_events earlier monitor hc hrepo hblob hfile
  have hmono := (consistent_after_events rest _ ea eb ec ed).2.2.2.2
  rw [← after_events_append] at hmono
  simp only [parse_timers, List.mem_filter, decide_eq_true_eq] at hs
  have hlt := (ea.2.1 s hs.1).2
  have htid := a'.2.2.2 s ht hs.2
  rw [c'] at htid
  omega

/-- Witness for C11: a monitor in a main context with two other sources; after
    two calls and a dispatch of the timer a third call leaves the one parse
    timer with id 5 and a delay of 100 ms. -/
theorem queue_parse_debounced_witness :
    consistent fresh ∧ fresh.priv.repo = true ∧ fresh.priv.blob = true ∧
    fresh.priv.file = true ∧
    ((parse_timers (after_events fresh [Event.queue_parse, Event.queue_parse,
        Event.timeout])).length ≤ 1 ∧
      parse_timers (queue_parse_remove (after_events fresh [Event.queue_parse,
        Event.queue_parse, Event.timeout])) = [] ∧
      parse_timers (after_events fresh ([Event.queue_parse, Event.queue_parse,
        Event.timeout] ++ [Event.queue_parse])) =
        [⟨(after_events fresh [Event.queue_parse, Event.queue_parse,
          Event.timeout]).context.next_id, 100, GSourceFunc.on_parse_timeout⟩] ∧
      (after_events fresh ([Event.queue_parse, Event.queue_parse, Event.timeout] ++
        [Event.queue_parse])).priv.parse_timeout =
        (after_events fresh [Event.queue_parse, Event.queue_parse,
          Event.timeout]).context.next_id ∧
      ∀ earlier, earlier <+: [Event.queue_parse, Event.queue_parse, Event.timeout] →
        ∀ s ∈ parse_timers (after_events fresh earlier),
          s ∉ (after_events fresh ([Event.queue_parse, Event.queue_parse, Event.timeout] ++
            [Event.queue_parse])).context.sources) ∧
    (after_events fresh [Event.queue_parse, Event.queue_parse, Event.timeout,
      Event.queue_parse]).context.sources =
      [⟨1, 250, GSourceFunc.other 0⟩, ⟨2, 1000, GSourceFunc.other 1⟩,
       ⟨5, 100, GSourceFunc.on_parse_timeout⟩] :=
  ⟨by simp [consistent, fresh], rfl, rfl, rfl,
   queue_parse_debounced fresh (by simp [consistent, fresh]) rfl rfl rfl
     [Event.queue_parse, Event.queue_parse, Event.timeout], by decide⟩

end ChangeMonitor

namespace Shellcmd

/-! ## Deleting a shell command -/

theorem parent_path_loop_spec (fuel : Nat) (s : List Char) (hf : s.length ≤ fuel) :
    ∃ name, s = parent_path_loop fuel s ++ name ∧ '/' ∉ name ∧
      (parent_path_loop fuel s = [] ∨ (parent_path_loop fuel s).getLast? = some '/') := by
  induction fuel generalizing s with
  | zero =>
    have : s = [] := List.length_eq_zero.1 (Nat.le_zero.1 hf)
    subst this
    exact ⟨[], by simp [parent_path_loop]⟩
  | succ n ih =>
    unfold parent_path_loop
    split_ifs with h
    · obtain ⟨hlen, hlast⟩ := h
      have hne : s ≠ [] := fun e => hlen (by simp [e])
      obtain ⟨c, hc⟩ : ∃ c, s.getLast? = some c := by
        cases hs : s.getLast? with
        | none => exact absurd (List.getLast?_eq_none_iff.1 hs) hne
        | some c => exact ⟨c, rfl⟩
      obtain ⟨s', rfl⟩ := List.getLast?_eq_some_iff.1 hc
      have hcne : c ≠ '/' := fun e => hlast (by rw [hc, e])
      have htr : g_string_truncate (s' ++ [c]) ((s' ++ [c]).length - 1) = s' := by
        simp [g_string_truncate]
      rw [htr]
      obtain ⟨name, hn, hslash, hend⟩ := ih s' (by simp at hf; omega)
      refine ⟨name ++ [c], ?_, ?_, hend⟩
      · rw [← List.append_assoc, ← hn]
      · simp only [List.mem_append, List.mem_singleton, not_or]
        exact ⟨hslash, fun e => hcne e.symm⟩
    · refine ⟨[], by simp, by simp, ?_⟩
      by_cases hl : s.length = 0
      · exact Or.inl (List.length_eq_zero.1 hl)
      · right
        by_contra hlast
        exact h ⟨hl, hlast⟩

theorem builder_eq_filter (id : Option String) (commands acc : List String) :
    commands.foldl
      (fun builder command =>
        if !ide_str_equal0 (some command) id then builder ++ [command] else builder) acc =
    acc ++ commands.filter (fun command => some command ≠ id) := by
  induction commands generalizing acc with
  | nil => simp
  | cons c cs ih =>
    rw [List.foldl_cons, ih]
    by_cases h : some c = id
    · simp [ide_str_equal0, h]
    · simp [ide_str_equal0, h]

theorem reset_values_other (backend : GSettingsBackend) (settings : GSettings)
    (key x : List Char) (h : x ≠ settings.path ++ key) :
    (g_settings_reset backend settings key).values x = backend.values x := by
  unfold g_settings_reset
  split_ifs <;> simp [h]

theorem reset_all_values_other (settings : GSettings) (x : List Char) (keys : List (List Char))
    (backend : GSettingsBackend) (h : ∀ key ∈ keys, x ≠ settings.path ++ key) :
    (keys.foldl (fun backend key => g_settings_reset backend settings key) backend).values x =
      backend.values x := by
  induction keys generalizing backend with
  | nil => rfl
  | cons k ks ih =>
    rw [List.foldl_cons, ih _ (fun key hk => h key (List.mem_cons_of_mem _ hk)),
      reset_values_other _ _ _ _ (h k (List.mem_cons_self _ _))]

theorem constructed_fields (settings_path : Option (List Char)) (self : GbpShellcmdRunCommand)
    (hc : gbp_shellcmd_run_command_constructed settings_path = some self) :
    ∃ t, self.settings_path = some (t ++ ['/']) ∧ self.settings.path = t ++ ['/'] := by
  unfold gbp_shellcmd_run_command_constructed at hc
  cases settings_path with
  | none => simp at hc
  | some path =>
    simp only at hc
    split_ifs at hc with h1 h2
    obtain ⟨t, ht⟩ := List.getLast?_eq_some_iff.1 (not_not.1 h1)
    refine ⟨t, ?_, ?_⟩
    · rw [← Option.some.inj hc, ht]
    · rw [← Option.some.inj hc, ht]; rfl

theorem get_parent_path_spec (self : GbpShellcmdRunCommand) (t : List Char)
    (h1 : self.settings_path = some (t ++ ['/'])) :
    ∃ name, '/' ∉ name ∧ t = get_parent_path self ++ name ∧
      (get_parent_path self = [] ∨ (get_parent_path self).getLast? = some '/') := by
  have hp : get_parent_path self = parent_path_loop t.length t := by
    simp [get_parent_path, g_string_new, h1, g_string_truncate]
  obtain ⟨name, hn, hs, he⟩ := parent_path_loop_spec t.length t (le_refl _)
  rw [hp]
  exact ⟨name, hs, hn, he⟩

theorem parent_key_not_command_key (self : GbpShellcmdRunCommand) (t key : List Char)
    (h1 : self.settings_path = some (t ++ ['/'])) (h2 : self.settings.path = t ++ ['/']) :
    get_parent_path self ++ "run-commands".toList ≠ self.settings.path ++ key := by
  obtain ⟨name, _, hn, _⟩ := get_parent_path_spec self t h1
  rw [h2]
  intro h
  have h3 : get_parent_path self ++ "run-commands".toList =
      get_parent_path self ++ (name ++ ['/'] ++ key) := by
    rw [h]
    nth_rewrite 1 [hn]
    simp
  have h4 := List.append_cancel_left h3
  have h5 : '/' ∈ "run-commands".toList := by
    rw [h4]; simp
  exact absurd h5 (by decide)

/-- C13: `gbp_shellcmd_run_command_delete` removes the command from the parent
    list. For a command object as `constructed` leaves it, the parent path is
    the settings path without its last component, and if the key `run-commands`
    of the parent path may be written, then afterwards that key holds the list
    it held before without the entries equal to the id of the command, the
    other entries in their order. -/
theorem delete_removes_command (schemas : Schemas) (settings_path : Option (List Char))
    (self : GbpShellcmdRunCommand) (backend : GSettingsBackend)
    (hc : gbp_shellcmd_run_command_constructed settings_path = some self)
    (hw : backend.writable (get_parent_path self ++ "run-commands".toList) = true) :
    (∃ name, '/' ∉ name ∧
      self.settings_path = some (get_parent_path self ++ name ++ ['/'])) ∧
    g_settings_get_strv (gbp_shellcmd_run_command_delete schemas self backend)
        (g_settings_new_with_path "org.gnome.builder.shellcmd" (get_parent_path self))
        "run-commands".toList schemas.run_commands_default =
      (g_settings_get_strv backend
        (g_settings_new_with_path "org.gnome.builder.shellcmd" (get_parent_path self))
        "run-commands".toList schemas.run_commands_default).filter
        (fun command => some command ≠ self.id) := by
  obtain ⟨t, h1, h2⟩ := constructed_fields settings_path self hc
  have hne := fun key => parent_key_not_command_key self t key h1 h2
  refine ⟨?_, ?_⟩
  · obtain ⟨name, hs, hn, _⟩ := get_parent_path_spec self t h1
    exact ⟨name, hs, by rw [h1, ← hn]⟩
  unfold gbp_shellcmd_run_command_delete
  simp only
  rw [builder_eq_filter, List.nil_append]
  generalize g_settings_get_strv backend
    (g_settings_new_with_path "org.gnome.builder.shellcmd" (get_parent_path self))
    "run-commands".toList schemas.run_commands_default = commands
  unfold g_settings_get_strv
  rw [show (g_settings_new_with_path "org.gnome.builder.shellcmd" (get_parent_path self)).path =
    get_parent_path self from rfl]
  rw [reset_all_values_other _ _ _ _ (fun key _ => hne key)]
  simp only [g_settings_set_strv, g_settings_new_with_path]
  rw [if_pos hw]
  simp

/-- Witness for C13: the command `a` under `/org/gnome/builder/shellcmd/`; of
    the list a, b, a, c the entries b and c are left. -/
theorem delete_removes_command_witness :
    gbp_shellcmd_run_command_constructed (some "/org/gnome/builder/shellcmd/a/".toList) =
      some sample_command ∧
    sample_backend.writable (get_parent_path sample_command ++ "run-commands".toList) = true ∧
    ((∃ name, '/' ∉ name ∧
      sample_command.settings_path = some (get_parent_path sample_command ++ name ++ ['/'])) ∧
    g_settings_get_strv (gbp_shellcmd_run_command_delete sample_schemas sample_command
          sample_backend)
        (g_settings_new_with_path "org.gnome.builder.shellcmd" (get_parent_path sample_command))
        "run-commands".toList sample_schemas.run_commands_default =
      (g_settings_get_strv sample_backend
        (g_settings_new_with_path "org.gnome.builder.shellcmd" (get_parent_path sample_command))
        "run-commands".toList sample_schemas.run_commands_default).filter
        (fun command => some command ≠ sample_command.id)) ∧
    g_settings_get_strv (gbp_shellcmd_run_command_delete sample_schemas sample_command
          sample_backend)
        (g_settings_new_with_path "org.gnome.builder.shellcmd"
          "/org/gnome/builder/shellcmd/".toList)
        "run-commands".toList [] = ["b", "c"] :=
  ⟨by decide, rfl,
   delete_removes_command sample_schemas (some "/org/gnome/builder/shellcmd/a/".toList)
     sample_command sample_backend (by decide) rfl, by decide⟩

end Shellcmd

namespace TextUtil

/-! ## Deleting lines with a selection -/

/-- The fuel of `backward_loop` is enough: started with a fuel of `-count`, the
    loop is left with a count of zero or where `gtk_text_iter_backward_line`
    returned `FALSE`. -/
theorem backward_loop_exit {View Iter : Type} (gtk : Gtk View Iter) (fuel : Nat) (count : Int)
    (start : Iter) (h : count = -(fuel : Int)) :
    (backward_loop gtk fuel count start).1 = 0 ∨
    ∃ iter, (gtk.gtk_text_iter_backward_line iter).1 = false ∧
      (backward_loop gtk fuel count start).2 = (gtk.gtk_text_iter_backward_line iter).2 := by
  induction fuel generalizing count start with
  | zero =>
    left
    simp [backward_loop, h]
  | succ n ih =>
    have hneg : count < 0 := by rw [h]; push_cast; omega
    unfold backward_loop
    rw [if_pos hneg]
    cases hb : (gtk.gtk_text_iter_backward_line start).1 with
    | false =>
      right
      exact ⟨start, hb, by simp [hb]⟩
    | true =>
      simp only [hb, Bool.not_true, Bool.false_eq_true, if_false]
      exact ih (count + 1) _ (by rw [h]; push_cast; omega)

/-- C14: with a selection `ide_text_util_delete_line` ignores `count`. Whatever
    the functions of GTK do, if `gtk_text_buffer_get_selection_bounds` reports a
    selection, then for every two values of `count` the text view afterwards is
    the same, and with it the text of the buffer and the cursor. -/
theorem delete_line_ignores_count {View Iter : Type} (gtk : Gtk View Iter) (text_view : View)
    (count1 count2 : Int)
    (hsel : (gtk.gtk_text_buffer_get_selection_bounds
      (gtk.gtk_text_view_reset_im_context text_view)).1 = true) :
    ide_text_util_delete_line gtk text_view count1 =
      ide_text_util_delete_line gtk text_view count2 := by
  unfold ide_text_util_delete_line
  simp only [hsel, if_true]

/-- Witness for C14: three lines of plain text with a selection from the first
    line into the second; for the counts 7 and -7 alike the two lines are
    deleted and the cursor is at the start. Without the selection the two
    counts give different texts. -/
theorem delete_line_ignores_count_witness :
    (plain.gtk_text_buffer_get_selection_bounds
      (plain.gtk_text_view_reset_im_context sample_view)).1 = true ∧
    ide_text_util_delete_line plain sample_view 7 =
      ide_text_util_delete_line plain sample_view (-7) ∧
    (ide_text_util_delete_line plain sample_view 7).text = "ef".toList ∧
    (ide_text_util_delete_line plain sample_view 7).insert = 0 ∧
    (ide_text_util_delete_line plain { sample_view with selection_bound := 4 } 7).text =
      "ab".toList ∧
    (ide_text_util_delete_line plain { sample_view with selection_bound := 4 } (-7)).text =
      "ef".toList :=
  ⟨by decide, delete_line_ignores_count plain sample_view 7 (-7) (by decide), by decide,
   by decide, by decide, by decide⟩

end TextUtil

namespace XmlAttributes

open IdeXmlRngDefineType

/-! ## The walk ends -/

/-- More fuel does not change a walk that has ended: one layer of calls. If each
    of the six functions with fuel `k` runs out of fuel or gives what it gives
    with fuel `m`, then so it is with `k + 1` and `m + 1`. -/
theorem fuel_step (h : Heap) (k m : Nat)
    (ihS : ∀ st o, process_matching_state h k st o = .error .out_of_fuel ∨
      process_matching_state h k st o = process_matching_state h m st o)
    (ihG : ∀ st, process_group h k st = .error .out_of_fuel ∨
      process_group h k st = process_group h m st)
    (ihA : ∀ st, process_attributes_group h k st = .error .out_of_fuel ∨
      process_attributes_group h k st = process_attributes_group h m st)
    (ihC : ∀ st, process_choice h k st = .error .out_of_fuel ∨
      process_choice h k st = process_choice h m st)
    (ihL : ∀ st o acc, children_loop h k st o acc = .error .out_of_fuel ∨
      children_loop h k st o acc = children_loop h m st o acc)
    (ihCL : ∀ st o tmp mp mpm, choice_loop h k st o tmp mp mpm = .error .out_of_fuel ∨
      choice_loop h k st o tmp mp mpm = choice_loop h m st o tmp mp mpm) :
    (∀ st o, process_matching_state h (k + 1) st o = .error .out_of_fuel ∨
      process_matching_state h (k + 1) st o = process_matching_state h (m + 1) st o) ∧
    (∀ st, process_group h (k + 1) st = .error .out_of_fuel ∨
      process_group h (k + 1) st = process_group h (m + 1) st) ∧
    (∀ st, process_attributes_group h (k + 1) st = .error .out_of_fuel ∨
      process_attributes_group h (k + 1) st = process_attributes_group h (m + 1) st) ∧
    (∀ st, process_choice h (k + 1) st = .error .out_of_fuel ∨
      process_choice h (k + 1) st = process_choice h (m + 1) st) ∧
    (∀ st o acc, children_loop h (k + 1) st o acc = .error .out_of_fuel ∨
      children_loop h (k + 1) st o acc = children_loop h (m + 1) st o acc) ∧
    (∀ st o tmp mp mpm, choice_loop h (k + 1) st o tmp mp mpm = .error .out_of_fuel ∨
      choice_loop h (k + 1) st o tmp mp mpm = choice_loop h (m + 1) st o tmp mp mpm) := by
  refine ⟨?_, ?_, ?_, ?_, ?_, ?_⟩
  · intro st o
    cases o with
    | none => right; simp [process_matching_state]
    | some d =>
      simp only [process_matching_state]
      cases hinit : st.is_initial_state
      · simp only [Bool.false_eq_true, if_false]
        cases htype : (h d).type <;> simp only [htype, reduceCtorEq, or_false, or_true,
          false_or, true_or, if_true, if_false]
        case DEFINE | REF | PARENTREF | EXTERNALREF =>
          rcases ihS ⟨d, st.node_attr, false, st.is_optional⟩ (h d).content with e | e
          · left; rw [e]
          · right; rw [e]
        case ZEROORMORE | OPTIONAL =>
          rcases ihG ⟨d, st.node_attr, false, true⟩ with e | e
          · left; rw [e]
          · right; rw [e]
        case ONEORMORE | GROUP | INTERLEAVE =>
          rcases ihG ⟨d, st.node_attr, false, st.is_optional⟩ with e | e
          · left; rw [e]
          · right; rw [e]
        case CHOICE =>
          rcases ihC ⟨d, st.node_attr, false, st.is_optional⟩ with e | e
          · left; rw [e]
          · right; rw [e]
        case ATTRIBUTES_GROUP =>
          rcases ihA ⟨d, st.node_attr, false, st.is_optional⟩ with e | e
          · left; rw [e]
          · right; rw [e]
      · simp only [if_true]
        rcases ihA ⟨d, st.node_attr, false, st.is_optional⟩ with e | e
        · left; rw [e]
        · right; rw [e]
  · intro st
    simp only [process_group]
    split_ifs
    · exact ihL _ _ _
    · right; rfl
  · intro st
    simp only [process_attributes_group]
    split_ifs
    · exact ihL _ _ _
    · right; rfl
  · intro st
    simp only [process_choice]
    exact ihCL _ _ _ _ _
  · intro st o acc
    cases o with
    | none => right; simp [children_loop]
    | some d =>
      simp only [children_loop]
      rcases ihS st (some d) with e | e
      · left; rw [e]
      · rw [e]
        rcases process_matching_state h m st (some d) with f | ⟨st', _ | l⟩
        · right; rfl
        · exact ihL _ _ _
        · exact ihL _ _ _
  · intro st o tmp mp mpm
    cases o with
    | none => right; simp [choice_loop]
    | some d =>
      simp only [choice_loop]
      rcases ihS st (some d) with e | e
      · left; rw [e]
      · rw [e]
        rcases process_matching_state h m st (some d) with f | ⟨st', _ | l⟩
        · right; rfl
        · exact ihCL _ _ _ _ _
        · simp only
          split_ifs
          · exact ihCL _ _ _ _ _
          · exact ihCL _ _ _ _ _

/-- One more unit of fuel does not change a walk that has ended. -/
theorem fuel_succ (h : Heap) (k : Nat) :
    (∀ st o, process_matching_state h k st o = .error .out_of_fuel ∨
      process_matching_state h k st o = process_matching_state h (k + 1) st o) ∧
    (∀ st, process_group h k st = .error .out_of_fuel ∨
      process_group h k st = process_group h (k + 1) st) ∧
    (∀ st, process_attributes_group h k st = .error .out_of_fuel ∨
      process_attributes_group h k st = process_attributes_group h (k + 1) st) ∧
    (∀ st, process_choice h k st = .error .out_of_fuel ∨
      process_choice h k st = process_choice h (k + 1) st) ∧
    (∀ st o acc, children_loop h k st o acc = .error .out_of_fuel ∨
      children_loop h k st o acc = children_loop h (k + 1) st o acc) ∧
    (∀ st o tmp mp mpm, choice_loop h k st o tmp mp mpm = .error .out_of_fuel ∨
      choice_loop h k st o tmp mp mpm = choice_loop h (k + 1) st o tmp mp mpm) := by
  induction k with
  | zero =>
    refine ⟨?_, ?_, ?_, ?_, ?_, ?_⟩ <;> intros <;> left <;>
      simp [process_matching_state, process_group, process_attributes_group, process_choice,
        children_loop, choice_loop]
  | succ k ih =>
    obtain ⟨a, b, c, d, e, f⟩ := ih
    exact fuel_step h k (k + 1) a b c d e f

/-- More fuel does not change the result of
    `ide_xml_completion_attributes_get_matches` once the walk has ended. -/
theorem get_matches_fuel_mono (h : Heap) (define : Ptr) (node : Option IdeXmlSymbolNode)
    (k : Nat)
    (hk : ide_xml_completion_attributes_get_matches h k define node ≠ .error .out_of_fuel)
    (n : Nat) (hn : k ≤ n) :
    ide_xml_completion_attributes_get_matches h n define node =
      ide_xml_completion_attributes_get_matches h k define node := by
  induction n, hn using Nat.le_induction with
  | base => rfl
  | succ n _ ih =>
    rw [← ih]
    rw [← ih] at hk
    unfold ide_xml_completion_attributes_get_matches at hk ⊢
    split_ifs with ha
    · rfl
    · rw [if_neg ha] at hk
      simp only at hk ⊢
      rcases (fuel_succ h n).1 (create_initial_matching_state define node) (some define)
        with e | e
      · rw [e] at hk
        exact absurd rfl hk
      · rw [e]

/-- With enough fuel for what the content link of `d` leads to, where that
    link is followed, `process_matching_state` at `d` does not run out of
    fuel. -/
theorem process_matching_state_fuel (h : Heap) (d : Ptr) (k : Nat)
    (hS : follows_content (h d).type = true → ∀ st, st.is_initial_state = false →
      process_matching_state h (k + 1) st (h d).content ≠ .error .out_of_fuel)
    (hL : follows_content (h d).type = true → ∀ st acc, st.is_initial_state = false →
      children_loop h k st (h d).content acc ≠ .error .out_of_fuel)
    (hCL : follows_content (h d).type = true → ∀ st tmp mp mpm, st.is_initial_state = false →
      choice_loop h k st (h d).content tmp mp mpm ≠ .error .out_of_fuel)
    (st : MatchingState) (hinit : st.is_initial_state = false) :
    process_matching_state h (k + 2) st (some d) ≠ .error .out_of_fuel := by
  simp only [process_matching_state, hinit, Bool.false_eq_true, if_false]
  cases htype : (h d).type <;> simp only [htype]
  case NOOP | NOTALLOWED | TEXT | DATATYPE | VALUE | EMPTY | ELEMENT | START | PARAM
      | EXCEPT | LIST | ATTRIBUTE => simp
  case DEFINE | REF | PARENTREF | EXTERNALREF =>
    have hsub := hS (by rw [htype]; rfl) ⟨d, st.node_attr, false, st.is_optional⟩ rfl
    split
    · rename_i f heq
      intro e
      cases e
      exact hsub heq
    · simp
  case ZEROORMORE | ONEORMORE | OPTIONAL | GROUP =>
    simp only [process_group, htype, reduceCtorEq, or_false, or_true, false_or, true_or,
      if_true, if_false]
    generalize hr : children_loop h k _ (h d).content [] = r
    have hsub : r ≠ .error .out_of_fuel := hr ▸ hL (by rw [htype]; rfl) _ _ rfl
    rcases r with f | ⟨s, m⟩
    · simpa using hsub
    · simp
  case INTERLEAVE =>
    simp [process_group, htype]
  case CHOICE =>
    simp only [process_choice]
    generalize hr : choice_loop h k _ (h d).content [] G_MAXINT none = r
    have hsub : r ≠ .error .out_of_fuel := hr ▸ hCL (by rw [htype]; rfl) _ _ _ _ rfl
    rcases r with f | ⟨s, m⟩
    · simpa using hsub
    · simp
  case ATTRIBUTES_GROUP =>
    simp [process_attributes_group, htype]

/-- With enough fuel for `d` itself and for what its `next` link leads to, the
    loop of `process_group` from `d` on does not run out of fuel. -/
theorem children_loop_fuel (h : Heap) (root d : Ptr) (k : Nat) (hr : Reachable h root d)
    (hP : ∀ st, st.is_initial_state = false →
      process_matching_state h k st (some d) ≠ .error .out_of_fuel)
    (hN : ∀ st acc, st.is_initial_state = false →
      children_loop h k st (h d).next acc ≠ .error .out_of_fuel)
    (st : MatchingState) (acc : List MatchItem) (hinit : st.is_initial_state = false) :
    children_loop h (k + 1) st (some d) acc ≠ .error .out_of_fuel := by
  simp only [children_loop]
  have hsub := hP st hinit
  split
  · rename_i f heq
    intro e
    cases e
    exact hsub heq
  · rename_i st2 heq
    exact hN _ _ ((walk_valid h root k).1 _ _ _ _ (by simp [hinit]) (fun _ => hr) heq).1
  · rename_i st2 m heq
    exact hN _ _ ((walk_valid h root k).1 _ _ _ _ (by simp [hinit]) (fun _ => hr) heq).1

/-- With enough fuel for `d` itself and for what its `next` link leads to, the
    loop of `process_choice` from `d` on does not run out of fuel. -/
theorem choice_loop_fuel (h : Heap) (root d : Ptr) (k : Nat) (hr : Reachable h root d)
    (hP : ∀ st, st.is_initial_state = false →
      process_matching_state h k st (some d) ≠ .error .out_of_fuel)
    (hN : ∀ st tmp mp mpm, st.is_initial_state = false →
      choice_loop h k st (h d).next tmp mp mpm ≠ .error .out_of_fuel)
    (st : MatchingState) (tmp : List (List MatchItem)) (mp : Int)
    (mpm : Option (List MatchItem)) (hinit : st.is_initial_state = false) :
    choice_loop h (k + 1) st (some d) tmp mp mpm ≠ .error .out_of_fuel := by
  simp only [choice_loop]
  have hsub := hP st hinit
  split
  · rename_i f heq
    intro e
    cases e
    exact hsub heq
  · rename_i st2 heq
    exact hN _ _ _ _ ((walk_valid h root k).1 _ _ _ _ (by simp [hinit]) (fun _ => hr) heq).1
  · rename_i st2 m heq
    have h1 := ((walk_valid h root k).1 _ _ _ _ (by simp [hinit]) (fun _ => hr) heq).1
    split
    · exact hN _ _ _ _ h1
    · exact hN _ _ _ _ h1

/-- At the end of a list (`NULL`) nothing runs out of a fuel of one. -/
theorem end_of_list_fuel (h : Heap) (fuel : Nat) (hf : 1 ≤ fuel) :
    (∀ st, process_matching_state h fuel st none ≠ .error .out_of_fuel) ∧
    (∀ st acc, children_loop h fuel st none acc ≠ .error .out_of_fuel) ∧
    (∀ st tmp mp mpm, choice_loop h fuel st none tmp mp mpm ≠ .error .out_of_fuel) := by
  obtain ⟨k, rfl⟩ : ∃ k, fuel = k + 1 := ⟨fuel - 1, by omega⟩
  refine ⟨?_, ?_, ?_⟩
  · intro st
    simp [process_matching_state]
  · intro st acc
    simp [children_loop]
  · intro st tmp mp mpm
    simp only [choice_loop]
    split <;> simp

/-- A define from which the links the walk follows cannot be followed for ever
    is walked with finite fuel, alone and as the head of a list of siblings. -/
theorem walk_fuel_of_acc (h : Heap) (root d : Ptr)
    (hacc : Acc (fun y x => walk_link h x y) d) (hr : Reachable h root d) :
    ∃ N, ∀ fuel, N ≤ fuel →
      (∀ st, st.is_initial_state = false →
        process_matching_state h fuel st (some d) ≠ .error .out_of_fuel) ∧
      (∀ st acc, st.is_initial_state = false →
        children_loop h fuel st (some d) acc ≠ .error .out_of_fuel) ∧
      (∀ st tmp mp mpm, st.is_initial_state = false →
        choice_loop h fuel st (some d) tmp mp mpm ≠ .error .out_of_fuel) := by
  induction hacc with
  | intro d _ ih =>
    have hopt : ∀ o : Option Ptr, (∀ c, o = some c → walk_link h d c ∧ Reachable h root c) →
        ∃ N, ∀ fuel, N ≤ fuel →
          (∀ st, st.is_initial_state = false →
            process_matching_state h fuel st o ≠ .error .out_of_fuel) ∧
          (∀ st acc, st.is_initial_state = false →
            children_loop h fuel st o acc ≠ .error .out_of_fuel) ∧
          (∀ st tmp mp mpm, st.is_initial_state = false →
            choice_loop h fuel st o tmp mp mpm ≠ .error .out_of_fuel) := by
      intro o ho
      cases o with
      | none =>
        refine ⟨1, fun fuel hf => ?_⟩
        obtain ⟨a, b, c⟩ := end_of_list_fuel h fuel hf
        exact ⟨fun st _ => a st, fun st acc _ => b st acc, fun st tmp mp mpm _ => c st tmp mp mpm⟩
      | some c => exact ih c (ho c rfl).1 (ho c rfl).2
    obtain ⟨Nn, hNn⟩ := hopt (h d).next (fun c hc => ⟨Or.inl hc, Reachable.next hr hc⟩)
    have hcont : ∃ Nc, follows_content (h d).type = true → ∀ fuel, Nc ≤ fuel →
          (∀ st, st.is_initial_state = false →
            process_matching_state h fuel st (h d).content ≠ .error .out_of_fuel) ∧
          (∀ st acc, st.is_initial_state = false →
            children_loop h fuel st (h d).content acc ≠ .error .out_of_fuel) ∧
          (∀ st tmp mp mpm, st.is_initial_state = false →
            choice_loop h fuel st (h d).content tmp mp mpm ≠ .error .out_of_fuel) := by
      by_cases hf : follows_content (h d).type = true
      · obtain ⟨Nc, hNc⟩ := hopt (h d).content
          (fun c hc => ⟨Or.inr ⟨hf, hc⟩, Reachable.content hr hf hc⟩)
        exact ⟨Nc, fun _ => hNc⟩
      · exact ⟨0, fun hf' => absurd hf' hf⟩
    obtain ⟨Nc, hNc⟩ := hcont
    refine ⟨Nn + Nc + 3, fun fuel hfuel => ?_⟩
    obtain ⟨k, rfl⟩ : ∃ k, fuel = k + 3 := ⟨fuel - 3, by omega⟩
    have hP : ∀ j, Nc ≤ j → ∀ st, st.is_initial_state = false →
        process_matching_state h (j + 2) st (some d) ≠ .error .out_of_fuel :=
      fun j hj => process_matching_state_fuel h d j
        (fun hf => (hNc hf (j + 1) (by omega)).1) (fun hf => (hNc hf j hj).2.1)
        (fun hf => (hNc hf j hj).2.2)
    refine ⟨hP (k + 1) (by omega), ?_, ?_⟩
    · exact children_loop_fuel h root d (k + 2) hr (hP k (by omega))
        (hNn (k + 2) (by omega)).2.1
    · exact choice_loop_fuel h root d (k + 2) hr (hP k (by omega))
        (hNn (k + 2) (by omega)).2.2

/-- From the attributes of an element whose walk links cannot be followed for
    ever, `ide_xml_completion_attributes_get_matches` ends. -/
theorem terminates_of_acc (h : Heap) (define : Ptr) (node : Option IdeXmlSymbolNode)
    (hacc : ∀ a, (h define).attributes = some a → Acc (fun y x => walk_link h x y) a) :
    terminates h define node := by
  have hne : ∃ N, ∀ fuel, N ≤ fuel →
      ide_xml_completion_attributes_get_matches h fuel define node ≠ .error .out_of_fuel := by
    cases ha : (h define).attributes with
    | none =>
      exact ⟨0, fun fuel _ => by simp [ide_xml_completion_attributes_get_matches, ha]⟩
    | some a =>
      obtain ⟨N, hN⟩ := walk_fuel_of_acc h define a (hacc a ha) (Reachable.attributes ha)
      refine ⟨N + 2, fun fuel hfuel => ?_⟩
      obtain ⟨k, rfl⟩ : ∃ k, fuel = k + 2 := ⟨fuel - 2, by omega⟩
      have hL := (hN k (by omega)).2.1
      simp only [ide_xml_completion_attributes_get_matches, ha, reduceCtorEq, if_false,
        process_matching_state, create_initial_matching_state, if_true,
        process_attributes_group]
      split_ifs with htype
      · generalize hr : children_loop h k _ (some a) [] = r
        have hsub : r ≠ .error .out_of_fuel := hr ▸ hL _ _ rfl
        rcases r with f | ⟨s, m⟩
        · simpa using hsub
        · simp
      · simp
  obtain ⟨N, hN⟩ := hne
  exact ⟨N, _, hN N (le_refl _),
    fun fuel hf => get_matches_fuel_mono h define node N (hN N (le_refl _)) fuel hf⟩

theorem reachable_walk_link (h : Heap) (root d d' : Ptr) (hr : Reachable h root d)
    (hl : walk_link h d d') : Reachable h root d' := by
  rcases hl with hn | ⟨hf, hc⟩
  · exact Reachable.next hr hn
  · exact Reachable.content hr hf hc

/-- In a finite graph without a cycle no path goes on for ever. -/
theorem acc_of_finite_acyclic (h : Heap) (root : Ptr)
    (hfin : Set.Finite {d | Reachable h root d})
    (hacyc : ∀ d, Reachable h root d → ¬ Relation.TransGen (walk_link h) d d) :
    ∀ d, Reachable h root d → Acc (fun y x => walk_link h x y) d := by
  haveI : Finite {d | Reachable h root d} := hfin.to_subtype
  let r : {d | Reachable h root d} → {d | Reachable h root d} → Prop :=
    fun x y => Relation.TransGen (walk_link h) y.1 x.1
  haveI : IsTrans _ r := ⟨fun _ _ _ hab hbc => Relation.TransGen.trans hbc hab⟩
  haveI : IsIrrefl _ r := ⟨fun x hx => hacyc x.1 x.2 hx⟩
  have hwf : WellFounded r := Finite.wellFounded_of_trans_of_irrefl r
  intro d hd
  have key : ∀ x : {d | Reachable h root d}, Acc (fun y x => walk_link h x y) x.1 := by
    intro x
    induction x using hwf.induction with
    | _ x ih =>
      refine Acc.intro _ (fun y hy => ?_)
      exact ih ⟨y, reachable_walk_link h root x.1 y x.2 hy⟩ (Relation.TransGen.single hy)
  exact key ⟨d, hd⟩

/-- Links that all raise a rank form no cycle. -/
theorem acyclic_of_rank (h : Heap) (rank : Ptr → Nat)
    (hrank : ∀ d d', walk_link h d d' → rank d < rank d') (d : Ptr) :
    ¬ Relation.TransGen (walk_link h) d d := by
  have key : ∀ a b, Relation.TransGen (walk_link h) a b → rank a < rank b := by
    intro a b hab
    induction hab with
    | single hl => exact hrank _ _ hl
    | tail _ hl ih => exact lt_trans ih (hrank _ _ hl)
  intro hd
  exact lt_irrefl _ (key d d hd)

theorem small_reachable (d : Ptr) (hd : Reachable small 0 d) : d = 1 ∨ d = 2 ∨ d = 3 := by
  induction hd with
  | attributes ha =>
    simp only [small, Option.some.injEq] at ha
    exact Or.inl ha.symm
  | next _ hn ih =>
    rcases ih with rfl | rfl | rfl <;> simp only [small, Option.some.injEq, reduceCtorEq] at hn
    exact Or.inr (Or.inl hn.symm)
  | content _ _ hc ih =>
    rcases ih with rfl | rfl | rfl <;> simp only [small, Option.some.injEq, reduceCtorEq] at hc
    exact Or.inr (Or.inr hc.symm)

theorem small_walk_link (d d' : Ptr) (hl : walk_link small d d') : d < d' := by
  unfold walk_link at hl
  match d, hl with
  | 0, hl => simp [small] at hl
  | 1, hl =>
    simp only [small, Option.some.injEq, reduceCtorEq, and_false, or_false] at hl
    exact hl ▸ Nat.lt_succ_self 1
  | 2, hl =>
    simp only [small, Option.some.injEq, reduceCtorEq, false_or, follows_content,
      true_and] at hl
    exact hl ▸ Nat.lt_succ_self 2
  | 3, hl => simp [small] at hl
  | n + 4, hl => simp [small] at hl

theorem looping_reachable (d : Ptr) (hd : Relation.ReflTransGen (link looping) 0 d) :
    d ≤ 1 ∧ (looping d).type = ELEMENT := by
  induction hd with
  | refl => exact ⟨Nat.zero_le _, rfl⟩
  | @tail b c _ hl ih =>
    obtain ⟨hb, -⟩ := ih
    have hc : c = 1 := by
      unfold link at hl
      match b, hb, hl with
      | 0, _, hl =>
        simp only [looping, Option.some.injEq, reduceCtorEq, or_false] at hl
        exact hl.symm
      | 1, _, hl =>
        simp only [looping, Option.some.injEq, reduceCtorEq, false_or] at hl
        exact hl.symm
    subst hc
    exact ⟨le_refl _, rfl⟩

theorem looping_children_loop (fuel : Nat) (st : MatchingState) (acc : List MatchItem)
    (hinit : st.is_initial_state = false) :
    children_loop looping fuel st (some 1) acc = .error .out_of_fuel := by
  induction fuel generalizing st acc with
  | zero => simp [children_loop]
  | succ n ih =>
    cases n with
    | zero => simp [children_loop, process_matching_state]
    | succ m =>
      simp only [children_loop, process_matching_state, hinit, Bool.false_eq_true, if_false]
      have ht : (looping 1).type = ELEMENT := rfl
      have hn : (looping 1).next = some 1 := rfl
      simp only [ht, hn]
      exact ih _ _ rfl

/-- C12, as the claim puts it, fails: with two ELEMENT defines, the second the
    attributes of the first and its own `next`, every define that the three links
    lead to from the first is one of the two and is an ELEMENT, so the graph is
    finite and every cycle passes through an ELEMENT only; yet the walk runs out
    of every fuel, as the loop of `process_attributes_group` follows the `next`
    link for ever. -/
theorem next_cycle_counterexample :
    (∀ d, Relation.ReflTransGen (link looping) 0 d → d ≤ 1 ∧ (looping d).type = ELEMENT) ∧
    (∀ fuel node,
      ide_xml_completion_attributes_get_matches looping fuel 0 node = .error .out_of_fuel) ∧
    ∀ node, ¬ terminates looping 0 node := by
  have hloop : ∀ fuel node,
      ide_xml_completion_attributes_get_matches looping fuel 0 node = .error .out_of_fuel := by
    intro fuel node
    have ha : (looping 0).attributes = some 1 := rfl
    have ht : (looping 0).type = ELEMENT := rfl
    match fuel with
    | 0 => simp [ide_xml_completion_attributes_get_matches, ha, process_matching_state]
    | 1 =>
      simp [ide_xml_completion_attributes_get_matches, ha, process_matching_state,
        create_initial_matching_state, process_attributes_group]
    | k + 2 =>
      simp only [ide_xml_completion_attributes_get_matches, ha, reduceCtorEq, if_false,
        process_matching_state, create_initial_matching_state, if_true,
        process_attributes_group, ht]
      rw [looping_children_loop k _ _ rfl]
  refine ⟨looping_reachable, hloop, ?_⟩
  rintro node ⟨fuel, r, hr, hf⟩
  exact hr ((hf fuel (le_refl _)).symm.trans (hloop fuel node))

/-- C12, amended: the walk of `ide_xml_completion_attributes_get_matches` ends
    for every define and node, provided the defines reachable from
    `define->attributes` by the links the walk follows (the `next` link of every
    define, and the content link of ref, define, parentRef, externalRef, group,
    interleave, choice, optional, zeroOrMore and oneOrMore defines) are
    finitely many and these links form no cycle among them. A cycle through the
    content or the attributes of an ELEMENT is no such cycle; a finite grammar
    without any cycle has none. -/
theorem get_matches_terminates (h : Heap) (define : Ptr) (node : Option IdeXmlSymbolNode)
    (hfin : Set.Finite {d | Reachable h define d})
    (hacyc : ∀ d, Reachable h define d → ¬ Relation.TransGen (walk_link h) d d) :
    terminates h define node :=
  terminates_of_acc h define node
    (fun a ha => acc_of_finite_acyclic h define hfin hacyc a (Reachable.attributes ha))

/-- Witness for C12: the small grammar, whose links all lead to a higher
    pointer. -/
theorem get_matches_terminates_witness :
    Set.Finite {d | Reachable small 0 d} ∧
    (∀ d, Reachable small 0 d → ¬ Relation.TransGen (walk_link small) d d) ∧
    terminates small 0 (some ⟨some ["id"]⟩) :=
  have hfin : Set.Finite {d | Reachable small 0 d} :=
    Set.Finite.subset (Set.toFinite ({1, 2, 3} : Set Ptr)) (fun d hd => by
      rcases small_reachable d hd with rfl | rfl | rfl <;> simp)
  have hacyc : ∀ d, Reachable small 0 d → ¬ Relation.TransGen (walk_link small) d d :=
    fun d _ => acyclic_of_rank small id small_walk_link d
  ⟨hfin, hacyc, get_matches_terminates small 0 (some ⟨some ["id"]⟩) hfin hacyc⟩

end XmlAttributes
